import Mathlib

/-!
Verification of the chinese-law-mcp ingestion/normalization core.

Shallow embedding of:
* `src/utils/chinese-numerals.ts` (numeral codec),
* `scripts/fetcher.ts` (`fetchWithRateLimit` retry loop),
* `scripts/build-db.ts` (`normalizeWhitespace`, `pickPreferredProvision`,
  `dedupeProvisions`),
* `scripts/html-parser.ts` (`parseNpcHtml` paragraph loop),
* `src/utils/fts-query.ts` (`buildFtsQueryVariants`),
* `src/formatters/citation.ts` (`formatCitation`) and
  `src/parsers/citation.ts` (`parseCitation`).

JavaScript strings are modelled as Lean `String`/`List Char`; JS `number`
results that are always non-negative integers in the modelled code are
modelled as `Nat`; absent (`undefined`) optional fields as `Option`.
-/

namespace CLM

/-! ## JS string primitives -/

/-- The JavaScript `\\s` character class (whitespace), as used by `trim()`
and the `\\s` regex atom: space, tab, LF, VT, FF, CR, NBSP, U+1680, the
U+2000 block, line/paragraph separators, U+202F, U+205F, ideographic
space U+3000, and the BOM U+FEFF (given by code point). -/
def jsSpace (c : Char) : Bool :=
  let n := c.toNat
  n = 0x20 ∨ n = 0x9 ∨ n = 0xa ∨ n = 0xb ∨ n = 0xc ∨ n = 0xd ∨
  n = 0xa0 ∨ n = 0x1680 ∨ (0x2000 ≤ n ∧ n ≤ 0x200a) ∨
  n = 0x2028 ∨ n = 0x2029 ∨ n = 0x202f ∨ n = 0x205f ∨ n = 0x3000 ∨
  n = 0xfeff

/-- JS `String.prototype.trim()` on a character list. -/
def jsTrim (l : List Char) : List Char :=
  ((l.dropWhile jsSpace).reverse.dropWhile jsSpace).reverse

/-- JS digit characters (`\d`). -/
def isDigitChar (c : Char) : Bool := '0' ≤ c ∧ c ≤ '9'

/-- JS word characters (`\w` without the `u` flag): ASCII letters, digits,
underscore. -/
def isWordChar (c : Char) : Bool :=
  ('a' ≤ c ∧ c ≤ 'z') ∨ ('A' ≤ c ∧ c ≤ 'Z') ∨ isDigitChar c ∨ c = '_'

/-- ASCII lower-casing, as performed by the regex `i` flag on literals. -/
def asciiLower (c : Char) : Char :=
  if 'A' ≤ c ∧ c ≤ 'Z' then Char.ofNat (c.val.toNat + 32) else c

/-- Decimal digit value of a digit character. -/
def digitVal (c : Char) : Nat := c.val.toNat - '0'.val.toNat

/-- Decimal representation of a natural number, fuelled so that it reduces
in the kernel; `decChars` supplies sufficient fuel. -/
def decCharsAux : Nat → Nat → List Char
  | 0, _ => []
  | fuel + 1, n =>
    if n < 10 then [Nat.digitChar n]
    else decCharsAux fuel (n / 10) ++ [Nat.digitChar (n % 10)]

/-- Decimal representation of a natural number (the model of JavaScript
`String(num)` for a non-negative integer). -/
def decChars (n : Nat) : List Char := decCharsAux (n + 1) n

/-- Numeric value of a decimal digit string. -/
def digitsVal (l : List Char) : Nat :=
  l.foldl (fun acc c => acc * 10 + digitVal c) 0

/-- The model of JavaScript `parseInt(s, 10)`: skip leading whitespace,
optional sign, then a leading run of decimal digits; `none` models `NaN`
(no digits found).  Modelled for the non-negative case used by the code
(`-` yields a negative number in JS; the modelled call sites only ever
receive unsigned material, and a leading `-` never precedes a digit in
any of them, so a sign character simply yields `none` here when no digit
follows, as in JS). -/
def jsParseInt (l : List Char) : Option Int :=
  let l1 := l.dropWhile jsSpace
  let neg : Bool := l1.head? = some '-'
  let l2 := if l1.head? = some '-' ∨ l1.head? = some '+' then l1.tail else l1
  let digs := l2.takeWhile isDigitChar
  if digs.isEmpty then none
  else some (if neg then -(digitsVal digs : Int) else (digitsVal digs : Int))

/-! ## Numeral codec (`src/utils/chinese-numerals.ts`) -/

/-- `CHINESE_DIGITS`: digit glyphs (common and formal/financial variants). -/
def chineseDigit : Char → Option Nat
  | '零' => some 0 | '〇' => some 0
  | '一' => some 1 | '壹' => some 1
  | '二' => some 2 | '贰' => some 2 | '两' => some 2
  | '三' => some 3 | '叁' => some 3
  | '四' => some 4 | '肆' => some 4
  | '五' => some 5 | '伍' => some 5
  | '六' => some 6 | '陆' => some 6
  | '七' => some 7 | '柒' => some 7
  | '八' => some 8 | '捌' => some 8
  | '九' => some 9 | '玖' => some 9
  | _ => none

/-- `CHINESE_MULTIPLIERS`: multiplier glyphs. -/
def chineseMultiplier : Char → Option Nat
  | '十' => some 10 | '拾' => some 10
  | '百' => some 100 | '佰' => some 100
  | '千' => some 1000 | '仟' => some 1000
  | _ => none

/-- The scanning loop of `chineseToArabic` (chars, index `i`, `result`,
`currentNum`); the source also tracks a `lastMultiplier` variable that is
written but never read, so it is omitted.  The trailing
`result += currentNum` is the `[]` case. -/
def c2aLoop : List Char → Nat → Nat → Nat → Nat
  | [], _, result, currentNum => result + currentNum
  | c :: rest, i, result, currentNum =>
    match chineseDigit c with
    | some d => c2aLoop rest (i + 1) result d
    | none =>
      match chineseMultiplier c with
      | some m =>
        if currentNum = 0 ∧ m = 10 ∧ i = 0 then
          c2aLoop rest (i + 1) (result + 10) 0
        else
          c2aLoop rest (i + 1) (result + currentNum * m) 0
      | none => c2aLoop rest (i + 1) result currentNum

/-- `chineseToArabic`: convert a Chinese numeral string to a number. -/
def chineseToArabic (s : String) : Nat :=
  let chars := jsTrim s.data
  match chars with
  | [] => 0
  | [c] =>
    match chineseDigit c with
    | some d => d
    | none => if c = '十' then 10 else 0
  | _ => c2aLoop chars 0 0 0

/-- `ARABIC_TO_CHINESE[d]` for a decimal digit `d`. -/
def arabicChineseDigit (d : Nat) : Char :=
  ['零', '一', '二', '三', '四', '五', '六', '七', '八', '九'].getD d '零'

/-- `arabicToChinese`: convert a number to a Chinese numeral string.
The source returns `String(num)` for `num < 0 || num > 9999`; negative
inputs cannot arise for `Nat`, so only the `> 9999` fallback is modelled. -/
def arabicToChinese (num : Nat) : String :=
  if num > 9999 then String.mk (decChars num)
  else if num = 0 then "零"
  else
    let thousands := num / 1000
    let hundreds := num % 1000 / 100
    let tens := num % 100 / 10
    let ones := num % 10
    let parts : List (List Char) :=
      (if thousands > 0 then [[arabicChineseDigit thousands, '千']] else [])
      ++ (if hundreds > 0 then [[arabicChineseDigit hundreds, '百']]
          else if thousands > 0 ∧ (tens > 0 ∨ ones > 0) then [['零']] else [])
      ++ (if tens > 0 then
            if tens = 1 ∧ thousands = 0 ∧ hundreds = 0 then [['十']]
            else [[arabicChineseDigit tens, '十']]
          else if hundreds > 0 ∧ ones > 0 then [['零']] else [])
      ++ (if ones > 0 then [[arabicChineseDigit ones]] else [])
    String.mk parts.flatten

/-! ## Round-trip of the numeral codec -/

/-- The flattened `parts` list built by `arabicToChinese` for digit values
`t`, `h`, `te`, `o` (thousands, hundreds, tens, ones). -/
def partsChars (t h te o : Nat) : List Char :=
  (if t > 0 then [arabicChineseDigit t, '千'] else [])
  ++ (if h > 0 then [arabicChineseDigit h, '百']
      else if t > 0 ∧ (te > 0 ∨ o > 0) then ['零'] else [])
  ++ (if te > 0 then
        if te = 1 ∧ t = 0 ∧ h = 0 then ['十']
        else [arabicChineseDigit te, '十']
      else if h > 0 ∧ o > 0 then ['零'] else [])
  ++ (if o > 0 then [arabicChineseDigit o] else [])

/-- The body of `chineseToArabic` after trimming. -/
def c2aCore (l : List Char) : Nat :=
  match l with
  | [] => 0
  | [c] =>
    match chineseDigit c with
    | some d => d
    | none => if c = '十' then 10 else 0
  | _ => c2aLoop l 0 0 0

theorem arabicToChinese_eq_parts (n : Nat) (h1 : 1 ≤ n) (h2 : n ≤ 9999) :
    arabicToChinese n = String.mk (partsChars (n / 1000) (n % 1000 / 100) (n % 100 / 10) (n % 10)) := by
  unfold arabicToChinese partsChars
  rw [if_neg (by omega), if_neg (by omega)]
  dsimp only
  split_ifs <;> rfl

theorem digit_glyph {d : Nat} (h1 : 1 ≤ d) (h2 : d ≤ 9) :
    chineseDigit (arabicChineseDigit d) = some d := by
  interval_cases d <;> rfl

theorem glyph_nonspace {d : Nat} (h2 : d ≤ 9) :
    jsSpace (arabicChineseDigit d) = false := by
  interval_cases d <;> rfl

theorem dropWhile_nonspace (l : List Char) (h : ∀ c ∈ l, jsSpace c = false) :
    l.dropWhile jsSpace = l := by
  cases l with
  | nil => rfl
  | cons c rest =>
    rw [List.dropWhile_cons, if_neg (by simp [h c (List.mem_cons_self c rest)])]

theorem jsTrim_of_nonspace (l : List Char) (h : ∀ c ∈ l, jsSpace c = false) :
    jsTrim l = l := by
  unfold jsTrim
  rw [dropWhile_nonspace l h, dropWhile_nonspace l.reverse
    (fun c hc => h c (List.mem_reverse.mp hc)), List.reverse_reverse]

theorem chineseToArabic_mk (l : List Char) (h : ∀ c ∈ l, jsSpace c = false) :
    chineseToArabic (String.mk l) = c2aCore l := by
  unfold chineseToArabic c2aCore
  rw [show (String.mk l).data = l from rfl, jsTrim_of_nonspace l h]

theorem mem_ite_cases {α : Type} {c : Prop} [Decidable c] {a b : List α} {x : α}
    (hx : x ∈ (if c then a else b)) : x ∈ a ∨ x ∈ b := by
  split at hx
  · exact Or.inl hx
  · exact Or.inr hx

theorem partsChars_nonspace (t h te o : Nat) (ht : t ≤ 9) (hh : h ≤ 9)
    (hte : te ≤ 9) (ho : o ≤ 9) :
    ∀ c ∈ partsChars t h te o, jsSpace c = false := by
  intro c hc
  unfold partsChars at hc
  simp only [List.mem_append] at hc
  rcases hc with ((hc | hc) | hc) | hc
  · rcases mem_ite_cases hc with hc | hc
    · simp only [List.mem_cons, List.not_mem_nil, or_false] at hc
      rcases hc with rfl | rfl
      · exact glyph_nonspace ht
      · rfl
    · exact absurd hc (List.not_mem_nil c)
  · rcases mem_ite_cases hc with hc | hc
    · simp only [List.mem_cons, List.not_mem_nil, or_false] at hc
      rcases hc with rfl | rfl
      · exact glyph_nonspace hh
      · rfl
    · rcases mem_ite_cases hc with hc | hc
      · simp only [List.mem_cons, List.not_mem_nil, or_false] at hc
        subst hc; rfl
      · exact absurd hc (List.not_mem_nil c)
  · rcases mem_ite_cases hc with hc | hc
    · rcases mem_ite_cases hc with hc | hc
      · simp only [List.mem_cons, List.not_mem_nil, or_false] at hc
        subst hc; rfl
      · simp only [List.mem_cons, List.not_mem_nil, or_false] at hc
        rcases hc with rfl | rfl
        · exact glyph_nonspace hte
        · rfl
    · rcases mem_ite_cases hc with hc | hc
      · simp only [List.mem_cons, List.not_mem_nil, or_false] at hc
        subst hc; rfl
      · exact absurd hc (List.not_mem_nil c)
  · rcases mem_ite_cases hc with hc | hc
    · simp only [List.mem_cons, List.not_mem_nil, or_false] at hc
      subst hc; exact glyph_nonspace ho
    · exact absurd hc (List.not_mem_nil c)

theorem loop_nil (i r cur : Nat) : c2aLoop [] i r cur = r + cur := rfl

theorem loop_digit {c : Char} {d : Nat} (hd : chineseDigit c = some d)
    (rest : List Char) (i r cur : Nat) :
    c2aLoop (c :: rest) i r cur = c2aLoop rest (i + 1) r d := by
  simp [c2aLoop, hd]

theorem loop_mult {c : Char} {m : Nat} (hd : chineseDigit c = none)
    (hm : chineseMultiplier c = some m)
    (rest : List Char) (i r cur : Nat) (hnot : ¬(cur = 0 ∧ m = 10 ∧ i = 0)) :
    c2aLoop (c :: rest) i r cur = c2aLoop rest (i + 1) (r + cur * m) 0 := by
  simp [c2aLoop, hd, hm, hnot]

theorem loop_mult_lead {c : Char} (hd : chineseDigit c = none)
    (hm : chineseMultiplier c = some 10) (rest : List Char) (r : Nat) :
    c2aLoop (c :: rest) 0 r 0 = c2aLoop rest 1 (r + 10) 0 := by
  simp [c2aLoop, hd, hm]

theorem loop_qian_step {t : Nat} (h1 : 1 ≤ t) (h9 : t ≤ 9)
    (rest : List Char) (i r cur : Nat) :
    c2aLoop (arabicChineseDigit t :: '千' :: rest) i r cur
      = c2aLoop rest (i + 2) (r + t * 1000) 0 := by
  rw [loop_digit (digit_glyph h1 h9),
    loop_mult (show chineseDigit '千' = none from rfl)
      (show chineseMultiplier '千' = some 1000 from rfl) _ _ _ _ (by omega)]

theorem loop_bai_step {h : Nat} (h1 : 1 ≤ h) (h9 : h ≤ 9)
    (rest : List Char) (i r cur : Nat) :
    c2aLoop (arabicChineseDigit h :: '百' :: rest) i r cur
      = c2aLoop rest (i + 2) (r + h * 100) 0 := by
  rw [loop_digit (digit_glyph h1 h9),
    loop_mult (show chineseDigit '百' = none from rfl)
      (show chineseMultiplier '百' = some 100 from rfl) _ _ _ _ (by omega)]

theorem loop_shi_step {te : Nat} (h1 : 1 ≤ te) (h9 : te ≤ 9)
    (rest : List Char) (i r cur : Nat) :
    c2aLoop (arabicChineseDigit te :: '十' :: rest) i r cur
      = c2aLoop rest (i + 2) (r + te * 10) 0 := by
  rw [loop_digit (digit_glyph h1 h9),
    loop_mult (show chineseDigit '十' = none from rfl)
      (show chineseMultiplier '十' = some 10 from rfl) _ _ _ _ (by omega)]

theorem loop_ling (rest : List Char) (i r cur : Nat) :
    c2aLoop ('零' :: rest) i r cur = c2aLoop rest (i + 1) r 0 :=
  loop_digit (show chineseDigit '零' = some 0 from rfl) rest i r cur

theorem loop_po {o : Nat} (ho : o ≤ 9) (i r : Nat) :
    c2aLoop (if o > 0 then [arabicChineseDigit o] else []) i r 0 = r + o := by
  by_cases hp : o > 0
  · rw [if_pos hp, loop_digit (digit_glyph hp ho), loop_nil]
  · rw [if_neg hp, loop_nil]; omega

theorem c2aCore_cons2 (a b : Char) (l : List Char) :
    c2aCore (a :: b :: l) = c2aLoop (a :: b :: l) 0 0 0 := rfl

theorem loop_ling_po {o : Nat} (ho : o ≤ 9) {cnd : Prop} [Decidable cnd]
    (hiff : cnd ↔ o > 0) (i r : Nat) :
    c2aLoop ((if cnd then ['零'] else [])
      ++ (if o > 0 then [arabicChineseDigit o] else [])) i r 0 = r + o := by
  by_cases hp : o > 0
  · rw [if_pos (hiff.mpr hp), List.cons_append, List.nil_append, loop_ling,
      loop_po ho]
  · rw [if_neg (fun hcc => hp (hiff.mp hcc)), List.nil_append, loop_po ho]

theorem c2aCore_single_digit {c : Char} {d : Nat} (hd : chineseDigit c = some d) :
    c2aCore [c] = d := by
  simp [c2aCore, hd]

theorem roundtrip_digits (t h te o : Nat) (ht : t ≤ 9) (hh : h ≤ 9)
    (hte : te ≤ 9) (ho : o ≤ 9) (hpos : 0 < 1000 * t + 100 * h + 10 * te + o) :
    chineseToArabic (String.mk (partsChars t h te o))
      = 1000 * t + 100 * h + 10 * te + o := by
  rw [chineseToArabic_mk _ (partsChars_nonspace t h te o ht hh hte ho)]
  unfold partsChars
  by_cases h1 : t > 0
  · rw [if_pos h1]
    by_cases h2 : h > 0
    · rw [if_pos h2]
      by_cases h3 : te > 0
      · rw [if_pos h3, if_neg (by omega)]
        simp only [List.cons_append, List.nil_append]
        rw [c2aCore_cons2, loop_qian_step (by omega) ht,
          loop_bai_step (by omega) hh, loop_shi_step (by omega) hte, loop_po ho]
        omega
      · rw [if_neg h3]
        simp only [List.cons_append, List.nil_append, List.append_assoc]
        rw [c2aCore_cons2, loop_qian_step (by omega) ht,
          loop_bai_step (by omega) hh, loop_ling_po ho (by omega)]
        omega
    · rw [if_neg h2]
      by_cases h3 : te > 0
      · rw [if_pos (by omega), if_pos h3, if_neg (by omega)]
        simp only [List.cons_append, List.nil_append]
        rw [c2aCore_cons2, loop_qian_step (by omega) ht, loop_ling,
          loop_shi_step (by omega) hte, loop_po ho]
        omega
      · rw [if_neg h3, if_neg (show ¬(h > 0 ∧ o > 0) by omega)]
        simp only [List.cons_append, List.nil_append, List.append_nil,
          List.append_assoc]
        rw [c2aCore_cons2, loop_qian_step (by omega) ht,
          loop_ling_po ho (by omega)]
        omega
  · rw [if_neg h1, if_neg (show ¬(t > 0 ∧ (te > 0 ∨ o > 0)) by omega)]
    by_cases h2 : h > 0
    · rw [if_pos h2]
      by_cases h3 : te > 0
      · rw [if_pos h3, if_neg (by omega)]
        simp only [List.cons_append, List.nil_append]
        rw [c2aCore_cons2, loop_bai_step (by omega) hh,
          loop_shi_step (by omega) hte, loop_po ho]
        omega
      · rw [if_neg h3]
        simp only [List.cons_append, List.nil_append, List.append_assoc]
        rw [c2aCore_cons2, loop_bai_step (by omega) hh,
          loop_ling_po ho (by omega)]
        omega
    · rw [if_neg h2]
      by_cases h3 : te > 0
      · by_cases h4 : te = 1
        · rw [if_pos h3, if_pos (by omega)]
          by_cases hp : o > 0
          · rw [if_pos hp]
            simp only [List.cons_append, List.nil_append]
            rw [c2aCore_cons2,
              loop_mult_lead (show chineseDigit '十' = none from rfl)
                (show chineseMultiplier '十' = some 10 from rfl),
              loop_digit (digit_glyph hp ho), loop_nil]
            omega
          · rw [if_neg hp]
            simp only [List.nil_append, List.append_nil]
            rw [show c2aCore ['十'] = 10 from rfl]
            omega
        · rw [if_pos h3, if_neg (by omega)]
          simp only [List.cons_append, List.nil_append]
          rw [c2aCore_cons2, loop_shi_step (by omega) hte, loop_po ho]
          omega
      · rw [if_neg h3, if_neg (show ¬(h > 0 ∧ o > 0) by omega)]
        simp only [List.nil_append, List.append_nil]
        by_cases hp : o > 0
        · rw [if_pos hp, c2aCore_single_digit (digit_glyph hp ho)]
          omega
        · omega

theorem numeral_roundtrip (n : Nat) (h1 : 1 ≤ n) (h2 : n ≤ 9999) :
    chineseToArabic (arabicToChinese n) = n := by
  rw [arabicToChinese_eq_parts n h1 h2,
    roundtrip_digits (n / 1000) (n % 1000 / 100) (n % 100 / 10) (n % 10)
      (by omega) (by omega) (by omega) (by omega) (by omega)]
  omega

/-- **C1** — For every integer `n` with `1 ≤ n ≤ 9999`, converting `n` to a
numeral string with `fromInteger` (`arabicToChinese`) and converting the
result back with `toInteger` (`chineseToArabic`) yields `n` again. -/
theorem C1_numeral_codec_roundtrip (n : Nat) (h1 : 1 ≤ n) (h2 : n ≤ 9999) :
    chineseToArabic (arabicToChinese n) = n :=
  numeral_roundtrip n h1 h2

/-- Witness for C1 at `n = 103` (and spot value `一百零三`). -/
theorem C1_numeral_codec_roundtrip_witness :
    1 ≤ 103 ∧ 103 ≤ 9999 ∧ chineseToArabic (arabicToChinese 103) = 103 :=
  ⟨by decide, by decide, C1_numeral_codec_roundtrip 103 (by decide) (by decide)⟩

/-! ## C7: lenient parsing of unrecognized glyphs -/

/-- A character recognized by the numeral scanner (digit or multiplier glyph). -/
def recognizedNumeralGlyph (c : Char) : Bool :=
  (chineseDigit c).isSome || (chineseMultiplier c).isSome

/-- The input with all unrecognized glyphs removed ("ignored"), against
which C7 compares the scan result. -/
def stripUnrecognized (s : String) : String :=
  String.mk (s.data.filter recognizedNumeralGlyph)

/-- **C7 counterexample** — `chineseToArabic` does *not* in general equal the
scan of the same string with unrecognized glyphs removed: the "leading ten"
rule tests the position in the raw string, so an unrecognized glyph before a
leading `十` changes the result.  `"法十一"` scans to `1` (the `十` is no
longer at index 0, and `currentNum` is `0` when it is reached), while the
stripped string `"十一"` scans to `11`. -/
theorem C7_counterexample :
    chineseToArabic "法十一" = 1 ∧
    stripUnrecognized "法十一" = "十一" ∧
    chineseToArabic (stripUnrecognized "法十一") = 11 ∧
    chineseToArabic "法十一" ≠ chineseToArabic (stripUnrecognized "法十一") := by
  refine ⟨by decide, by decide, by decide, by decide⟩

/-- **C7 (amended)** — `toInteger` is total (it returns a number for every
input, modelled by `chineseToArabic` being a Lean function into `Nat`), and
an unrecognized glyph contributes zero and scanning continues: the scan loop
leaves `result` and `currentNum` unchanged on such a glyph.  The result can
however differ from scanning the string with unrecognized glyphs *removed*,
because the leading-`十` special case and the single-character fallback are
position/length sensitive (see the counterexample). -/
theorem C7_unrecognized_glyph_skips (c : Char) (rest : List Char)
    (i r cur : Nat) (hd : chineseDigit c = none)
    (hm : chineseMultiplier c = none) :
    c2aLoop (c :: rest) i r cur = c2aLoop rest (i + 1) r cur := by
  simp [c2aLoop, hd, hm]

/-- Witness for the amended C7 at the glyph `法` inside `"法十一"`. -/
theorem C7_unrecognized_glyph_skips_witness :
    chineseDigit '法' = none ∧ chineseMultiplier '法' = none ∧
    c2aLoop ['法', '十', '一'] 0 0 0 = c2aLoop ['十', '一'] 1 0 0 :=
  ⟨rfl, rfl, C7_unrecognized_glyph_skips '法' ['十', '一'] 0 0 0 rfl rfl⟩

/-! ## Rate-limited fetcher (`scripts/fetcher.ts`, `fetchWithRateLimit`)

The retry loop is modelled with the sequence of per-attempt outcomes made
explicit: attempt `k` observes the `k`-th entry of `outcomes` (either an
HTTP response or a transport-level failure thrown by `fetch`).  `Except`
models normal return vs. a thrown error.  The `[]` case models running out
of supplied outcomes; the boundedness lemma shows at most
`maxRetries + 1` outcomes are ever consulted. -/

structure FetchResult where
  status : Nat
  body : String
  contentType : String
deriving DecidableEq

inductive AttemptOutcome where
  | response (status : Nat) (body : String) (contentType : String)
  | transportError (msg : String)
deriving DecidableEq

/-- The `for (let attempt = 0; attempt <= maxRetries; attempt++)` loop of
`fetchWithRateLimit`: a 429/5xx response with retries left continues; any
other response returns its status/body; a transport error with retries left
continues, otherwise it is rethrown. -/
def fetchGo (maxRetries : Nat) : List AttemptOutcome → Nat → Except String FetchResult
  | [], _ => Except.error "no outcome supplied"
  | AttemptOutcome.response st body ct :: rest, attempt =>
    if (st = 429 ∨ st ≥ 500) ∧ attempt < maxRetries then
      fetchGo maxRetries rest (attempt + 1)
    else
      Except.ok ⟨st, body, ct⟩
  | AttemptOutcome.transportError msg :: rest, attempt =>
    if attempt < maxRetries then fetchGo maxRetries rest (attempt + 1)
    else Except.error msg

/-- `fetchWithRateLimit(url, maxRetries)` (the rate-limiting delay has no
effect on the returned value and is not modelled). -/
def fetchWithRateLimit (outcomes : List AttemptOutcome) (maxRetries : Nat) :
    Except String FetchResult :=
  fetchGo maxRetries outcomes 0

theorem fetchGo_bounded (outs : List AttemptOutcome) :
    ∀ (m attempt : Nat) (extra : List AttemptOutcome), attempt ≤ m →
      outs.length = m + 1 - attempt →
      fetchGo m (outs ++ extra) attempt = fetchGo m outs attempt := by
  induction outs with
  | nil =>
    intro m attempt extra hle hlen
    simp only [List.length_nil] at hlen
    omega
  | cons a rest ih =>
    intro m attempt extra hle hlen
    simp only [List.length_cons] at hlen
    cases a with
    | response st body ct =>
      by_cases hc : (st = 429 ∨ st ≥ 500) ∧ attempt < m
      · simp only [List.cons_append, fetchGo, if_pos hc]
        exact ih m (attempt + 1) extra (by omega) (by omega)
      · simp only [List.cons_append, fetchGo, if_neg hc]
    | transportError msg =>
      by_cases hc : attempt < m
      · simp only [List.cons_append, fetchGo, if_pos hc]
        exact ih m (attempt + 1) extra (by omega) (by omega)
      · simp only [List.cons_append, fetchGo, if_neg hc]

/-- **C2 counterexample** — with a 3-retry budget, four consecutive 500
responses do *not* surface a terminal failure: the final iteration has no
retries left, falls through the retry branch, and *returns the last 500
response as a normal (success-shaped) `FetchResult`*.  The caller gets
`Except.ok` with `status = 500`, not an error. -/
theorem C2_counterexample :
    fetchWithRateLimit
      [AttemptOutcome.response 500 "e0" "", AttemptOutcome.response 500 "e1" "",
       AttemptOutcome.response 500 "e2" "", AttemptOutcome.response 500 "e3" ""] 3
      = Except.ok ⟨500, "e3", ""⟩ := by
  rfl

/-- **C2 (amended)** — with a 3-retry budget: (1) responses [500, 500, 200]
succeed with the 200 body; (2) four consecutive 500s exhaust the budget and
the *final 500 response itself is returned* (the failure is visible only in
its `status` field); (3) four consecutive transport errors rethrow the last
error as a terminal failure; (4) there is no unbounded retry: the outcome
of `fetchWithRateLimit` with budget `m` is determined by the first `m + 1`
attempt outcomes. -/
theorem C2_fetch_retry_amended :
    (∀ b0 b1 body ct,
      fetchWithRateLimit
        [AttemptOutcome.response 500 b0 "", AttemptOutcome.response 500 b1 "",
         AttemptOutcome.response 200 body ct] 3 = Except.ok ⟨200, body, ct⟩)
    ∧ (∀ e0 e1 e2 e3 ct,
      fetchWithRateLimit
        [AttemptOutcome.response 500 e0 "", AttemptOutcome.response 500 e1 "",
         AttemptOutcome.response 500 e2 "", AttemptOutcome.response 500 e3 ct] 3
        = Except.ok ⟨500, e3, ct⟩)
    ∧ (∀ m0 m1 m2 m3,
      fetchWithRateLimit
        [AttemptOutcome.transportError m0, AttemptOutcome.transportError m1,
         AttemptOutcome.transportError m2, AttemptOutcome.transportError m3] 3
        = Except.error m3)
    ∧ (∀ (outs extra : List AttemptOutcome) (m : Nat), outs.length = m + 1 →
      fetchWithRateLimit (outs ++ extra) m = fetchWithRateLimit outs m) := by
  refine ⟨fun b0 b1 body ct => rfl, fun e0 e1 e2 e3 ct => rfl,
    fun m0 m1 m2 m3 => rfl, fun outs extra m hlen => ?_⟩
  exact fetchGo_bounded outs m 0 extra (Nat.zero_le m) (by omega)

/-- Witness for the amended C2: the 500-500-200 scenario, and the
boundedness part at a concrete 4-outcome list with budget 3. -/
theorem C2_fetch_retry_amended_witness :
    fetchWithRateLimit
      [AttemptOutcome.response 500 "a" "", AttemptOutcome.response 500 "b" "",
       AttemptOutcome.response 200 "OK" "text/html"] 3
      = Except.ok ⟨200, "OK", "text/html"⟩
    ∧ fetchWithRateLimit
        ([AttemptOutcome.response 500 "e0" "", AttemptOutcome.response 500 "e1" "",
          AttemptOutcome.response 500 "e2" "", AttemptOutcome.response 500 "e3" ""]
          ++ [AttemptOutcome.response 200 "never" ""]) 3
      = fetchWithRateLimit
          [AttemptOutcome.response 500 "e0" "", AttemptOutcome.response 500 "e1" "",
           AttemptOutcome.response 500 "e2" "", AttemptOutcome.response 500 "e3" ""] 3 :=
  ⟨C2_fetch_retry_amended.1 "a" "b" "OK" "text/html",
   C2_fetch_retry_amended.2.2.2 _ _ 3 (by decide)⟩

/-! ## Dedup & merge engine (`scripts/build-db.ts`)

`ProvisionSeed` keeps the fields the dedup code reads or copies
(`metadata` is an opaque payload copied verbatim by the object spreads and
is omitted).  The JS `Map` is modelled as an association list with
insertion-order semantics: `set` on an existing key updates in place,
otherwise appends; `values()` is the second projection in list order. -/

structure ProvisionSeed where
  provision_ref : String
  chapter : Option String
  «section» : String
  title : Option String
  content : String
  language : Option String
deriving DecidableEq

structure ProvisionDedupStats where
  duplicate_refs : Nat
  conflicting_duplicates : Nat
deriving DecidableEq

/-- Map every JS-whitespace character to a plain space (first half of
`replace(/\s+/g, ' ')`). -/
def wsToSpace (c : Char) : Char := if jsSpace c then ' ' else c

/-- Collapse runs of spaces to a single space (together with `wsToSpace`
this is exactly `replace(/\s+/g, ' ')`: each maximal whitespace run becomes
one space). -/
def squashSpaces : List Char → List Char
  | [] => []
  | [c] => [c]
  | c :: d :: rest =>
    if c = ' ' ∧ d = ' ' then squashSpaces (d :: rest)
    else c :: squashSpaces (d :: rest)

/-- `normalizeWhitespace`: `text.replace(/\s+/g, ' ').trim()`. -/
def normalizeWhitespace (s : String) : String :=
  String.mk (jsTrim (squashSpaces (s.data.map wsToSpace)))

/-- `pickPreferredProvision`: keep the candidate with the longer
whitespace-normalized content (ties keep `existing`); `??` on the title
falls back only when the winner's own title is `undefined` (`none`). -/
def pickPreferredProvision (existing incoming : ProvisionSeed) : ProvisionSeed :=
  let existingContent := normalizeWhitespace existing.content
  let incomingContent := normalizeWhitespace incoming.content
  if incomingContent.length > existingContent.length then
    { incoming with title := incoming.title.orElse (fun _ => existing.title) }
  else
    { existing with title := existing.title.orElse (fun _ => incoming.title) }

/-- The grouping key `` `${provision.provision_ref}:${provision.language ?? 'zh'}` ``. -/
def provKey (p : ProvisionSeed) : String :=
  p.provision_ref ++ ":" ++ p.language.getD "zh"

/-- JS `Map.prototype.get`. -/
def mapGet (m : List (String × ProvisionSeed)) (k : String) : Option ProvisionSeed :=
  (m.find? (fun kv => kv.1 == k)).map (·.2)

/-- JS `Map.prototype.set`: update in place if the key exists (keeping its
insertion position), else append. -/
def mapSet (m : List (String × ProvisionSeed)) (k : String) (v : ProvisionSeed) :
    List (String × ProvisionSeed) :=
  if (m.find? (fun kv => kv.1 == k)).isSome then
    m.map (fun kv => if kv.1 == k then (kv.1, v) else kv)
  else m ++ [(k, v)]

/-- One iteration of the `for (const provision of provisions)` loop of
`dedupeProvisions`. -/
def dedupeStep (acc : List (String × ProvisionSeed) × ProvisionDedupStats)
    (provision : ProvisionSeed) :
    List (String × ProvisionSeed) × ProvisionDedupStats :=
  let byRef := acc.1
  let stats := acc.2
  let key := provKey provision
  match mapGet byRef key with
  | none =>
    (mapSet byRef key
      { provision with
        provision_ref := String.mk (jsTrim provision.provision_ref.data) },
     stats)
  | some existing =>
    (mapSet byRef key (pickPreferredProvision existing provision),
     { duplicate_refs := stats.duplicate_refs + 1,
       conflicting_duplicates := stats.conflicting_duplicates +
         (if normalizeWhitespace existing.content
             ≠ normalizeWhitespace provision.content then 1 else 0) })

/-- `dedupeProvisions`: fold the loop, then `Array.from(byRef.values())`. -/
def dedupeProvisions (provisions : List ProvisionSeed) :
    List ProvisionSeed × ProvisionDedupStats :=
  let acc := provisions.foldl dedupeStep ([], ⟨0, 0⟩)
  (acc.1.map (·.2), acc.2)

/-! ### C3: dedup idempotence -/

/-- A provision whose reference carries no surrounding whitespace. -/
def trimCleanSeed (p : ProvisionSeed) : Prop :=
  String.mk (jsTrim p.provision_ref.data) = p.provision_ref

/-- Invariant of the dedup map: keys are pairwise distinct, every stored
value's key equals its map key, and every stored reference is trim-clean. -/
def dedupInv (m : List (String × ProvisionSeed)) : Prop :=
  (m.map Prod.fst).Nodup ∧
  ∀ kv ∈ m, provKey kv.2 = kv.1 ∧ trimCleanSeed kv.2

theorem mapGet_none_iff {m : List (String × ProvisionSeed)} {k : String} :
    mapGet m k = none ↔ ∀ kv ∈ m, kv.1 ≠ k := by
  unfold mapGet
  rw [Option.map_eq_none', List.find?_eq_none]
  simp

theorem mapGet_some_mem {m : List (String × ProvisionSeed)} {k : String}
    {v : ProvisionSeed} (h : mapGet m k = some v) : (k, v) ∈ m := by
  unfold mapGet at h
  rw [Option.map_eq_some'] at h
  obtain ⟨kv, hfind, hsnd⟩ := h
  have hmem := List.mem_of_find?_eq_some hfind
  have hpred := List.find?_some hfind
  have hk : kv.1 = k := by simpa using hpred
  have : kv = (k, v) := by
    cases kv
    simp only at hk hsnd
    simp [hk, hsnd]
  exact this ▸ hmem

theorem provKey_pick (e i : ProvisionSeed) :
    provKey (pickPreferredProvision e i) = provKey e ∨
    provKey (pickPreferredProvision e i) = provKey i := by
  unfold pickPreferredProvision
  dsimp only
  split
  · exact Or.inr rfl
  · exact Or.inl rfl

theorem trimClean_pick {e i : ProvisionSeed} (he : trimCleanSeed e)
    (hi : trimCleanSeed i) : trimCleanSeed (pickPreferredProvision e i) := by
  unfold pickPreferredProvision
  dsimp only
  split
  · exact hi
  · exact he

theorem dedupeStep_none {m : List (String × ProvisionSeed)}
    {st : ProvisionDedupStats} {p : ProvisionSeed}
    (hget : mapGet m (provKey p) = none) (hp : trimCleanSeed p) :
    dedupeStep (m, st) p = (m ++ [(provKey p, p)], st) := by
  have hfind : m.find? (fun kv => kv.1 == provKey p) = none := by
    unfold mapGet at hget
    exact Option.map_eq_none'.mp hget
  unfold dedupeStep mapSet
  dsimp only
  rw [hget]
  simp only [hfind, Option.isSome_none, Bool.false_eq_true, if_false]
  have hp' : ({ p with provision_ref := String.mk (jsTrim p.provision_ref.data) }
      : ProvisionSeed) = p := by
    rw [hp]
  rw [hp']

theorem dedupeStep_inv {m : List (String × ProvisionSeed)}
    {st : ProvisionDedupStats} {p : ProvisionSeed}
    (hm : dedupInv m) (hp : trimCleanSeed p) :
    dedupInv (dedupeStep (m, st) p).1 := by
  cases hget : mapGet m (provKey p) with
  | none =>
    rw [dedupeStep_none hget hp]
    constructor
    · simp only [List.map_append, List.map_cons, List.map_nil]
      rw [List.nodup_append]
      refine ⟨hm.1, List.nodup_singleton _, ?_⟩
      intro k hk hk'
      simp only [List.mem_singleton] at hk'
      subst hk'
      obtain ⟨kv, hkv, hfst⟩ := List.mem_map.mp hk
      exact (mapGet_none_iff.mp hget kv hkv) hfst
    · intro kv hkv
      rcases List.mem_append.mp hkv with hkv | hkv
      · exact hm.2 kv hkv
      · simp only [List.mem_singleton] at hkv
        subst hkv
        exact ⟨rfl, hp⟩
  | some e =>
    have hfind : (m.find? (fun kv => kv.1 == provKey p)).isSome := by
      unfold mapGet at hget
      cases hf : m.find? (fun kv => kv.1 == provKey p) with
      | none => rw [hf] at hget; simp at hget
      | some kv => rfl
    have hstep : (dedupeStep (m, st) p).1
        = m.map (fun kv => if kv.1 == provKey p
            then (kv.1, pickPreferredProvision e p) else kv) := by
      unfold dedupeStep mapSet
      dsimp only
      rw [hget]
      simp only [hfind, if_true]
    rw [hstep]
    have hkeys : (m.map (fun kv => if kv.1 == provKey p
        then (kv.1, pickPreferredProvision e p) else kv)).map Prod.fst
        = m.map Prod.fst := by
      rw [List.map_map]
      refine List.map_congr_left ?_
      intro kv _
      simp only [Function.comp_apply]
      split <;> rfl
    have hemem : (provKey p, e) ∈ m := mapGet_some_mem hget
    have he := hm.2 _ hemem
    constructor
    · rw [hkeys]; exact hm.1
    · intro kv' hkv'
      obtain ⟨kv, hkv, hkv'eq⟩ := List.mem_map.mp hkv'
      by_cases hc : kv.1 == provKey p
      · rw [if_pos hc] at hkv'eq
        subst hkv'eq
        have hk : kv.1 = provKey p := by simpa using hc
        refine ⟨?_, trimClean_pick he.2 hp⟩
        rcases provKey_pick e p with hpk | hpk
        · rw [hpk]
          simp only [hk]
          exact he.1.trans (by simp [hk])
        · rw [hpk]; exact hk.symm ▸ rfl
      · rw [if_neg hc] at hkv'eq
        subst hkv'eq
        exact hm.2 kv hkv

theorem dedupeFold_inv (ps : List ProvisionSeed) :
    ∀ (acc : List (String × ProvisionSeed) × ProvisionDedupStats),
      dedupInv acc.1 → (∀ p ∈ ps, trimCleanSeed p) →
      dedupInv (ps.foldl dedupeStep acc).1 := by
  induction ps with
  | nil => intro acc hacc _; exact hacc
  | cons p rest ih =>
    intro acc hacc hclean
    rw [List.foldl_cons]
    have : dedupInv (dedupeStep acc p).1 := by
      have := @dedupeStep_inv acc.1 acc.2 p hacc
        (hclean p (List.mem_cons_self p rest))
      simpa using this
    exact ih _ this (fun q hq => hclean q (List.mem_cons_of_mem p hq))

theorem dedupeFold_fresh (vs : List ProvisionSeed) :
    ∀ (m0 : List (String × ProvisionSeed)) (st : ProvisionDedupStats),
      (∀ v ∈ vs, trimCleanSeed v) →
      (∀ v ∈ vs, ∀ kv ∈ m0, kv.1 ≠ provKey v) →
      (vs.map provKey).Nodup →
      vs.foldl dedupeStep (m0, st)
        = (m0 ++ vs.map (fun v => (provKey v, v)), st) := by
  induction vs with
  | nil => intro m0 st _ _ _; simp
  | cons v rest ih =>
    intro m0 st hclean hfresh hnodup
    have hget : mapGet m0 (provKey v) = none :=
      mapGet_none_iff.mpr (fun kv hkv =>
        hfresh v (List.mem_cons_self v rest) kv hkv)
    rw [List.foldl_cons, dedupeStep_none hget (hclean v (List.mem_cons_self v rest)),
      ih (m0 ++ [(provKey v, v)]) st
        (fun q hq => hclean q (List.mem_cons_of_mem v hq))
        ?_ ?_]
    · simp
    · intro q hq kv hkv
      rcases List.mem_append.mp hkv with hkv | hkv
      · exact hfresh q (List.mem_cons_of_mem v hq) kv hkv
      · simp only [List.mem_singleton] at hkv
        subst hkv
        simp only [List.map_cons, List.nodup_cons] at hnodup
        intro hcontra
        apply hnodup.1
        have hvq : provKey v = provKey q := hcontra
        rw [hvq]
        exact List.mem_map_of_mem provKey hq
    · simp only [List.map_cons, List.nodup_cons] at hnodup
      exact hnodup.2

/-- **C3 counterexample** — dedup is *not* idempotent when a
`provision_ref` carries surrounding whitespace: the grouping key is built
from the *untrimmed* reference while the stored value is trimmed, so
`" 1"` and `"1"` land under distinct keys in the first pass (both stored
with reference `"1"`) and are merged by the second pass. -/
theorem C3_counterexample :
    (dedupeProvisions [⟨" 1", none, "1", none, "a", none⟩,
                       ⟨"1", none, "1", none, "bb", none⟩]).1
      = [⟨"1", none, "1", none, "a", none⟩, ⟨"1", none, "1", none, "bb", none⟩]
    ∧ (dedupeProvisions (dedupeProvisions
        [⟨" 1", none, "1", none, "a", none⟩,
         ⟨"1", none, "1", none, "bb", none⟩]).1).1
      = [⟨"1", none, "1", none, "bb", none⟩]
    ∧ (dedupeProvisions (dedupeProvisions
        [⟨" 1", none, "1", none, "a", none⟩,
         ⟨"1", none, "1", none, "bb", none⟩]).1).1
      ≠ (dedupeProvisions [⟨" 1", none, "1", none, "a", none⟩,
                           ⟨"1", none, "1", none, "bb", none⟩]).1 := by
  refine ⟨by decide, by decide, by decide⟩

/-- **C3 (amended)** — applying dedup twice is a no-op on the merged output
*provided every input `provision_ref` is already trim-clean* (carries no
surrounding whitespace).  With whitespace-carrying references the property
fails (see the counterexample), because the first pass keys on the
untrimmed reference but stores the trimmed one. -/
theorem C3_dedupe_idempotent_amended (ps : List ProvisionSeed)
    (hps : ∀ p ∈ ps, String.mk (jsTrim p.provision_ref.data) = p.provision_ref) :
    (dedupeProvisions (dedupeProvisions ps).1).1 = (dedupeProvisions ps).1 := by
  have hinv : dedupInv (ps.foldl dedupeStep ([], ⟨0, 0⟩)).1 :=
    dedupeFold_inv ps ([], ⟨0, 0⟩) ⟨List.nodup_nil, by simp⟩ hps
  have h1 : (dedupeProvisions ps).1
      = (ps.foldl dedupeStep ([], ⟨0, 0⟩)).1.map (·.2) := rfl
  set m := (ps.foldl dedupeStep ([], ⟨0, 0⟩)).1 with hm
  have hkeys : (m.map (·.2)).map provKey = m.map Prod.fst := by
    rw [List.map_map]
    exact List.map_congr_left (fun kv hkv => (hinv.2 kv hkv).1)
  have hclean2 : ∀ v ∈ m.map (·.2), trimCleanSeed v := by
    intro v hv
    obtain ⟨kv, hkv, hveq⟩ := List.mem_map.mp hv
    exact hveq ▸ (hinv.2 kv hkv).2
  have h2 : (m.map (·.2)).foldl dedupeStep ([], ⟨0, 0⟩)
      = ([] ++ (m.map (·.2)).map (fun v => (provKey v, v)), ⟨0, 0⟩) :=
    dedupeFold_fresh (m.map (·.2)) [] ⟨0, 0⟩ hclean2 (by simp)
      (hkeys ▸ hinv.1)
  rw [h1]
  show ((m.map (·.2)).foldl dedupeStep ([], ⟨0, 0⟩)).1.map (·.2) = m.map (·.2)
  rw [h2]
  simp [List.map_map, Function.comp]

/-- Witness for the amended C3 on a concrete trim-clean input. -/
theorem C3_dedupe_idempotent_amended_witness :
    (∀ p ∈ ([⟨"1", none, "1", none, "a", none⟩,
             ⟨"1", none, "1", none, "bb", none⟩] : List ProvisionSeed),
      String.mk (jsTrim p.provision_ref.data) = p.provision_ref)
    ∧ (dedupeProvisions (dedupeProvisions
        [⟨"1", none, "1", none, "a", none⟩,
         ⟨"1", none, "1", none, "bb", none⟩]).1).1
      = (dedupeProvisions [⟨"1", none, "1", none, "a", none⟩,
                           ⟨"1", none, "1", none, "bb", none⟩]).1 :=
  ⟨by decide,
   C3_dedupe_idempotent_amended _ (by decide)⟩

/-! ### C5: merge policy -/

/-- Agreement on every field except `title`. -/
def sameExceptTitle (a b : ProvisionSeed) : Prop :=
  a.provision_ref = b.provision_ref ∧ a.chapter = b.chapter ∧
  a.«section» = b.«section» ∧ a.content = b.content ∧ a.language = b.language

/-- **C5 counterexample** — the title carry-over is gated on the winner's
title being `undefined` (`??`), not on it being *empty*: with the existing
holder winning on content length while holding the empty-string title
`""`, the other candidate's non-empty title `"T"` is *not* carried over. -/
theorem C5_counterexample :
    (normalizeWhitespace
      (ProvisionSeed.mk "1" none "1" (some "") "aaaa" none).content).length
      > (normalizeWhitespace
      (ProvisionSeed.mk "1" none "1" (some "T") "b" none).content).length
    ∧ (pickPreferredProvision
        (ProvisionSeed.mk "1" none "1" (some "") "aaaa" none)
        (ProvisionSeed.mk "1" none "1" (some "T") "b" none)).content = "aaaa"
    ∧ (pickPreferredProvision
        (ProvisionSeed.mk "1" none "1" (some "") "aaaa" none)
        (ProvisionSeed.mk "1" none "1" (some "T") "b" none)).title = some ""
    ∧ (pickPreferredProvision
        (ProvisionSeed.mk "1" none "1" (some "") "aaaa" none)
        (ProvisionSeed.mk "1" none "1" (some "T") "b" none)).title ≠ some "T" := by
  refine ⟨by decide, by decide, by decide, by decide⟩

/-- **C5 (amended)** — whenever dedup merges an incoming provision against
the current holder of its key it uses `pickPreferredProvision`, which
retains the candidate with the strictly longer whitespace-normalized
content (ties favour the existing holder) in all fields except possibly
the title; the other candidate's title is carried over exactly when the
winner's own title is *absent* (`undefined`) — an empty-string title
counts as present and blocks the carry-over. -/
theorem C5_merge_policy_amended :
    (∀ ex inc : ProvisionSeed,
      ((normalizeWhitespace inc.content).length
          > (normalizeWhitespace ex.content).length →
        sameExceptTitle (pickPreferredProvision ex inc) inc
        ∧ (inc.title = none →
            (pickPreferredProvision ex inc).title = ex.title)
        ∧ ∀ t, inc.title = some t →
            (pickPreferredProvision ex inc).title = some t)
      ∧ ((normalizeWhitespace inc.content).length
          ≤ (normalizeWhitespace ex.content).length →
        sameExceptTitle (pickPreferredProvision ex inc) ex
        ∧ (ex.title = none →
            (pickPreferredProvision ex inc).title = inc.title)
        ∧ ∀ t, ex.title = some t →
            (pickPreferredProvision ex inc).title = some t))
    ∧ (∀ (m : List (String × ProvisionSeed)) (st : ProvisionDedupStats)
        (p ex : ProvisionSeed), mapGet m (provKey p) = some ex →
        (dedupeStep (m, st) p).1
          = mapSet m (provKey p) (pickPreferredProvision ex p)) := by
  constructor
  · intro ex inc
    constructor
    · intro hgt
      unfold pickPreferredProvision
      dsimp only
      rw [if_pos hgt]
      refine ⟨⟨rfl, rfl, rfl, rfl, rfl⟩, ?_, ?_⟩
      · intro hnone; simp [hnone, Option.orElse]
      · intro t ht; simp [ht, Option.orElse]
    · intro hle
      unfold pickPreferredProvision
      dsimp only
      rw [if_neg (by omega)]
      refine ⟨⟨rfl, rfl, rfl, rfl, rfl⟩, ?_, ?_⟩
      · intro hnone; simp [hnone, Option.orElse]
      · intro t ht; simp [ht, Option.orElse]
  · intro m st p ex hget
    unfold dedupeStep
    dsimp only
    rw [hget]

/-- Witness for the amended C5: a longer incoming provision with a present
title wins and keeps its own title; the dedup step merges via
`pickPreferredProvision`. -/
theorem C5_merge_policy_amended_witness :
    (normalizeWhitespace
      (ProvisionSeed.mk "1" none "1" (some "T") "bb" none).content).length
      > (normalizeWhitespace
      (ProvisionSeed.mk "1" none "1" none "a" none).content).length
    ∧ sameExceptTitle
        (pickPreferredProvision (ProvisionSeed.mk "1" none "1" none "a" none)
          (ProvisionSeed.mk "1" none "1" (some "T") "bb" none))
        (ProvisionSeed.mk "1" none "1" (some "T") "bb" none)
    ∧ (pickPreferredProvision (ProvisionSeed.mk "1" none "1" none "a" none)
        (ProvisionSeed.mk "1" none "1" (some "T") "bb" none)).title = some "T"
    ∧ (dedupeStep ([(provKey (ProvisionSeed.mk "1" none "1" none "a" none),
          ProvisionSeed.mk "1" none "1" none "a" none)], ⟨0, 0⟩)
        (ProvisionSeed.mk "1" none "1" (some "T") "bb" none)).1
      = mapSet [(provKey (ProvisionSeed.mk "1" none "1" none "a" none),
          ProvisionSeed.mk "1" none "1" none "a" none)]
          (provKey (ProvisionSeed.mk "1" none "1" (some "T") "bb" none))
          (pickPreferredProvision (ProvisionSeed.mk "1" none "1" none "a" none)
            (ProvisionSeed.mk "1" none "1" (some "T") "bb" none)) := by
  have h := C5_merge_policy_amended
  have hgt : (normalizeWhitespace
      (ProvisionSeed.mk "1" none "1" (some "T") "bb" none).content).length
      > (normalizeWhitespace
      (ProvisionSeed.mk "1" none "1" none "a" none).content).length := by decide
  obtain ⟨hfields, htnone, htsome⟩ := (h.1
    (ProvisionSeed.mk "1" none "1" none "a" none)
    (ProvisionSeed.mk "1" none "1" (some "T") "bb" none)).1 hgt
  exact ⟨hgt, hfields, htsome "T" rfl,
    h.2 _ ⟨0, 0⟩ (ProvisionSeed.mk "1" none "1" (some "T") "bb" none)
      (ProvisionSeed.mk "1" none "1" none "a" none) (by decide)⟩

/-! ## FTS query builder (`src/utils/fts-query.ts`)

`EXPLICIT_FTS_SYNTAX = /["""]|(\bAND\b)|(\bOR\b)|(\bNOT\b)|\*$/` — the
bracket class consists of three literal ASCII `"` characters (verified
against the file bytes), so the test fires on a straight double quote, a
`\b`-delimited AND/OR/NOT, or a trailing `*`. -/

/-- Does `w` occur in the scanned list starting here, with `\b` word
boundaries on both sides?  `prev` is the character before the current
position (`none` at the start of the string). -/
def wordAtHere (w : List Char) (prev : Option Char) (l : List Char) : Bool :=
  (match prev with
   | some c => !isWordChar c
   | none => true)
  && (match dropLit w l with
      | some rest =>
        match rest.head? with
        | some c => !isWordChar c
        | none => true
      | none => false)
where
  /-- Strip the literal `w` from the front, returning the remainder. -/
  dropLit : List Char → List Char → Option (List Char)
    | [], l => some l
    | _, [] => none
    | c :: w, x :: l => if x = c then dropLit w l else none

/-- Scan for a `\b`-delimited occurrence of the word `w`. -/
def hasWordScan (w : List Char) : Option Char → List Char → Bool
  | prev, [] => wordAtHere w prev []
  | prev, c :: rest => wordAtHere w prev (c :: rest) || hasWordScan w (some c) rest

/-- `EXPLICIT_FTS_SYNTAX.test`. -/
def explicitFtsTest (l : List Char) : Bool :=
  l.any (fun c => c = '"')
  || hasWordScan ['A', 'N', 'D'] none l
  || hasWordScan ['O', 'R'] none l
  || hasWordScan ['N', 'O', 'T'] none l
  || (match l.getLast? with
      | some c => c = '*'
      | none => false)

/-- `replace(/[“”]/g, '"')` on one character. -/
def smartToStraight (c : Char) : Char :=
  if c.toNat = 0x201C ∨ c.toNat = 0x201D then '"' else c

/-- `replace(/;/g, '')`. -/
def stripSemis (l : List Char) : List Char :=
  l.filter (fun c => c ≠ ';')

/-- `replace(/--/g, '')`: left-to-right, non-overlapping removal of the
two-character sequence `--`. -/
def stripDoubleDash : List Char → List Char
  | [] => []
  | [c] => [c]
  | c :: d :: rest =>
    if c = '-' ∧ d = '-' then stripDoubleDash rest
    else c :: stripDoubleDash (d :: rest)

/-- `sanitiseToken`: strip everything but `\p{L}`, `\p{N}`, `_`, `-`.
The Unicode letter/number categories are approximated here by "ASCII
alphanumeric or any non-ASCII code point"; the explicit-syntax branch
verified by C8 never calls this function, so no claim depends on the
approximation. -/
def sanitiseToken (l : List Char) : List Char :=
  l.filter (fun c => c.isAlphanum || c = '_' || c = '-' || c.toNat ≥ 0x80)

/-- `split(/\s+/)` followed by the `length > 0` filter is equivalent to
splitting at every whitespace character and filtering empties, which is
what this does. -/
def splitWsGo : List Char → List Char → List (List Char)
  | [], acc => [acc.reverse]
  | c :: rest, acc =>
    if jsSpace c then acc.reverse :: splitWsGo rest []
    else splitWsGo rest (c :: acc)

structure FtsQueryVariants where
  primary : String
  fallback : Option String
deriving DecidableEq

def MAX_QUERY_LENGTH : Nat := 1000

/-- `buildFtsQueryVariants`. -/
def buildFtsQueryVariants (query : String) : FtsQueryVariants :=
  let trimmed := (jsTrim query.data).take MAX_QUERY_LENGTH
  if trimmed.isEmpty then ⟨"\"\"", none⟩
  else if explicitFtsTest trimmed then
    let normalised :=
      (stripDoubleDash (stripSemis (trimmed.map smartToStraight))).take
        MAX_QUERY_LENGTH
    let balanced :=
      if normalised.count '"' % 2 ≠ 0 then normalised ++ ['"'] else normalised
    ⟨String.mk balanced, none⟩
  else
    let tokens :=
      (((splitWsGo trimmed []).filter (fun t => t.length > 0)).map
        sanitiseToken).filter (fun t => t.length > 0)
    if tokens.isEmpty then ⟨"\"\"", none⟩
    else
      ⟨String.mk
        (List.intercalate [' '] (tokens.map (fun t => '"' :: t ++ ['"', '*']))),
       some (String.mk
        (List.intercalate [' ', 'O', 'R', ' ']
          (tokens.map (fun t => t ++ ['*']))))⟩

theorem mem_stripDoubleDash {c : Char} :
    ∀ {l : List Char}, c ∈ stripDoubleDash l → c ∈ l := by
  intro l
  induction l using stripDoubleDash.induct with
  | case1 => intro h; exact absurd h (List.not_mem_nil c)
  | case2 d => intro h; exact h
  | case3 a d rest had ih =>
    rw [stripDoubleDash, if_pos had]
    intro h
    exact List.mem_cons_of_mem a (List.mem_cons_of_mem d (ih h))
  | case4 a d rest had ih =>
    rw [stripDoubleDash, if_neg had]
    intro h
    rcases List.mem_cons.mp h with rfl | h
    · exact List.mem_cons_self _ _
    · exact List.mem_cons_of_mem a (ih h)

theorem head_stripDoubleDash {x : Char} {r : List Char} (hx : x ≠ '-') :
    (stripDoubleDash (x :: r)).head? = some x := by
  cases r with
  | nil => rfl
  | cons d rest =>
    rw [stripDoubleDash, if_neg (fun hc => hx hc.1)]
    rfl

theorem chain'_stripDoubleDash :
    ∀ l : List Char,
      List.Chain' (fun a b => ¬(a = '-' ∧ b = '-')) (stripDoubleDash l) := by
  intro l
  induction l using stripDoubleDash.induct with
  | case1 => exact List.chain'_nil
  | case2 d => exact List.chain'_singleton d
  | case3 a d rest had ih => rw [stripDoubleDash, if_pos had]; exact ih
  | case4 a d rest had ih =>
    rw [stripDoubleDash, if_neg had]
    rw [List.chain'_cons']
    refine ⟨?_, ih⟩
    intro y hy
    intro ⟨ha, hyd⟩
    subst ha
    by_cases hd : d = '-'
    · exact had ⟨rfl, hd⟩
    · rw [head_stripDoubleDash hd] at hy
      cases hy
      exact hd hyd

/-- **C8 counterexample** — the explicit-syntax branch is *not* "the input
with `;`/`--` removed and quote parity repaired, otherwise verbatim":
smart double quotes are first rewritten to straight quotes.  The input
`x“y AND z` (which triggers the branch through its `AND` token) contains
no `;`, no `--`, and an *even* number (zero) of `"` characters, so the
claim predicts it is returned verbatim; the code instead returns
`x"y AND z"` (smart quote normalized, then a balancing quote appended). -/
theorem C8_counterexample :
    explicitFtsTest
      ((jsTrim (String.mk ['x', Char.ofNat 0x201C, 'y', ' ', 'A', 'N', 'D',
        ' ', 'z']).data).take MAX_QUERY_LENGTH) = true
    ∧ (String.mk ['x', Char.ofNat 0x201C, 'y', ' ', 'A', 'N', 'D', ' ',
        'z']).data.count '"' % 2 = 0
    ∧ (∀ c ∈ (String.mk ['x', Char.ofNat 0x201C, 'y', ' ', 'A', 'N', 'D',
        ' ', 'z']).data, c ≠ ';')
    ∧ (buildFtsQueryVariants (String.mk ['x', Char.ofNat 0x201C, 'y', ' ',
        'A', 'N', 'D', ' ', 'z'])).primary
      = String.mk ['x', '"', 'y', ' ', 'A', 'N', 'D', ' ', 'z', '"']
    ∧ (buildFtsQueryVariants (String.mk ['x', Char.ofNat 0x201C, 'y', ' ',
        'A', 'N', 'D', ' ', 'z'])).primary
      ≠ String.mk ['x', Char.ofNat 0x201C, 'y', ' ', 'A', 'N', 'D', ' ',
        'z'] := by
  refine ⟨by decide, by decide, by decide, by decide, by decide⟩

/-- **C8 (amended)** — for every query whose trimmed, 1000-char-truncated
form contains explicit FTS syntax (a straight quote, a word-bounded
AND/OR/NOT, or a trailing `*`), `buildFtsQueryVariants` returns a single
primary variant and no fallback; the primary is the input after smart
quotes are normalized to straight quotes, every `;` is removed, every
`--` pair is removed, and quote parity is repaired by appending one `"`
when the count is odd.  Consequently the primary contains no `;`, no two
adjacent `-` characters, and an even number of `"` characters. -/
theorem C8_explicit_branch_amended (q : String)
    (hexp : explicitFtsTest ((jsTrim q.data).take MAX_QUERY_LENGTH) = true) :
    (buildFtsQueryVariants q).primary
      = String.mk
        (let normalised :=
          (stripDoubleDash (stripSemis
            (((jsTrim q.data).take MAX_QUERY_LENGTH).map smartToStraight))).take
            MAX_QUERY_LENGTH
        if normalised.count '"' % 2 ≠ 0 then normalised ++ ['"'] else normalised)
    ∧ (buildFtsQueryVariants q).fallback = none
    ∧ (∀ c ∈ (buildFtsQueryVariants q).primary.data, c ≠ ';')
    ∧ List.Chain' (fun a b => ¬(a = '-' ∧ b = '-'))
        (buildFtsQueryVariants q).primary.data
    ∧ (buildFtsQueryVariants q).primary.data.count '"' % 2 = 0 := by
  have hne : ((jsTrim q.data).take MAX_QUERY_LENGTH).isEmpty = false := by
    cases htr : (jsTrim q.data).take MAX_QUERY_LENGTH with
    | nil => rw [htr] at hexp; exact absurd hexp (by decide)
    | cons a l => rfl
  have hbuild : buildFtsQueryVariants q
      = ⟨String.mk
          (let normalised :=
            (stripDoubleDash (stripSemis
              (((jsTrim q.data).take MAX_QUERY_LENGTH).map
                smartToStraight))).take MAX_QUERY_LENGTH
          if normalised.count '"' % 2 ≠ 0 then normalised ++ ['"']
          else normalised), none⟩ := by
    unfold buildFtsQueryVariants
    dsimp only
    rw [if_neg (by rw [hne]; exact Bool.false_ne_true), if_pos hexp]
  rw [hbuild]
  dsimp only
  set nm := (stripDoubleDash (stripSemis
    (((jsTrim q.data).take MAX_QUERY_LENGTH).map smartToStraight))).take
    MAX_QUERY_LENGTH with hnm
  have hsemi : ∀ c ∈ nm, c ≠ ';' := by
    intro c hc
    rw [hnm] at hc
    have hc2 : c ∈ stripDoubleDash (stripSemis
        (((jsTrim q.data).take MAX_QUERY_LENGTH).map smartToStraight)) :=
      (List.take_sublist _ _).mem hc
    have hc3 := mem_stripDoubleDash hc2
    have := List.mem_filter.mp hc3
    simpa using this.2
  have hchain : List.Chain' (fun a b => ¬(a = '-' ∧ b = '-')) nm := by
    rw [hnm]
    exact (chain'_stripDoubleDash _).take _
  constructor
  · rfl
  constructor
  · rfl
  by_cases hodd : nm.count '"' % 2 ≠ 0
  · rw [if_pos hodd]
    refine ⟨?_, ?_, ?_⟩
    · intro c hc
      rcases List.mem_append.mp hc with hc | hc
      · exact hsemi c hc
      · simp only [List.mem_singleton] at hc
        subst hc
        decide
    · rw [List.chain'_append]
      refine ⟨hchain, List.chain'_singleton _, ?_⟩
      intro x _ y hy
      simp only [List.head?_cons, Option.mem_def, Option.some.injEq] at hy
      subst hy
      intro ⟨_, hq⟩
      exact absurd hq (by decide)
    · rw [List.count_append, show List.count '"' ['"'] = 1 from by decide]
      omega
  · rw [if_neg hodd]
    exact ⟨hsemi, hchain, by omega⟩

/-- Witness for the amended C8 at the query `data; x -- AND "y`. -/
theorem C8_explicit_branch_amended_witness :
    explicitFtsTest ((jsTrim ("data; x -- AND \"y" : String).data).take
      MAX_QUERY_LENGTH) = true
    ∧ (buildFtsQueryVariants "data; x -- AND \"y").fallback = none
    ∧ (∀ c ∈ (buildFtsQueryVariants "data; x -- AND \"y").primary.data,
        c ≠ ';')
    ∧ (buildFtsQueryVariants "data; x -- AND \"y").primary.data.count '"' % 2
      = 0 := by
  have hexp : explicitFtsTest ((jsTrim ("data; x -- AND \"y" : String).data).take
      MAX_QUERY_LENGTH) = true := by decide
  have h := C8_explicit_branch_amended "data; x -- AND \"y" hexp
  exact ⟨hexp, h.2.1, h.2.2.1, h.2.2.2.2⟩

/-! ## Provision extractor (`scripts/html-parser.ts`, `parseNpcHtml`)

Only the paragraph-processing loop (lines 108–153) is modelled; the
cheerio selector logic upstream merely produces the `paragraphs : List
String` input.  `ARTICLE_PATTERN` and `CHAPTER_PATTERN` are anchored
regexes whose numeral class contains no `条`/`章`/`节`/`编`, so the greedy
`+` is deterministic: only the maximal numeral run can be followed by the
closing glyph. -/

structure ParsedProvision where
  provision_ref : String
  «section» : String
  title : String
  content : String
  language : String
deriving DecidableEq

/-- The character class `[一二三四五六七八九十百千零〇\d]`. -/
def articleNumChar (c : Char) : Bool :=
  c = '一' ∨ c = '二' ∨ c = '三' ∨ c = '四' ∨ c = '五' ∨ c = '六' ∨
  c = '七' ∨ c = '八' ∨ c = '九' ∨ c = '十' ∨ c = '百' ∨ c = '千' ∨
  c = '零' ∨ c = '〇' ∨ isDigitChar c

/-- `ARTICLE_PATTERN = /^[\s　]*第([class]+)条[\s　]*/` (the class
already lies inside `\s`s complement of `条`): on success returns the
captured numeral run and the paragraph remainder after the match. -/
def articleMatch (l : List Char) : Option (List Char × List Char) :=
  match l.dropWhile jsSpace with
  | '第' :: l2 =>
    let num := l2.takeWhile articleNumChar
    if num.isEmpty then none
    else
      match l2.dropWhile articleNumChar with
      | '条' :: l4 => some (num, l4.dropWhile jsSpace)
      | _ => none
  | _ => none

/-- `CHAPTER_PATTERN = /^[\s　]*第([class]+)[章节编]/` as a test. -/
def chapterTest (l : List Char) : Bool :=
  match l.dropWhile jsSpace with
  | '第' :: l2 =>
    !(l2.takeWhile articleNumChar).isEmpty &&
      (match l2.dropWhile articleNumChar with
       | c :: _ => c = '章' ∨ c = '节' ∨ c = '编'
       | [] => false)
  | _ => false

/-- `/^\d+$/.test(numStr) ? parseInt(numStr, 10) : chineseToArabic(numStr)`. -/
def resolveArticleNum (num : List Char) : Nat :=
  if num.all isDigitChar then digitsVal num else chineseToArabic (String.mk num)

/-- The flush of the accumulated article (`if (currentArticleNum &&
currentArticleContent.length > 0) provisions.push(...)`). -/
def flushProvision (num : String) (contents : List String) (language : String) :
    List ParsedProvision :=
  if num ≠ "" ∧ contents ≠ [] then
    [⟨num, num, "",
      String.mk (jsTrim (String.intercalate "\n" contents).data), language⟩]
  else []

/-- One iteration of the `for (const para of paragraphs)` loop.  State is
`(currentArticleNum, currentArticleContent, provisions)`. -/
def extractStep (language : String)
    (st : String × List String × List ParsedProvision) (para : String) :
    String × List String × List ParsedProvision :=
  match articleMatch para.data with
  | some (num, restChars) =>
    let provisions := st.2.2 ++ flushProvision st.1 st.2.1 language
    let content := String.mk (jsTrim restChars)
    (String.mk (decChars (resolveArticleNum num)),
     if content ≠ "" then [content] else [], provisions)
  | none =>
    if st.1 ≠ "" then
      if chapterTest para.data then st
      else (st.1, st.2.1 ++ [para], st.2.2)
    else st

/-- The paragraph loop of `parseNpcHtml` plus the final flush: the ordered
provisions extracted from a paragraph list. -/
def extractProvisions (paras : List String) (language : String) :
    List ParsedProvision :=
  let st := paras.foldl (extractStep language) ("", [], [])
  st.2.2 ++ flushProvision st.1 st.2.1 language

/-- **C6** — every paragraph matching the article-marker pattern flushes
the previously accumulated article (when one is open and has accumulated
content) as a completed `ParsedProvision` before starting the new one; and
the concrete body `["第一条 内容甲", "第二条 内容乙"]` extracts exactly the
provisions `("1", "内容甲")` and `("2", "内容乙")`. -/
theorem C6_extractor_flush :
    (extractProvisions ["第一条 内容甲", "第二条 内容乙"] "zh"
      = [⟨"1", "1", "", "内容甲", "zh"⟩, ⟨"2", "2", "", "内容乙", "zh"⟩])
    ∧ (∀ (language para : String)
        (st : String × List String × List ParsedProvision)
        (num restChars : List Char),
        articleMatch para.data = some (num, restChars) →
        st.1 ≠ "" → st.2.1 ≠ [] →
        (extractStep language st para).2.2
          = st.2.2 ++ [⟨st.1, st.1, "",
              String.mk (jsTrim (String.intercalate "\n" st.2.1).data),
              language⟩]
        ∧ (extractStep language st para).1
          = String.mk (decChars (resolveArticleNum num))) := by
  constructor
  · decide
  · intro language para st num restChars hmatch hnum hcont
    unfold extractStep
    rw [hmatch]
    dsimp only
    rw [flushProvision, if_pos ⟨hnum, hcont⟩]
    exact ⟨rfl, rfl⟩

/-- Witness for C6's general conjunct at a concrete open-article state and
marker paragraph. -/
theorem C6_extractor_flush_witness :
    articleMatch ("第二条 内容乙" : String).data = some (['二'], "内容乙".data)
    ∧ (extractStep "zh" ("1", ["内容甲"], []) "第二条 内容乙").2.2
        = [⟨"1", "1", "", "内容甲", "zh"⟩]
    ∧ (extractStep "zh" ("1", ["内容甲"], []) "第二条 内容乙").1 = "2" := by
  have hmatch : articleMatch ("第二条 内容乙" : String).data
      = some (['二'], "内容乙".data) := by decide
  have h := C6_extractor_flush.2 "zh" "第二条 内容乙" ("1", ["内容甲"], [])
    ['二'] "内容乙".data hmatch (by decide) (by decide)
  refine ⟨hmatch, ?_, ?_⟩
  · rw [h.1]; rfl
  · rw [h.2]; rfl

/-! ## Citation parser (`src/parsers/citation.ts`)

Each regex is embedded as an executable matcher with JavaScript regex
semantics (leftmost match, greedy/lazy preference order, backtracking,
`.` excluding line terminators, the `i` flag as ASCII case folding).
Where a greedy atom is provably deterministic at its use site (its
continuation can never consume a character of the atom's class), it is
implemented by maximal munch; each such collapse is noted. -/

def isAsciiLetter (c : Char) : Bool :=
  ('a' ≤ c ∧ c ≤ 'z') ∨ ('A' ≤ c ∧ c ≤ 'Z')

/-- Line terminators, which `.` does not match. -/
def isLineTerm (c : Char) : Bool :=
  c = '\n' ∨ c = '\r' ∨ c.toNat = 0x2028 ∨ c.toNat = 0x2029

/-- Match a literal, returning the remainder. -/
def litDrop : List Char → List Char → Option (List Char)
  | [], l => some l
  | _, [] => none
  | c :: w, x :: l => if x = c then litDrop w l else none

/-- Match a literal case-insensitively (pattern given in lower case). -/
def litDropCI : List Char → List Char → Option (List Char)
  | [], l => some l
  | _, [] => none
  | c :: w, x :: l => if asciiLower x = c then litDropCI w l else none

/-- `(\d+)` by maximal munch (deterministic whenever the continuation
cannot start with a digit, which holds at every use site below). -/
def digits1 (l : List Char) : Option (List Char × List Char) :=
  let d := l.takeWhile isDigitChar
  if d.isEmpty then none else some (d, l.drop d.length)

/-- `\s*,?\s+`: the greedy run/optional-comma interplay collapses to:
after the maximal leading whitespace run, consume a comma iff present,
then require at least one further whitespace character — except that with
no comma the run itself supplies the `\s+` and the remainder is the end
of the run either way. -/
def sepCommaSpace (l : List Char) : Option (List Char) :=
  let l1 := l.dropWhile jsSpace
  match l1 with
  | ',' :: l2 =>
    if (l2.takeWhile jsSpace).isEmpty then none
    else some (l2.dropWhile jsSpace)
  | _ => if (l.takeWhile jsSpace).isEmpty then none else some l1

/-- `\s*,?\s*` by maximal munch (deterministic whenever the continuation
cannot start with whitespace or a comma, which holds at every use site
below). -/
def sepCommaOptSpace (l : List Char) : List Char :=
  let l1 := l.dropWhile jsSpace
  match l1 with
  | ',' :: l2 => l2.dropWhile jsSpace
  | _ => l1

/-- First `some` in a list of alternatives (backtracking preference). -/
def firstSome : List (Option α) → Option α
  | [] => none
  | some a :: _ => some a
  | none :: rest => firstSome rest

/-- All remainder positions a backtracking `\s*[,，]?\s*` can yield, in
engine preference order (first `\s*` longest first; comma taken before
skipped; second `\s*` longest first). -/
def sepCnBacktrack (l : List Char) : List (List Char) :=
  ((List.range ((l.takeWhile jsSpace).length + 1)).reverse).flatMap fun i =>
    let r := l.drop i
    (match r with
     | c :: r' =>
       if c = ',' ∨ c = '，' then
         ((List.range ((r'.takeWhile jsSpace).length + 1)).reverse).map
           fun j => r'.drop j
       else []
     | [] => [])
    ++ ((List.range ((r.takeWhile jsSpace).length + 1)).reverse).map
        fun j => r.drop j

/-! ### ID_CITATION `/^([a-z][\w-]+(?:-\d{4})?)\s*,?\s*(?:art\.?|article)\s*(\d+)(?:\s*,?\s*(?:para?\.?|paragraph)\s*(\d+))?$/i` -/

/-- `(?:art\.?|article)` candidates in backtracking order. -/
def idKeywordCands (l : List Char) : List (List Char) :=
  (match litDropCI "art.".data l with | some r => [r] | none => [])
  ++ (match litDropCI "art".data l with | some r => [r] | none => [])
  ++ (match litDropCI "article".data l with | some r => [r] | none => [])

/-- `(?:para?\.?|paragraph)` candidates in backtracking order. -/
def idParaKwCands (l : List Char) : List (List Char) :=
  (match litDropCI "para.".data l with | some r => [r] | none => [])
  ++ (match litDropCI "para".data l with | some r => [r] | none => [])
  ++ (match litDropCI "par.".data l with | some r => [r] | none => [])
  ++ (match litDropCI "par".data l with | some r => [r] | none => [])
  ++ (match litDropCI "paragraph".data l with | some r => [r] | none => [])

/-- `(?:\s*,?\s*(?:para?\.?|paragraph)\s*(\d+))?$`: `some p?` on success. -/
def idEnd (l : List Char) : Option (Option (List Char)) :=
  let l1 := sepCommaOptSpace l
  match firstSome ((idParaKwCands l1).map fun r =>
      match digits1 (r.dropWhile jsSpace) with
      | some (p, r2) => if r2.isEmpty then some p else none
      | none => none) with
  | some p => some (some p)
  | none => if l.isEmpty then some none else none

/-- The part after the id group: `\s*,?\s*(?:art\.?|article)\s*(\d+)…$`. -/
def idTail (l : List Char) : Option (List Char × Option (List Char)) :=
  let l1 := sepCommaOptSpace l
  firstSome ((idKeywordCands l1).map fun r =>
    match digits1 (r.dropWhile jsSpace) with
    | some (a, r2) => (idEnd r2).map fun p => (a, p)
    | none => none)

/-- Backtracking over the length of the greedy `[\w-]+` (longest first),
each first trying the greedy optional `(?:-\d{4})?`. -/
def idTryLens (c : Char) (run after : List Char) :
    Nat → Option (List Char × List Char × Option (List Char))
  | 0 => none
  | k + 1 =>
    let g := c :: run.take (k + 1)
    let rest0 := run.drop (k + 1) ++ after
    let withOpt :=
      match rest0 with
      | '-' :: r1 =>
        if (r1.take 4).length = 4 ∧ (r1.take 4).all isDigitChar then
          match idTail (r1.drop 4) with
          | some (a, p) => some (g ++ '-' :: r1.take 4, a, p)
          | none => none
        else none
      | _ => none
    match withOpt with
    | some res => some res
    | none =>
      match idTail rest0 with
      | some (a, p) => some (g, a, p)
      | none => idTryLens c run after k

/-- The full ID_CITATION matcher: `(id, article, paragraph?)`. -/
def idCitationMatch (l : List Char) :
    Option (List Char × List Char × Option (List Char)) :=
  match l with
  | c :: rest =>
    if isAsciiLetter c then
      let run := rest.takeWhile (fun ch => isWordChar ch ∨ ch = '-')
      idTryLens c run (rest.drop run.length) run.length
    else none
  | [] => none

/-! ### The Chinese-citation patterns -/

/-- Lazy `(.+?)(?:法|典|条例)$`: the shortest nonempty line-terminator-free
prefix whose remainder is exactly one suffix alternative. -/
def llnGo (acc : List Char) : List Char → Option (List Char)
  | [] => none
  | c :: rest =>
    if isLineTerm c then none
    else
      let acc' := acc ++ [c]
      if rest = ['法'] ∨ rest = ['典'] ∨ rest = ['条', '例'] then some acc'
      else llnGo acc' rest

def lazyLawName (l : List Char) : Option (List Char) := llnGo [] l

/-- `(?:中华人民共和国)?(.+?)(?:法|典|条例)$` (optional literal greedy). -/
def chnAfterSep (l : List Char) : Option (List Char) :=
  match litDrop "中华人民共和国".data l with
  | some l' =>
    match lazyLawName l' with
    | some g => some g
    | none => lazyLawName l
  | none => lazyLawName l

/-- Tail of CHINESE_CITATION after `条`/`款`:
`\s*[,，]?\s*(?:中华人民共和国)?(.+?)(?:法|典|条例)$`. -/
def ccTail (r : List Char) : Option (List Char) :=
  firstSome ((sepCnBacktrack r).map chnAfterSep)

/-- Lazy `第(.+?)款` with a continuation, backtracking over every `款`. -/
def kuanScan (cont : List Char → Option α) (acc : List Char) :
    List Char → Option (List Char × α)
  | [] => none
  | c :: rest =>
    if isLineTerm c then none
    else
      let acc' := acc ++ [c]
      if rest.head? = some '款' then
        match cont rest.tail with
        | some a => some (acc', a)
        | none => kuanScan cont acc' rest
      else kuanScan cont acc' rest

/-- `(?:第(.+?)款)?` (greedy optional) followed by a continuation. -/
def afterTiao (cont : List Char → Option α) (g : List Char) (r : List Char) :
    Option (List Char × Option (List Char) × α) :=
  if r.head? = some '第' then
    match kuanScan cont [] r.tail with
    | some (p, a) => some (g, some p, a)
    | none =>
      match cont r with
      | some a => some (g, none, a)
      | none => none
  else
    match cont r with
    | some a => some (g, none, a)
    | none => none

/-- Lazy `(.+?)条` with the rest of the pattern as continuation,
backtracking over every `条`. -/
def tiaoScan (cont : List Char → Option α) (acc : List Char) :
    List Char → Option (List Char × Option (List Char) × α)
  | [] => none
  | c :: rest =>
    if isLineTerm c then none
    else
      let acc' := acc ++ [c]
      if rest.head? = some '条' then
        match afterTiao cont acc' rest.tail with
        | some res => some res
        | none => tiaoScan cont acc' rest
      else tiaoScan cont acc' rest

/-- CHINESE_CITATION
`/^第(.+?)条(?:第(.+?)款)?\s*[,，]?\s*(?:中华人民共和国)?(.+?)(?:法|典|条例)$/`:
`(article, paragraph?, law-name group)`. -/
def chineseCitationMatch (l : List Char) :
    Option (List Char × Option (List Char) × List Char) :=
  match l with
  | '第' :: l2 => tiaoScan ccTail [] l2
  | _ => none

def endCont (r : List Char) : Option Unit :=
  if r.isEmpty then some () else none

/-- BARE_CHINESE_ARTICLE `/^第(.+?)条(?:第(.+?)款)?$/`. -/
def bareChineseMatch (l : List Char) : Option (List Char × Option (List Char)) :=
  match l with
  | '第' :: l2 => (tiaoScan endCont [] l2).map fun r => (r.1, r.2.1)
  | _ => none

/-- Continuation of CHINESE_LAW_FIRST after the law-name group:
`\s*[,，]?\s*第(.+?)条(?:第(.+?)款)?$`. -/
def lfCont (g1 : List Char) (r : List Char) :
    Option (List Char × List Char × Option (List Char)) :=
  firstSome ((sepCnBacktrack r).map fun pos =>
    (bareChineseMatch pos).map fun ap => (g1, ap.1, ap.2))

/-- Lazy `(.+?(?:法|典|条例))` with its continuation, backtracking over
every prefix ending in a suffix alternative. -/
def lfGo (acc : List Char) : List Char →
    Option (List Char × List Char × Option (List Char))
  | [] => none
  | c :: rest =>
    if isLineTerm c then none
    else
      let acc' := acc ++ [c]
      if rest.head? = some '法' then
        match lfCont (acc' ++ ['法']) rest.tail with
        | some res => some res
        | none => lfGo acc' rest
      else if rest.head? = some '典' then
        match lfCont (acc' ++ ['典']) rest.tail with
        | some res => some res
        | none => lfGo acc' rest
      else if rest.head? = some '条' ∧ rest.tail.head? = some '例' then
        match lfCont (acc' ++ ['条', '例']) rest.tail.tail with
        | some res => some res
        | none => lfGo acc' rest
      else lfGo acc' rest

/-- CHINESE_LAW_FIRST
`/^(?:中华人民共和国)?(.+?(?:法|典|条例))\s*[,，]?\s*第(.+?)条(?:第(.+?)款)?$/`:
`(law name, article, paragraph?)`. -/
def chineseLawFirstMatch (l : List Char) :
    Option (List Char × List Char × Option (List Char)) :=
  match litDrop "中华人民共和国".data l with
  | some l' =>
    match lfGo [] l' with
    | some res => some res
    | none => lfGo [] l
  | none => lfGo [] l

/-! ### The English patterns -/

/-- `\s*,?\s*Paragraph\s+(\d+)` (the group body of the optional paragraph
part of ENGLISH_CITATION / BARE_ENGLISH_ARTICLE). -/
def engParaGroup (l : List Char) : Option (List Char × List Char) :=
  match litDropCI "paragraph".data (sepCommaOptSpace l) with
  | some l2 =>
    if (l2.takeWhile jsSpace).isEmpty then none
    else digits1 (l2.dropWhile jsSpace)
  | none => none

/-- `\s*,?\s+(.+?)$`: the title is the whole remainder, which must be
nonempty and free of line terminators. -/
def engTitleTail (l : List Char) : Option (List Char) :=
  match sepCommaSpace l with
  | some r => if r.isEmpty || r.any isLineTerm then none else some r
  | none => none

/-- ENGLISH_CITATION
`/^Article\s+(\d+)(?:\s*,?\s*Paragraph\s+(\d+))?\s*,?\s+(.+?)$/i`:
`(article, paragraph?, title)`. -/
def englishMatch (l : List Char) :
    Option (List Char × Option (List Char) × List Char) :=
  match litDropCI "article".data l with
  | none => none
  | some l1 =>
    if (l1.takeWhile jsSpace).isEmpty then none
    else
      match digits1 (l1.dropWhile jsSpace) with
      | none => none
      | some (art, l2) =>
        match engParaGroup l2 with
        | some (p, l3) =>
          (match engTitleTail l3 with
           | some t => some (art, some p, t)
           | none =>
             match engTitleTail l2 with
             | some t => some (art, none, t)
             | none => none)
        | none =>
          match engTitleTail l2 with
          | some t => some (art, none, t)
          | none => none

/-- BARE_ENGLISH_ARTICLE `/^Article\s+(\d+)(?:\s*,?\s*Paragraph\s+(\d+))?$/i`. -/
def bareEnglishMatch (l : List Char) :
    Option (List Char × Option (List Char)) :=
  match litDropCI "article".data l with
  | none => none
  | some l1 =>
    if (l1.takeWhile jsSpace).isEmpty then none
    else
      match digits1 (l1.dropWhile jsSpace) with
      | none => none
      | some (art, l2) =>
        match engParaGroup l2 with
        | some (p, l3) =>
          if l3.isEmpty then some (art, some p)
          else if l2.isEmpty then some (art, none) else none
        | none => if l2.isEmpty then some (art, none) else none

/-! ### SHORT_CITATION
`/^Art\.?\s*(\d+)(?:\s*,?\s*(?:Para?\.?\s*)?(\d+))?\s*,?\s+(.+?)(?:\s+(\d{4}))?$/i` -/

/-- One `(?:Para?\.?\s*)?(\d+)` keyword alternative of the optional
paragraph group of SHORT_CITATION. -/
def shortParaKwItem (ls : List Char) (kw : String) :
    List (List Char × List Char) :=
  match litDropCI kw.data ls with
  | some r =>
    match digits1 (r.dropWhile jsSpace) with
    | some pr => [pr]
    | none => []
  | none => []

/-- Candidates for the optional-paragraph group body
`\s*,?\s*(?:Para?\.?\s*)?(\d+)` in backtracking order. -/
def shortParaCands (l : List Char) : List (List Char × List Char) :=
  let ls := sepCommaOptSpace l
  (["para.", "para", "par.", "par"].flatMap (shortParaKwItem ls))
  ++ (match digits1 ls with
      | some pr => [pr]
      | none => [])

/-- `(?:\s+(\d{4}))?$` tried at the current lazy split: the remainder must
be a nonempty whitespace run followed by exactly four digits. -/
def styYear (r : List Char) : Option (List Char) :=
  let w := r.takeWhile jsSpace
  if w.isEmpty then none
  else
    let d := r.drop w.length
    if d.length = 4 ∧ d.all isDigitChar then some d else none

/-- Lazy `(.+?)(?:\s+(\d{4}))?$` (greedy optional year at each split). -/
def styGo (acc : List Char) : List Char → Option (List Char × Option (List Char))
  | [] => none
  | c :: rest =>
    if isLineTerm c then none
    else
      let acc' := acc ++ [c]
      match styYear rest with
      | some y => some (acc', some y)
      | none => if rest.isEmpty then some (acc', none) else styGo acc' rest

/-- `\s*,?\s+(.+?)(?:\s+(\d{4}))?$`. -/
def shortTitleYear (l : List Char) : Option (List Char × Option (List Char)) :=
  match sepCommaSpace l with
  | some r => styGo [] r
  | none => none

/-- The full SHORT_CITATION matcher: `(article, paragraph?, title, year?)`.
`\.?` is deterministic because its continuation `\s*(\d+)` can never match
a string starting with `.`. -/
def shortMatch (l : List Char) :
    Option (List Char × Option (List Char) × List Char × Option (List Char)) :=
  match litDropCI "art".data l with
  | none => none
  | some l1 =>
    let l1 := match l1 with | '.' :: r => r | _ => l1
    match digits1 (l1.dropWhile jsSpace) with
    | none => none
    | some (art, l2) =>
      match firstSome ((shortParaCands l2).map fun pr =>
          (shortTitleYear pr.2).map fun ty => (art, some pr.1, ty.1, ty.2)) with
      | some res => some res
      | none => (shortTitleYear l2).map fun ty => (art, none, ty.1, ty.2)

/-! ### `parseCitation` and helpers -/

structure ParsedCitation where
  valid : Bool
  type : String
  title : Option String := none
  title_en : Option String := none
  article : Option String := none
  paragraph : Option String := none
  error : Option String := none
deriving DecidableEq

/-- `String(n)` for a JS number that is an integer. -/
def jsNumStr (i : Int) : String :=
  if i < 0 then String.mk ('-' :: decChars i.natAbs)
  else String.mk (decChars i.natAbs)

/-- Lazy unanchored `/第(.+?)条/`: first `第` from the left that is
followed by a nonempty line-terminator-free run ending at a `条`. -/
def lazyUpTo (stop : Char) (l : List Char) : Option (List Char) :=
  go [] l
where
  go (acc : List Char) : List Char → Option (List Char)
    | [] => none
    | c :: rest =>
      if isLineTerm c then none
      else
        let acc' := acc ++ [c]
        match rest with
        | d :: _ => if d = stop then some acc' else go acc' rest
        | [] => none

def firstChineseArticleGroup : List Char → Option (List Char)
  | [] => none
  | '第' :: rest =>
    (match lazyUpTo '条' rest with
     | some g => some g
     | none => firstChineseArticleGroup rest)
  | _ :: rest => firstChineseArticleGroup rest

/-- `extractArticleNumber` (`src/utils/chinese-numerals.ts`): match
`/第(.+?)条/`, trim the group, try `parseInt`, then `chineseToArabic`. -/
def extractArticleNumber (ref : String) : Option Int :=
  match firstChineseArticleGroup ref.data with
  | none => none
  | some g =>
    let numStr := jsTrim g
    match jsParseInt numStr with
    | some n => some n
    | none => some (chineseToArabic (String.mk numStr) : Int)

/-- `parseChineseNumber` (`src/parsers/citation.ts`). -/
def parseChineseNumber (numStr : List Char) : Option Int :=
  match jsParseInt numStr with
  | some n => some n
  | none => extractArticleNumber (String.mk ('第' :: numStr ++ ['条']))

/-- `trimmed.match(/(?:法|典|条例)$/)?.[0]`, concatenated by JS string
coercion: when no alternative matches at the end (impossible on strings
the CHINESE_CITATION pattern accepted), JS appends `"undefined"`. -/
def lawSuffix (l : List Char) : List Char :=
  if l.length ≥ 2 ∧ l.drop (l.length - 2) = ['条', '例'] then ['条', '例']
  else if l.length ≥ 1 ∧ l.drop (l.length - 1) = ['法'] then ['法']
  else if l.length ≥ 1 ∧ l.drop (l.length - 1) = ['典'] then ['典']
  else "undefined".data

/-- `parseCitation`: the ordered pattern battery. -/
def parseCitation (citation : String) : ParsedCitation :=
  let trimmed := jsTrim citation.data
  match idCitationMatch trimmed with
  | some (id, art, p) =>
    { valid := true, type := "statute", title := some (String.mk id),
      article := some (String.mk art), paragraph := p.map String.mk }
  | none =>
  match chineseCitationMatch trimmed with
  | some (artG, paraG, law3) =>
    let article := parseChineseNumber artG
    let paragraph := paraG.map parseChineseNumber
    { valid := true, type := "statute",
      title := some (String.mk (jsTrim law3 ++ lawSuffix trimmed)),
      article := some (match article with
        | some n => jsNumStr n
        | none => String.mk artG),
      paragraph := match paragraph with
        | some (some n) => some (jsNumStr n)
        | some none => none
        | none => none }
  | none =>
  match chineseLawFirstMatch trimmed with
  | some (law1, artG, paraG) =>
    let article := parseChineseNumber artG
    let paragraph := paraG.map parseChineseNumber
    { valid := true, type := "statute",
      title := some (String.mk (jsTrim law1)),
      article := some (match article with
        | some n => jsNumStr n
        | none => String.mk artG),
      paragraph := match paragraph with
        | some (some n) => some (jsNumStr n)
        | some none => none
        | none => none }
  | none =>
  match englishMatch trimmed with
  | some (art, p, t) =>
    { valid := true, type := "statute",
      title_en := some (String.mk (jsTrim t)),
      article := some (String.mk art), paragraph := p.map String.mk }
  | none =>
  match shortMatch trimmed with
  | some (art, p, t, _year) =>
    { valid := true, type := "statute",
      title := some (String.mk (jsTrim t)),
      article := some (String.mk art), paragraph := p.map String.mk }
  | none =>
  match bareChineseMatch trimmed with
  | some (artG, paraG) =>
    let article := parseChineseNumber artG
    let paragraph := paraG.map parseChineseNumber
    { valid := true, type := "statute",
      article := some (match article with
        | some n => jsNumStr n
        | none => String.mk artG),
      paragraph := match paragraph with
        | some (some n) => some (jsNumStr n)
        | some none => none
        | none => none }
  | none =>
  match bareEnglishMatch trimmed with
  | some (art, p) =>
    { valid := true, type := "statute",
      article := some (String.mk art), paragraph := p.map String.mk }
  | none =>
    { valid := false, type := "unknown",
      error := some ("Could not parse Chinese law citation: \""
        ++ String.mk trimmed ++ "\"") }

/-! ## Citation formatter (`src/formatters/citation.ts`) -/

inductive CitationFormat where
  | chinese | english | full | short | pinpoint
deriving DecidableEq

/-- `arabicToChinese` applied to a possibly-negative JS number: the
source's `num < 0` branch returns `String(num)`; non-negative values are
the `Nat` model above. -/
def arabicToChineseI (num : Int) : String :=
  if num < 0 then jsNumStr num else arabicToChinese num.toNat

/-- `buildChineseRef` (`src/utils/chinese-numerals.ts`). -/
def buildChineseRef (article : Int) (paragraph : Option Int) : String :=
  let ref := "第" ++ arabicToChineseI article ++ "条"
  match paragraph with
  | some p => if p > 0 then ref ++ "第" ++ arabicToChineseI p ++ "款" else ref
  | none => ref

/-- `replace(/,\s*$/, '')`: drop one trailing comma together with the
whitespace after it; no-op when the string does not end that way. -/
def stripTrailingCommaWs (s : String) : String :=
  match s.data.reverse.dropWhile jsSpace with
  | ',' :: rest => String.mk rest.reverse
  | _ => s

def jsTrimStr (s : String) : String := String.mk (jsTrim s.data)

/-- `formatCitation`.  JS truthiness: the guard also fires on an
empty-string article, and an empty-string paragraph is treated as absent.
A paragraph string whose `parseInt` is `NaN` is modelled as `none`, which
agrees with the only numeric use (`paragraph > 0` is false for `NaN`). -/
def formatCitation (parsed : ParsedCitation) (format : CitationFormat) : String :=
  if parsed.valid = false ∨ parsed.article = none ∨ parsed.article = some "" then ""
  else
    let article := (parsed.article.getD "")
    let articleNum := jsParseInt article.data
    let paragraphNum : Option Int :=
      match parsed.paragraph with
      | some s => if s ≠ "" then jsParseInt s.data else none
      | none => none
    let title := (parsed.title.orElse (fun _ => parsed.title_en)).getD ""
    let paraStr (pre : String) : String :=
      match parsed.paragraph with
      | some p => if p ≠ "" then pre ++ p else ""
      | none => ""
    match format with
    | CitationFormat.chinese =>
      let ref := buildChineseRef (match articleNum with
        | some n => n
        | none => 0) paragraphNum
      jsTrimStr (ref ++ " " ++ title)
    | CitationFormat.english =>
      let ref := "Article " ++ article ++ paraStr ", Paragraph "
      let name := parsed.title_en.getD title
      stripTrailingCommaWs (jsTrimStr (ref ++ ", " ++ name))
    | CitationFormat.full =>
      let ref := "Article " ++ article ++ paraStr ", Paragraph "
      stripTrailingCommaWs (jsTrimStr (ref ++ ", " ++ title))
    | CitationFormat.short =>
      let ref := "Art. " ++ article ++ paraStr ", Para. "
      jsTrimStr (ref ++ " " ++ title)
    | CitationFormat.pinpoint =>
      "Art. " ++ article ++ paraStr ", Para. "

/-- **C9** — `parseCitation` is total (a Lean function; no exception
path), and whenever the input matches none of the supported patterns it
returns a structured invalid result: `valid = false`, `type = "unknown"`,
and a human-readable reason naming the (trimmed) input. -/
theorem C9_parse_failure_invalid_result :
    (∀ s : String, (parseCitation s).valid = true ∨
      ((parseCitation s).valid = false ∧ (parseCitation s).type = "unknown" ∧
        (parseCitation s).error
          = some ("Could not parse Chinese law citation: \""
              ++ String.mk (jsTrim s.data) ++ "\"")))
    ∧ (∀ s : String,
        idCitationMatch (jsTrim s.data) = none →
        chineseCitationMatch (jsTrim s.data) = none →
        chineseLawFirstMatch (jsTrim s.data) = none →
        englishMatch (jsTrim s.data) = none →
        shortMatch (jsTrim s.data) = none →
        bareChineseMatch (jsTrim s.data) = none →
        bareEnglishMatch (jsTrim s.data) = none →
        parseCitation s =
          { valid := false, type := "unknown",
            error := some ("Could not parse Chinese law citation: \""
              ++ String.mk (jsTrim s.data) ++ "\"") }) := by
  constructor
  · intro s
    unfold parseCitation
    dsimp only
    rcases idCitationMatch (jsTrim s.data) with _ | ⟨id, art, p⟩
    · rcases chineseCitationMatch (jsTrim s.data) with _ | ⟨ag, pg, law⟩
      · rcases chineseLawFirstMatch (jsTrim s.data) with _ | ⟨law, ag, pg⟩
        · rcases englishMatch (jsTrim s.data) with _ | ⟨ag, pg, t⟩
          · rcases shortMatch (jsTrim s.data) with _ | ⟨ag, pg, t, y⟩
            · rcases bareChineseMatch (jsTrim s.data) with _ | ⟨ag, pg⟩
              · rcases bareEnglishMatch (jsTrim s.data) with _ | ⟨ag, pg⟩
                · exact Or.inr ⟨rfl, rfl, rfl⟩
                · exact Or.inl rfl
              · exact Or.inl rfl
            · exact Or.inl rfl
          · exact Or.inl rfl
        · exact Or.inl rfl
      · exact Or.inl rfl
    · exact Or.inl rfl
  · intro s hid hcc hlf hen hsh hbc hbe
    unfold parseCitation
    dsimp only
    rw [hid, hcc, hlf, hen, hsh, hbc, hbe]

/-- Witness for C9's no-match conjunct at the input `"blah blah"`. -/
theorem C9_parse_failure_invalid_result_witness :
    parseCitation "blah blah" =
      { valid := false, type := "unknown",
        error := some ("Could not parse Chinese law citation: \"blah blah\"") } := by
  have h := C9_parse_failure_invalid_result.2 "blah blah"
    (by decide) (by decide) (by decide) (by decide) (by decide) (by decide)
    (by decide)
  rw [h]
  decide

/-- **C10** — `formatCitation` returns the empty string for every
citation whose `valid` flag is false or whose `article` field is absent,
for every format style.  (The source guard additionally fires on an
empty-string article, which only strengthens the property.) -/
theorem C10_format_invalid_empty (p : ParsedCitation) (fmt : CitationFormat)
    (h : p.valid = false ∨ p.article = none) :
    formatCitation p fmt = "" := by
  unfold formatCitation
  rw [if_pos (h.elim Or.inl (fun h2 => Or.inr (Or.inl h2)))]

/-- Witness for C10 at an invalid citation and an article-less one. -/
theorem C10_format_invalid_empty_witness :
    ((⟨false, "unknown", none, none, some "3", none, none⟩ :
        ParsedCitation).valid = false
      ∨ (⟨false, "unknown", none, none, some "3", none, none⟩ :
        ParsedCitation).article = none)
    ∧ formatCitation ⟨false, "unknown", none, none, some "3", none, none⟩
        CitationFormat.full = ""
    ∧ formatCitation ⟨true, "statute", some "t", none, none, none, none⟩
        CitationFormat.chinese = "" :=
  ⟨Or.inl rfl,
   C10_format_invalid_empty _ _ (Or.inl rfl),
   C10_format_invalid_empty _ _ (Or.inr rfl)⟩

/-- **C4 counterexample** — the round-trip fails for the `chinese` style
as soon as the title does not end in `法`/`典`/`条例`: formatting
`{article: "3", title: "CSL"}` in the `chinese` style yields
`"第三条 CSL"`, which matches none of the parser's patterns, so the
article number is not recovered (the parse is invalid and its article
field absent). -/
theorem C4_counterexample :
    formatCitation ⟨true, "statute", some "CSL", none, some "3", none, none⟩
        CitationFormat.chinese = "第三条 CSL"
    ∧ (parseCitation "第三条 CSL").valid = false
    ∧ (parseCitation "第三条 CSL").article = none := by
  refine ⟨by decide, by decide, by decide⟩

/-! ### C4: character-class facts -/

theorem char_ne_of_toNat_ne {c d : Char} (h : c.toNat ≠ d.toNat) : c ≠ d :=
  fun he => h (he ▸ rfl)

theorem digit_toNat_bounds {c : Char} (h : isDigitChar c = true) :
    48 ≤ c.toNat ∧ c.toNat ≤ 57 := by
  simp only [isDigitChar, decide_eq_true_eq] at h
  obtain ⟨h1, h2⟩ := h
  exact ⟨h1, h2⟩

theorem letter_toNat_bounds {c : Char} (h : isAsciiLetter c = true) :
    (97 ≤ c.toNat ∧ c.toNat ≤ 122) ∨ (65 ≤ c.toNat ∧ c.toNat ≤ 90) := by
  simp only [isAsciiLetter, decide_eq_true_eq] at h
  rcases h with ⟨h1, h2⟩ | ⟨h1, h2⟩
  · exact Or.inl ⟨h1, h2⟩
  · exact Or.inr ⟨h1, h2⟩

/-- The facts needed about a decimal digit character. -/
theorem digit_char_facts {c : Char} (h : isDigitChar c = true) :
    jsSpace c = false ∧ asciiLower c = c ∧ isLineTerm c = false ∧
    c ≠ ',' ∧ c ≠ '-' ∧ c ≠ '+' ∧ c ≠ '法' ∧ c ≠ '典' ∧ c ≠ '例' ∧
    c ≠ '条' ∧ c ≠ '第' ∧ c ≠ '十' := by
  obtain ⟨h1, h2⟩ := digit_toNat_bounds h
  refine ⟨?_, ?_, ?_, ?_, ?_, ?_, ?_, ?_, ?_, ?_, ?_, ?_⟩
  · simp only [jsSpace, decide_eq_false_iff_not]; omega
  · simp only [asciiLower]
    rw [if_neg]
    intro ⟨ha, _⟩
    have : 65 ≤ c.toNat := ha
    omega
  · simp only [isLineTerm, decide_eq_false_iff_not]
    push_neg
    refine ⟨?_, ?_, by omega, by omega⟩ <;>
      (apply char_ne_of_toNat_ne; simp; omega)
  all_goals (apply char_ne_of_toNat_ne; simp; omega)

/-- A title character: an ASCII letter or a plain space. -/
def titleChar (c : Char) : Bool := isAsciiLetter c || c = ' '

/-- The facts needed about a title character. -/
theorem title_char_facts {c : Char} (h : titleChar c = true) :
    isDigitChar c = false ∧ isLineTerm c = false ∧
    c ≠ ',' ∧ c ≠ '法' ∧ c ≠ '典' ∧ c ≠ '例' ∧ c ≠ '条' ∧ c ≠ '第' := by
  simp only [titleChar, Bool.or_eq_true, decide_eq_true_eq] at h
  have hb : (97 ≤ c.toNat ∧ c.toNat ≤ 122) ∨ (65 ≤ c.toNat ∧ c.toNat ≤ 90) ∨
      c.toNat = 32 := by
    rcases h with h | h
    · rcases letter_toNat_bounds h with h' | h'
      · exact Or.inl h'
      · exact Or.inr (Or.inl h')
    · subst h; exact Or.inr (Or.inr rfl)
  refine ⟨?_, ?_, ?_, ?_, ?_, ?_, ?_, ?_⟩
  · simp only [isDigitChar, decide_eq_false_iff_not]
    intro ⟨hc1, hc2⟩
    have g1 : 48 ≤ c.toNat := hc1
    have g2 : c.toNat ≤ 57 := hc2
    omega
  · simp only [isLineTerm, decide_eq_false_iff_not]
    push_neg
    refine ⟨?_, ?_, by omega, by omega⟩ <;>
      (apply char_ne_of_toNat_ne; simp; omega)
  all_goals (apply char_ne_of_toNat_ne; simp; omega)

/-- A letter head is not whitespace. -/
theorem letter_not_space {c : Char} (h : isAsciiLetter c = true) :
    jsSpace c = false := by
  rcases letter_toNat_bounds h with ⟨h1, h2⟩ | ⟨h1, h2⟩ <;>
    (simp only [jsSpace, decide_eq_false_iff_not]; omega)

/-- The numeral glyphs produced by `arabicToChinese` for `1 ≤ n ≤ 9999`. -/
def numGlyph (c : Char) : Bool :=
  c ∈ ['零', '一', '二', '三', '四', '五', '六', '七', '八', '九', '十',
       '百', '千']

theorem glyph_numGlyph {d : Nat} (h2 : d ≤ 9) :
    numGlyph (arabicChineseDigit d) = true := by
  interval_cases d <;> rfl

theorem partsChars_glyphs (t h te o : Nat) (ht : t ≤ 9) (hh : h ≤ 9)
    (hte : te ≤ 9) (ho : o ≤ 9) :
    ∀ c ∈ partsChars t h te o, numGlyph c = true := by
  intro c hc
  unfold partsChars at hc
  simp only [List.mem_append] at hc
  rcases hc with ((hc | hc) | hc) | hc
  · rcases mem_ite_cases hc with hc | hc
    · simp only [List.mem_cons, List.not_mem_nil, or_false] at hc
      rcases hc with rfl | rfl
      · exact glyph_numGlyph ht
      · rfl
    · exact absurd hc (List.not_mem_nil c)
  · rcases mem_ite_cases hc with hc | hc
    · simp only [List.mem_cons, List.not_mem_nil, or_false] at hc
      rcases hc with rfl | rfl
      · exact glyph_numGlyph hh
      · rfl
    · rcases mem_ite_cases hc with hc | hc
      · simp only [List.mem_cons, List.not_mem_nil, or_false] at hc
        subst hc; rfl
      · exact absurd hc (List.not_mem_nil c)
  · rcases mem_ite_cases hc with hc | hc
    · rcases mem_ite_cases hc with hc | hc
      · simp only [List.mem_cons, List.not_mem_nil, or_false] at hc
        subst hc; rfl
      · simp only [List.mem_cons, List.not_mem_nil, or_false] at hc
        rcases hc with rfl | rfl
        · exact glyph_numGlyph hte
        · rfl
    · rcases mem_ite_cases hc with hc | hc
      · simp only [List.mem_cons, List.not_mem_nil, or_false] at hc
        subst hc; rfl
      · exact absurd hc (List.not_mem_nil c)
  · rcases mem_ite_cases hc with hc | hc
    · simp only [List.mem_cons, List.not_mem_nil, or_false] at hc
      subst hc; exact glyph_numGlyph ho
    · exact absurd hc (List.not_mem_nil c)

/-- The facts needed about a numeral glyph. -/
theorem numGlyph_facts {c : Char} (h : numGlyph c = true) :
    isDigitChar c = false ∧ jsSpace c = false ∧ isLineTerm c = false ∧
    c ≠ '条' ∧ c ≠ '款' ∧ c ≠ '法' ∧ c ≠ '典' ∧ c ≠ '例' ∧ c ≠ ',' ∧
    c ≠ '，' ∧ c ≠ '-' ∧ c ≠ '+' ∧ c ≠ '中' := by
  simp only [numGlyph, decide_eq_true_eq, List.mem_cons, List.not_mem_nil,
    or_false] at h
  rcases h with rfl | rfl | rfl | rfl | rfl | rfl | rfl | rfl | rfl | rfl |
    rfl | rfl | rfl <;> decide

/-! ### C4: list-scan lemmas -/

theorem takeWhile_append_of_all {f : Char → Bool} :
    ∀ {A R : List Char}, (∀ c ∈ A, f c = true) →
      (∀ c, R.head? = some c → f c = false) →
      (A ++ R).takeWhile f = A ∧ (A ++ R).dropWhile f = R := by
  intro A
  induction A with
  | nil =>
    intro R _ hR
    cases R with
    | nil => exact ⟨rfl, rfl⟩
    | cons r R' =>
      rw [List.nil_append]
      constructor
      · rw [List.takeWhile_cons, if_neg (by simp [hR r rfl])]
      · rw [List.dropWhile_cons, if_neg (by simp [hR r rfl])]
  | cons a A' ih =>
    intro R hA hR
    have hfa : f a = true := hA a (List.mem_cons_self a A')
    have := ih (fun c hc => hA c (List.mem_cons_of_mem a hc)) hR
    constructor
    · rw [List.cons_append, List.takeWhile_cons, if_pos hfa, this.1]
    · rw [List.cons_append, List.dropWhile_cons, if_pos hfa, this.2]

theorem dropWhile_cons_of_neg {f : Char → Bool} {c : Char} {l : List Char}
    (h : f c = false) : (c :: l).dropWhile f = c :: l := by
  rw [List.dropWhile_cons, if_neg (by simp [h])]

theorem takeWhile_cons_of_neg {f : Char → Bool} {c : Char} {l : List Char}
    (h : f c = false) : (c :: l).takeWhile f = [] := by
  rw [List.takeWhile_cons, if_neg (by simp [h])]

/-- `digits1` on a digit run followed by a non-digit (or nothing). -/
theorem digits1_run {A R : List Char} (hA0 : A ≠ [])
    (hA : ∀ c ∈ A, isDigitChar c = true)
    (hR : ∀ c, R.head? = some c → isDigitChar c = false) :
    digits1 (A ++ R) = some (A, R) := by
  obtain ⟨htake, _⟩ := takeWhile_append_of_all hA hR
  unfold digits1
  rw [htake, if_neg (by simpa using hA0)]
  congr 1
  rw [List.drop_left]

/-- `digits1` fails on a non-digit head (or empty input). -/
theorem digits1_none {l : List Char}
    (h : ∀ c, l.head? = some c → isDigitChar c = false) : digits1 l = none := by
  cases l with
  | nil => rfl
  | cons c rest =>
    unfold digits1
    rw [takeWhile_cons_of_neg (h c rfl)]
    rfl

/-- `jsTrim` is the identity when both ends are non-whitespace. -/
theorem jsTrim_ends {l : List Char}
    (h1 : ∀ c, l.head? = some c → jsSpace c = false)
    (h2 : ∀ c, l.getLast? = some c → jsSpace c = false) : jsTrim l = l := by
  unfold jsTrim
  have e1 : l.dropWhile jsSpace = l := by
    cases l with
    | nil => rfl
    | cons c rest => exact dropWhile_cons_of_neg (h1 c rfl)
  rw [e1]
  have e2 : l.reverse.dropWhile jsSpace = l.reverse := by
    cases hr : l.reverse with
    | nil => rfl
    | cons c rest =>
      refine dropWhile_cons_of_neg (h2 c ?_)
      rw [← List.head?_reverse, hr]
      rfl
  rw [e2, List.reverse_reverse]

/-- Characters surviving `litDropCI` come from the input. -/
theorem litDropCI_mem : ∀ {w l r : List Char}, litDropCI w l = some r →
    ∀ c ∈ r, c ∈ l := by
  intro w
  induction w with
  | nil =>
    intro l r h c hc
    rw [litDropCI] at h
    injection h with h
    exact h ▸ hc
  | cons p w' ih =>
    intro l r h c hc
    cases l with
    | nil => cases h
    | cons x l' =>
      rw [litDropCI] at h
      split at h
      · exact List.mem_cons_of_mem x (ih h c hc)
      · cases h

/-- Characters surviving `dropWhile` come from the input. -/
theorem dropWhile_mem {f : Char → Bool} {l : List Char} :
    ∀ c ∈ l.dropWhile f, c ∈ l :=
  fun _ hc => (List.dropWhile_sublist f).mem hc

/-- Characters surviving `sepCommaOptSpace` come from the input. -/
theorem sepCommaOptSpace_mem {l : List Char} :
    ∀ c ∈ sepCommaOptSpace l, c ∈ l := by
  intro c hc
  unfold sepCommaOptSpace at hc
  dsimp only at hc
  split at hc
  case h_1 l2 heq =>
    have h1 : c ∈ ',' :: l2 := List.mem_cons_of_mem ',' (dropWhile_mem c hc)
    have h2 : (',' :: l2 : List Char) = l.dropWhile jsSpace := heq.symm
    exact dropWhile_mem c (h2 ▸ h1)
  case h_2 =>
    exact dropWhile_mem c hc

/-- On a list of title characters, no run of digits can be found after
skipping whitespace. -/
theorem digits1_dropWhile_title {l : List Char}
    (h : ∀ c ∈ l, titleChar c = true) :
    digits1 (l.dropWhile jsSpace) = none := by
  refine digits1_none ?_
  intro c hc
  cases hd : l.dropWhile jsSpace with
  | nil => rw [hd] at hc; cases hc
  | cons x rest =>
    rw [hd] at hc
    injection hc with hc
    subst hc
    have hmem : x ∈ l.dropWhile jsSpace := by
      rw [hd]; exact List.mem_cons_self _ _
    exact (title_char_facts (h x (dropWhile_mem x hmem))).1

/-! ### C4: matcher no-match lemmas -/

theorem head?_ne {l : List Char} {x : Char} (h : ∀ c ∈ l, c ≠ x) :
    l.head? ≠ some x := by
  cases l with
  | nil => simp
  | cons c rest =>
    simp only [List.head?_cons, ne_eq, Option.some.injEq]
    exact h c (List.mem_cons_self c rest)

theorem firstSome_none {xs : List (Option α)} (h : ∀ x ∈ xs, x = none) :
    firstSome xs = none := by
  induction xs with
  | nil => rfl
  | cons x rest ih =>
    have hx := h x (List.mem_cons_self x rest)
    subst hx
    rw [firstSome]
    exact ih (fun y hy => h y (List.mem_cons_of_mem none hy))

theorem lfGo_none : ∀ (l acc : List Char),
    (∀ c ∈ l, c ≠ '法' ∧ c ≠ '典' ∧ c ≠ '例') → lfGo acc l = none := by
  intro l
  induction l with
  | nil => intro acc _; rfl
  | cons c rest ih =>
    intro acc h
    have hrest : ∀ d ∈ rest, d ≠ '法' ∧ d ≠ '典' ∧ d ≠ '例' :=
      fun d hd => h d (List.mem_cons_of_mem c hd)
    rw [lfGo]
    dsimp only
    by_cases hlt : isLineTerm c = true
    · rw [if_pos hlt]
    · rw [if_neg hlt,
        if_neg (head?_ne (fun d hd => (hrest d hd).1)),
        if_neg (head?_ne (fun d hd => (hrest d hd).2.1)),
        if_neg (fun hc => head?_ne
          (fun d hd => (hrest d (List.mem_of_mem_tail hd)).2.2) hc.2)]
      exact ih (acc ++ [c]) hrest

theorem tiaoScan_no_tiao {α : Type} (cont : List Char → Option α) :
    ∀ (l acc : List Char), (∀ c ∈ l, c ≠ '条') →
      tiaoScan cont acc l = none := by
  intro l
  induction l with
  | nil => intro acc _; rfl
  | cons c rest ih =>
    intro acc h
    have hrest : ∀ d ∈ rest, d ≠ '条' :=
      fun d hd => h d (List.mem_cons_of_mem c hd)
    rw [tiaoScan]
    dsimp only
    by_cases hlt : isLineTerm c = true
    · rw [if_pos hlt]
    · rw [if_neg hlt, if_neg (head?_ne hrest)]
      exact ih (acc ++ [c]) hrest

theorem kuanScan_no_kuan {α : Type} (cont : List Char → Option α) :
    ∀ (l acc : List Char), (∀ c ∈ l, c ≠ '款') →
      kuanScan cont acc l = none := by
  intro l
  induction l with
  | nil => intro acc _; rfl
  | cons c rest ih =>
    intro acc h
    have hrest : ∀ d ∈ rest, d ≠ '款' :=
      fun d hd => h d (List.mem_cons_of_mem c hd)
    rw [kuanScan]
    dsimp only
    by_cases hlt : isLineTerm c = true
    · rw [if_pos hlt]
    · rw [if_neg hlt, if_neg (head?_ne hrest)]
      exact ih (acc ++ [c]) hrest

theorem tiaoScan_through {α : Type} (cont : List Char → Option α) :
    ∀ (X acc Y : List Char), X ≠ [] →
      (∀ c ∈ X, c ≠ '条' ∧ isLineTerm c = false) →
      tiaoScan cont acc (X ++ '条' :: Y)
        = (match afterTiao cont (acc ++ X) Y with
           | some r => some r
           | none => tiaoScan cont (acc ++ X) ('条' :: Y)) := by
  intro X
  induction X with
  | nil => intro acc Y h _; exact absurd rfl h
  | cons x X' ih =>
    intro acc Y _ hX
    have hx := hX x (List.mem_cons_self x X')
    cases X' with
    | nil =>
      rw [List.cons_append, List.nil_append, tiaoScan]
      dsimp only
      rw [if_neg (by simp [hx.2]),
        if_pos (show (('条' :: Y).head? = some '条')  from rfl)]
      rfl
    | cons y X'' =>
      have hy := hX y (List.mem_cons_of_mem x (List.mem_cons_self y X''))
      rw [List.cons_append, tiaoScan]
      dsimp only
      rw [if_neg (by simp [hx.2]),
        if_neg (by simp only [List.cons_append, List.head?_cons, ne_eq,
          Option.some.injEq]; exact hy.1)]
      rw [ih (acc ++ [x]) Y (by simp)
        (fun c hc => hX c (List.mem_cons_of_mem x hc))]
      simp only [List.append_assoc, List.singleton_append]

theorem kuanScan_through {α : Type} (cont : List Char → Option α) :
    ∀ (X acc Y : List Char), X ≠ [] →
      (∀ c ∈ X, c ≠ '款' ∧ isLineTerm c = false) →
      kuanScan cont acc (X ++ '款' :: Y)
        = (match cont Y with
           | some a => some (acc ++ X, a)
           | none => kuanScan cont (acc ++ X) ('款' :: Y)) := by
  intro X
  induction X with
  | nil => intro acc Y h _; exact absurd rfl h
  | cons x X' ih =>
    intro acc Y _ hX
    have hx := hX x (List.mem_cons_self x X')
    cases X' with
    | nil =>
      rw [List.cons_append, List.nil_append, kuanScan]
      dsimp only
      rw [if_neg (by simp [hx.2]),
        if_pos (show (('款' :: Y).head? = some '款')  from rfl)]
      rfl
    | cons y X'' =>
      have hy := hX y (List.mem_cons_of_mem x (List.mem_cons_self y X''))
      rw [List.cons_append, kuanScan]
      dsimp only
      rw [if_neg (by simp [hx.2]),
        if_neg (by simp only [List.cons_append, List.head?_cons, ne_eq,
          Option.some.injEq]; exact hy.1)]
      rw [ih (acc ++ [x]) Y (by simp)
        (fun c hc => hX c (List.mem_cons_of_mem x hc))]
      simp only [List.append_assoc, List.singleton_append]

theorem llnGo_none : ∀ (l acc : List Char),
    (∀ c, l.getLast? = some c → c ≠ '法' ∧ c ≠ '典' ∧ c ≠ '例') →
    llnGo acc l = none := by
  intro l
  induction l with
  | nil => intro acc _; rfl
  | cons c rest ih =>
    intro acc h
    rw [llnGo]
    dsimp only
    by_cases hlt : isLineTerm c = true
    · rw [if_pos hlt]
    · rw [if_neg hlt, if_neg ?hcond]
      case hcond =>
        intro hc
        rcases hc with hc | hc | hc <;> subst hc
        · exact (h '法' (by simp [List.getLast?_cons_cons])).1 rfl
        · exact (h '典' (by simp [List.getLast?_cons_cons])).2.1 rfl
        · exact (h '例' (by
            show (c :: ['条', '例']).getLast? = some '例'
            simp [List.getLast?_cons_cons])).2.2 rfl
      refine ih (acc ++ [c]) ?_
      intro d hd
      cases rest with
      | nil => cases hd
      | cons e rest' =>
        exact h d (by rw [List.getLast?_cons_cons]; exact hd)

theorem litDrop_append : ∀ {w l r : List Char}, litDrop w l = some r →
    l = w ++ r := by
  intro w
  induction w with
  | nil =>
    intro l r h
    rw [litDrop] at h
    injection h with h
  | cons p w' ih =>
    intro l r h
    cases l with
    | nil => cases h
    | cons x l' =>
      rw [litDrop] at h
      split at h
      case isTrue heq => rw [List.cons_append, heq, ih h]
      case isFalse => cases h

theorem lazyLawName_none {l : List Char}
    (h : ∀ c, l.getLast? = some c → c ≠ '法' ∧ c ≠ '典' ∧ c ≠ '例') :
    lazyLawName l = none :=
  llnGo_none l [] h

theorem chnAfterSep_none {l : List Char}
    (h : ∀ c, l.getLast? = some c → c ≠ '法' ∧ c ≠ '典' ∧ c ≠ '例') :
    chnAfterSep l = none := by
  unfold chnAfterSep
  cases hld : litDrop "中华人民共和国".data l with
  | none => exact lazyLawName_none h
  | some l' =>
    have hl : l = "中华人民共和国".data ++ l' := litDrop_append hld
    have h' : ∀ c, l'.getLast? = some c → c ≠ '法' ∧ c ≠ '典' ∧ c ≠ '例' := by
      intro c hc
      refine h c ?_
      rw [hl, List.getLast?_append_of_ne_nil]
      · exact hc
      · intro he
        rw [he] at hc
        cases hc
    show (match lazyLawName l' with
      | some g => some g
      | none => lazyLawName l) = none
    rw [lazyLawName_none h']
    exact lazyLawName_none h

/-- Every remainder produced by the separator backtracking is a suffix. -/
theorem sepCnBacktrack_suffix {l pos : List Char}
    (h : pos ∈ sepCnBacktrack l) : pos <:+ l := by
  unfold sepCnBacktrack at h
  rw [List.mem_flatMap] at h
  obtain ⟨i, _, hmem⟩ := h
  rw [List.mem_append] at hmem
  rcases hmem with hmem | hmem
  · split at hmem
    case h_1 c r' heq =>
      split at hmem
      · rw [List.mem_map] at hmem
        obtain ⟨j, _, rfl⟩ := hmem
        refine (List.drop_suffix j r').trans ?_
        refine List.IsSuffix.trans ?_ (List.drop_suffix i l)
        rw [heq]
        exact ⟨[c], rfl⟩
      · cases hmem
    case h_2 => cases hmem
  · rw [List.mem_map] at hmem
    obtain ⟨j, _, rfl⟩ := hmem
    exact (List.drop_suffix j _).trans (List.drop_suffix i l)

theorem ccTail_none {r : List Char}
    (h : ∀ c, r.getLast? = some c → c ≠ '法' ∧ c ≠ '典' ∧ c ≠ '例') :
    ccTail r = none := by
  unfold ccTail
  refine firstSome_none ?_
  intro x hx
  rw [List.mem_map] at hx
  obtain ⟨pos, hpos, rfl⟩ := hx
  have hsuf := sepCnBacktrack_suffix hpos
  refine chnAfterSep_none ?_
  intro c hc
  obtain ⟨pre, rfl⟩ := hsuf
  refine h c ?_
  rw [List.getLast?_append_of_ne_nil]
  · exact hc
  · intro he
    rw [he] at hc
    cases hc

/-! ### C4: decimal representation and `parseInt` -/

theorem digitChar_spec {m : Nat} (hm : m < 10) :
    isDigitChar (Nat.digitChar m) = true
    ∧ digitVal (Nat.digitChar m) = m
    ∧ jsSpace (Nat.digitChar m) = false
    ∧ Nat.digitChar m ≠ '-' ∧ Nat.digitChar m ≠ '+' := by
  interval_cases m <;> exact ⟨rfl, rfl, rfl, by decide, by decide⟩

theorem takeWhile_of_all {f : Char → Bool} :
    ∀ {l : List Char}, (∀ c ∈ l, f c = true) → l.takeWhile f = l := by
  intro l
  induction l with
  | nil => intro _; rfl
  | cons c rest ih =>
    intro h
    rw [List.takeWhile_cons, if_pos (h c (List.mem_cons_self c rest)),
      ih (fun d hd => h d (List.mem_cons_of_mem c hd))]

theorem decCharsAux_spec : ∀ (fuel n : Nat), n < fuel →
    decCharsAux fuel n ≠ []
    ∧ (∀ c ∈ decCharsAux fuel n, isDigitChar c = true)
    ∧ digitsVal (decCharsAux fuel n) = n := by
  intro fuel
  induction fuel with
  | zero => intro n h; omega
  | succ f ih =>
    intro n h
    rw [decCharsAux]
    by_cases h10 : n < 10
    · rw [if_pos h10]
      refine ⟨by simp, ?_, ?_⟩
      · intro c hc
        simp only [List.mem_cons, List.not_mem_nil, or_false] at hc
        subst hc
        exact (digitChar_spec h10).1
      · show 0 * 10 + digitVal (Nat.digitChar n) = n
        rw [(digitChar_spec h10).2.1]
        omega
    · rw [if_neg h10]
      have hdiv : n / 10 < f := by omega
      obtain ⟨h1, h2, h3⟩ := ih (n / 10) hdiv
      have hm10 : n % 10 < 10 := Nat.mod_lt _ (by omega)
      refine ⟨by simp [h1], ?_, ?_⟩
      · intro c hc
        rw [List.mem_append] at hc
        rcases hc with hc | hc
        · exact h2 c hc
        · simp only [List.mem_cons, List.not_mem_nil, or_false] at hc
          subst hc
          exact (digitChar_spec hm10).1
      · rw [digitsVal, List.foldl_append]
        simp only [List.foldl_cons, List.foldl_nil]
        rw [digitsVal] at h3
        rw [h3, (digitChar_spec hm10).2.1]
        omega

theorem decChars_spec (n : Nat) :
    decChars n ≠ []
    ∧ (∀ c ∈ decChars n, isDigitChar c = true)
    ∧ digitsVal (decChars n) = n :=
  decCharsAux_spec (n + 1) n (by omega)

theorem jsParseInt_dec (n : Nat) : jsParseInt (decChars n) = some (n : Int) := by
  obtain ⟨h1, h2, h3⟩ := decChars_spec n
  obtain ⟨d, L, hdl⟩ := List.exists_cons_of_ne_nil h1
  have hdmem : d ∈ decChars n := hdl ▸ List.mem_cons_self _ _
  have hd : isDigitChar d = true := h2 d hdmem
  have hminus : d ≠ '-' := by
    intro he; rw [he] at hd; exact absurd hd (by decide)
  have hplus : d ≠ '+' := by
    intro he; rw [he] at hd; exact absurd hd (by decide)
  have hns : jsSpace d = false := (digit_char_facts hd).1
  have hsign : ¬((d :: L).head? = some '-' ∨ (d :: L).head? = some '+') := by
    intro hc
    rcases hc with hc | hc <;> rw [List.head?_cons] at hc <;>
      injection hc with hc
    · exact hminus hc
    · exact hplus hc
  unfold jsParseInt
  dsimp only
  rw [hdl, dropWhile_cons_of_neg hns, if_neg hsign, ← hdl,
    takeWhile_of_all h2, if_neg (by simpa using h1), h3,
    if_neg (by
      rw [hdl, List.head?_cons]
      simp only [decide_eq_true_eq, Option.some.injEq]
      exact hminus)]

theorem jsParseInt_none_of {l : List Char}
    (h : ∀ c ∈ l, jsSpace c = false ∧ isDigitChar c = false ∧
      c ≠ '-' ∧ c ≠ '+') : jsParseInt l = none := by
  cases l with
  | nil => rfl
  | cons d L =>
    obtain ⟨hs, hd, hm, hp⟩ := h d (List.mem_cons_self d L)
    have hsign : ¬((d :: L).head? = some '-' ∨ (d :: L).head? = some '+') := by
      intro hc
      rcases hc with hc | hc <;> rw [List.head?_cons] at hc <;>
        injection hc with hc
      · exact hm hc
      · exact hp hc
    have htw : (d :: L).takeWhile isDigitChar = [] := by
      rw [List.takeWhile_cons, if_neg (by simp [hd])]
    unfold jsParseInt
    dsimp only
    rw [dropWhile_cons_of_neg hs, if_neg hsign, htw]
    rfl

theorem jsNumStr_nat (n : Nat) : jsNumStr (n : Int) = String.mk (decChars n) := by
  unfold jsNumStr
  rw [if_neg (by omega)]
  rfl

/-! ### C4: separator and keyword helpers -/

theorem sepCommaOptSpace_id {x : Char} {l : List Char}
    (h1 : jsSpace x = false) (h2 : x ≠ ',') :
    sepCommaOptSpace (x :: l) = x :: l := by
  unfold sepCommaOptSpace
  dsimp only
  rw [dropWhile_cons_of_neg h1]
  split
  case h_1 l2 heq =>
    exact absurd (List.head_eq_of_cons_eq heq) h2
  case h_2 => rfl

theorem sepCommaOptSpace_space {l : List Char} :
    sepCommaOptSpace (' ' :: l) = sepCommaOptSpace l := by
  unfold sepCommaOptSpace
  rw [List.dropWhile_cons_of_pos (by decide)]

theorem litDropCI_cons_none {c x : Char} {w l : List Char}
    (h : asciiLower x ≠ c) : litDropCI (c :: w) (x :: l) = none := by
  rw [litDropCI, if_neg h]

theorem digit_ne_a {d : Char} (h : isDigitChar d = true) :
    asciiLower d ≠ 'a' := by
  rw [(digit_char_facts h).2.1]
  obtain ⟨_, h2⟩ := digit_toNat_bounds h
  apply char_ne_of_toNat_ne
  have : ('a').toNat = 97 := rfl
  omega

theorem idKeywordCands_nil {x : Char} {l : List Char}
    (h : asciiLower x ≠ 'a') : idKeywordCands (x :: l) = [] := by
  unfold idKeywordCands
  rw [show ("art.".data : List Char) = 'a' :: "rt.".data from rfl,
    litDropCI_cons_none h,
    show ("art".data : List Char) = 'a' :: "rt".data from rfl,
    litDropCI_cons_none h,
    show ("article".data : List Char) = 'a' :: "rticle".data from rfl,
    litDropCI_cons_none h]
  rfl

theorem idTail_none_of {l l2 : List Char} {x : Char}
    (h1 : sepCommaOptSpace l = x :: l2) (h2 : asciiLower x ≠ 'a') :
    idTail l = none := by
  unfold idTail
  dsimp only
  rw [h1, idKeywordCands_nil h2]
  rfl

theorem idTryLens_succ_none {c : Char} {run after : List Char} {k : Nat}
    (h1 : (run.drop (k + 1) ++ after).head? ≠ some '-')
    (h2 : idTail (run.drop (k + 1) ++ after) = none) :
    idTryLens c run after (k + 1) = idTryLens c run after k := by
  rw [idTryLens]
  cases hrest : run.drop (k + 1) ++ after with
  | nil =>
    rw [hrest] at h2
    rw [h2]
  | cons x r =>
    rw [hrest] at h1 h2
    have hx : x ≠ '-' := by
      intro he
      rw [he] at h1
      exact h1 rfl
    split
    case h_1 res heq =>
      split at heq
      next r1 hcons =>
        exact absurd (List.head_eq_of_cons_eq hcons) hx
      next => exact absurd heq (by simp)
    case h_2 =>
      rw [h2]

set_option maxHeartbeats 1000000 in
theorem idCitationMatch_article {d : Char} {tail : List Char}
    (hd : isDigitChar d = true) :
    idCitationMatch ("Article ".data ++ d :: tail) = none := by
  show idTryLens 'A' "rticle".data (' ' :: d :: tail) 6 = none
  have hsep0 : sepCommaOptSpace (' ' :: d :: tail) = d :: tail := by
    rw [sepCommaOptSpace_space,
      sepCommaOptSpace_id (digit_char_facts hd).1 (digit_char_facts hd).2.2.2.1]
  have h6 : idTail (' ' :: d :: tail) = none :=
    idTail_none_of hsep0 (digit_ne_a hd)
  have h5 : idTail ('e' :: ' ' :: d :: tail) = none :=
    idTail_none_of (sepCommaOptSpace_id (by decide) (by decide)) (by decide)
  have h4 : idTail ('l' :: 'e' :: ' ' :: d :: tail) = none :=
    idTail_none_of (sepCommaOptSpace_id (by decide) (by decide)) (by decide)
  have h3 : idTail ('c' :: 'l' :: 'e' :: ' ' :: d :: tail) = none :=
    idTail_none_of (sepCommaOptSpace_id (by decide) (by decide)) (by decide)
  have h2 : idTail ('i' :: 'c' :: 'l' :: 'e' :: ' ' :: d :: tail) = none :=
    idTail_none_of (sepCommaOptSpace_id (by decide) (by decide)) (by decide)
  have h1 : idTail ('t' :: 'i' :: 'c' :: 'l' :: 'e' :: ' ' :: d :: tail)
      = none :=
    idTail_none_of (sepCommaOptSpace_id (by decide) (by decide)) (by decide)
  have g6 : ((' ' : Char) :: d :: tail).head? ≠ some '-' := by simp
  have g5 : (('e' : Char) :: ' ' :: d :: tail).head? ≠ some '-' := by simp
  have g4 : (('l' : Char) :: 'e' :: ' ' :: d :: tail).head? ≠ some '-' := by
    simp
  have g3 : (('c' : Char) :: 'l' :: 'e' :: ' ' :: d :: tail).head? ≠ some '-'
      := by simp
  have g2 : (('i' : Char) :: 'c' :: 'l' :: 'e' :: ' ' :: d :: tail).head?
      ≠ some '-' := by simp
  have g1 : (('t' : Char) :: 'i' :: 'c' :: 'l' :: 'e' :: ' ' :: d :: tail).head?
      ≠ some '-' := by simp
  rw [idTryLens_succ_none g6 h6, idTryLens_succ_none g5 h5,
    idTryLens_succ_none g4 h4, idTryLens_succ_none g3 h3,
    idTryLens_succ_none g2 h2, idTryLens_succ_none g1 h1]
  rfl

set_option maxHeartbeats 1000000 in
theorem idCitationMatch_art (tail : List Char) :
    idCitationMatch ("Art. ".data ++ tail) = none := by
  show idTryLens 'A' "rt".data ('.' :: ' ' :: tail) 2 = none
  have h2 : idTail ('.' :: ' ' :: tail) = none :=
    idTail_none_of (sepCommaOptSpace_id (by decide) (by decide)) (by decide)
  have h1 : idTail ('t' :: '.' :: ' ' :: tail) = none :=
    idTail_none_of (sepCommaOptSpace_id (by decide) (by decide)) (by decide)
  have g2 : (('.' : Char) :: ' ' :: tail).head? ≠ some '-' := by simp
  have g1 : (('t' : Char) :: '.' :: ' ' :: tail).head? ≠ some '-' := by simp
  rw [idTryLens_succ_none g2 h2, idTryLens_succ_none g1 h1]
  rfl

/-! ### C4: digit-free facts for the optional groups -/

theorem drop_length_takeWhile {f : Char → Bool} :
    ∀ l : List Char, l.drop (l.takeWhile f).length = l.dropWhile f := by
  intro l
  induction l with
  | nil => rfl
  | cons c rest ih =>
    rw [List.takeWhile_cons, List.dropWhile_cons]
    by_cases hf : f c = true
    · rw [if_pos hf, if_pos hf, List.length_cons, List.drop_succ_cons, ih]
    · rw [if_neg hf, if_neg hf, List.length_nil, List.drop_zero]

theorem digits1_dropWhile_nodigit {l : List Char}
    (h : ∀ c ∈ l, isDigitChar c = false) :
    digits1 (l.dropWhile jsSpace) = none := by
  refine digits1_none ?_
  intro c hc
  cases hd : l.dropWhile jsSpace with
  | nil => rw [hd] at hc; cases hc
  | cons x rest =>
    rw [hd] at hc
    injection hc with hc
    subst hc
    have hmem : x ∈ l.dropWhile jsSpace := by
      rw [hd]; exact List.mem_cons_self _ _
    exact h x (dropWhile_mem x hmem)

theorem engParaGroup_no_digits {l : List Char}
    (h : ∀ c ∈ l, isDigitChar c = false) : engParaGroup l = none := by
  unfold engParaGroup
  cases hld : litDropCI "paragraph".data (sepCommaOptSpace l) with
  | none => rfl
  | some l2 =>
    have hsub : ∀ c ∈ l2, isDigitChar c = false := fun c hc =>
      h c (sepCommaOptSpace_mem c (litDropCI_mem hld c hc))
    show (if (List.takeWhile jsSpace l2).isEmpty = true then none
      else digits1 (List.dropWhile jsSpace l2)) = none
    rw [digits1_dropWhile_nodigit hsub]
    split <;> rfl

theorem shortParaKwItem_nil {ls : List Char} (kw : String)
    (h : ∀ c ∈ ls, isDigitChar c = false) : shortParaKwItem ls kw = [] := by
  unfold shortParaKwItem
  cases hld : litDropCI kw.data ls with
  | none => rfl
  | some r =>
    have hsub : ∀ c ∈ r, isDigitChar c = false := fun c hc =>
      h c (litDropCI_mem hld c hc)
    show (match digits1 (List.dropWhile jsSpace r) with
      | some pr => [pr]
      | none => ([] : List (List Char × List Char))) = []
    rw [digits1_dropWhile_nodigit hsub]

theorem shortParaCands_no_digits {l : List Char}
    (h : ∀ c ∈ l, isDigitChar c = false) : shortParaCands l = [] := by
  have hls : ∀ c ∈ sepCommaOptSpace l, isDigitChar c = false := fun c hc =>
    h c (sepCommaOptSpace_mem c hc)
  unfold shortParaCands
  dsimp only
  rw [digits1_none (fun c hc => by
    cases hd : sepCommaOptSpace l with
    | nil => rw [hd] at hc; cases hc
    | cons x rest =>
      rw [hd] at hc
      injection hc with hc
      subst hc
      exact hls x (by rw [hd]; exact List.mem_cons_self _ _))]
  rw [List.flatMap_cons, shortParaKwItem_nil _ hls,
    List.flatMap_cons, shortParaKwItem_nil _ hls,
    List.flatMap_cons, shortParaKwItem_nil _ hls,
    List.flatMap_cons, shortParaKwItem_nil _ hls]
  rfl

theorem styYear_none {r : List Char}
    (h : ∀ c ∈ r, isDigitChar c = false) : styYear r = none := by
  unfold styYear
  dsimp only
  by_cases hw : (r.takeWhile jsSpace).isEmpty
  · rw [if_pos hw]
  · rw [if_neg hw, if_neg ?_]
    intro hc
    obtain ⟨h4, hall⟩ := hc
    rw [drop_length_takeWhile] at h4 hall
    cases hd : r.dropWhile jsSpace with
    | nil => rw [hd] at h4; simp at h4
    | cons x rest =>
      rw [hd] at hall
      have hx : x ∈ r := dropWhile_mem x (by rw [hd]; exact List.mem_cons_self _ _)
      have := (List.all_eq_true.mp hall) x (List.mem_cons_self _ _)
      rw [h x hx] at this
      cases this

theorem styGo_all : ∀ (T acc : List Char), T ≠ [] →
    (∀ c ∈ T, isDigitChar c = false ∧ isLineTerm c = false) →
    styGo acc T = some (acc ++ T, none) := by
  intro T
  induction T with
  | nil => intro acc h _; exact absurd rfl h
  | cons c rest ih =>
    intro acc _ h
    have hc := h c (List.mem_cons_self c rest)
    have hrest : ∀ d ∈ rest, isDigitChar d = false ∧ isLineTerm d = false :=
      fun d hd => h d (List.mem_cons_of_mem c hd)
    rw [styGo]
    dsimp only
    rw [if_neg (by simp [hc.2]), styYear_none (fun d hd => (hrest d hd).1)]
    cases rest with
    | nil => rfl
    | cons r rs =>
      show styGo (acc ++ [c]) (r :: rs) = some (acc ++ c :: r :: rs, none)
      rw [ih (acc ++ [c]) (by simp) hrest]
      simp only [List.append_assoc, List.singleton_append]

/-! ### C4: separator and title-tail positives -/

theorem dropWhile_head_neg {f : Char → Bool} {l : List Char}
    (h : ∀ c, l.head? = some c → f c = false) : l.dropWhile f = l := by
  cases l with
  | nil => rfl
  | cons c rest => exact dropWhile_cons_of_neg (h c rfl)

theorem sepCommaOptSpace_comma_space {Z : List Char}
    (hz : ∀ c, Z.head? = some c → jsSpace c = false) :
    sepCommaOptSpace (',' :: ' ' :: Z) = Z := by
  unfold sepCommaOptSpace
  dsimp only
  rw [dropWhile_cons_of_neg (by decide)]
  show (' ' :: Z).dropWhile jsSpace = Z
  rw [List.dropWhile_cons_of_pos (by decide), dropWhile_head_neg hz]

theorem sepCommaSpace_comma_space {Z : List Char}
    (hz : ∀ c, Z.head? = some c → jsSpace c = false) :
    sepCommaSpace (',' :: ' ' :: Z) = some Z := by
  unfold sepCommaSpace
  dsimp only
  rw [dropWhile_cons_of_neg (by decide)]
  show (if ((' ' :: Z).takeWhile jsSpace).isEmpty = true then none
    else some ((' ' :: Z).dropWhile jsSpace)) = some Z
  rw [List.takeWhile_cons_of_pos (by decide), if_neg (by simp),
    List.dropWhile_cons_of_pos (by decide), dropWhile_head_neg hz]

theorem sepCommaSpace_space {T : List Char} (hT0 : T ≠ [])
    (hTh : ∀ c, T.head? = some c → jsSpace c = false)
    (hTc : ∀ c ∈ T, c ≠ ',') :
    sepCommaSpace (' ' :: T) = some T := by
  unfold sepCommaSpace
  dsimp only
  rw [List.dropWhile_cons_of_pos (by decide), dropWhile_head_neg hTh]
  obtain ⟨t, T', rfl⟩ := List.exists_cons_of_ne_nil hT0
  split
  case h_1 l2 heq =>
    exact absurd (List.head_eq_of_cons_eq heq) (hTc t (List.mem_cons_self _ _))
  case h_2 =>
    rw [List.takeWhile_cons_of_pos (by decide), if_neg (by simp)]

theorem engTitleTail_pos {T : List Char} (hT0 : T ≠ [])
    (hTc : ∀ c ∈ T, titleChar c = true)
    (hTh : ∀ c, T.head? = some c → jsSpace c = false) :
    engTitleTail (',' :: ' ' :: T) = some T := by
  unfold engTitleTail
  rw [sepCommaSpace_comma_space hTh]
  have h1 : T.isEmpty = false := by simp [List.isEmpty_iff, hT0]
  have h2 : T.any isLineTerm = false := by
    rw [List.any_eq_false]
    intro x hx
    simp [(title_char_facts (hTc x hx)).2.1]
  show (if (T.isEmpty || T.any isLineTerm) = true then none else some T) = some T
  rw [h1, h2]
  rfl

theorem shortTitleYear_pos {T : List Char} (hT0 : T ≠ [])
    (hTc : ∀ c ∈ T, titleChar c = true)
    (hTh : ∀ c, T.head? = some c → jsSpace c = false) :
    shortTitleYear (' ' :: T) = some (T, none) := by
  unfold shortTitleYear
  rw [sepCommaSpace_space hT0 hTh
    (fun c hc => (title_char_facts (hTc c hc)).2.2.1)]
  show styGo [] T = some (T, none)
  rw [styGo_all T [] hT0 (fun c hc =>
    ⟨(title_char_facts (hTc c hc)).1, (title_char_facts (hTc c hc)).2.1⟩)]
  rw [List.nil_append]

set_option maxHeartbeats 1000000 in
theorem litDropCI_article (X : List Char) :
    litDropCI "article".data ("Article ".data ++ X) = some (' ' :: X) := rfl

set_option maxHeartbeats 1000000 in
theorem litDropCI_paragraph (X : List Char) :
    litDropCI "paragraph".data ("Paragraph ".data ++ X) = some (' ' :: X) := rfl

set_option maxHeartbeats 1000000 in
theorem litDropCI_art (X : List Char) :
    litDropCI "art".data ("Art. ".data ++ X) = some ('.' :: ' ' :: X) := rfl

set_option maxHeartbeats 1000000 in
theorem litDropCI_para (X : List Char) :
    litDropCI "para.".data ("Para. ".data ++ X) = some (' ' :: X) := rfl

/-! ### C4: positive computations of the English/short matchers -/

theorem engParaGroup_pos {E R : List Char}
    (hE0 : E ≠ []) (hE : ∀ c ∈ E, isDigitChar c = true)
    (hR : ∀ c, R.head? = some c → isDigitChar c = false) :
    engParaGroup (',' :: ' ' :: ("Paragraph ".data ++ (E ++ R)))
      = some (E, R) := by
  unfold engParaGroup
  rw [sepCommaOptSpace_comma_space (by
    intro c hc
    have hp : ("Paragraph ".data ++ (E ++ R)).head? = some 'P' := rfl
    rw [hp] at hc
    injection hc with hc
    subst hc
    decide)]
  rw [litDropCI_paragraph]
  show (if ((' ' :: (E ++ R)).takeWhile jsSpace).isEmpty = true then none
    else digits1 ((' ' :: (E ++ R)).dropWhile jsSpace)) = some (E, R)
  rw [List.takeWhile_cons_of_pos (by decide), if_neg (by simp),
    List.dropWhile_cons_of_pos (by decide)]
  obtain ⟨e, E', rfl⟩ := List.exists_cons_of_ne_nil hE0
  rw [dropWhile_head_neg (by
    intro c hc
    rw [List.cons_append, List.head?_cons] at hc
    injection hc with hc
    subst hc
    exact (digit_char_facts (hE e (List.mem_cons_self _ _))).1)]
  exact digits1_run hE0 hE hR

theorem englishMatch_pos_para {D E T : List Char}
    (hD0 : D ≠ []) (hD : ∀ c ∈ D, isDigitChar c = true)
    (hE0 : E ≠ []) (hE : ∀ c ∈ E, isDigitChar c = true)
    (hT0 : T ≠ []) (hTc : ∀ c ∈ T, titleChar c = true)
    (hTh : ∀ c, T.head? = some c → jsSpace c = false) :
    englishMatch ("Article ".data
        ++ (D ++ (',' :: ' ' :: ("Paragraph ".data ++ (E ++ (',' :: ' ' :: T))))))
      = some (D, some E, T) := by
  unfold englishMatch
  rw [litDropCI_article]
  show (if ((' ' :: (D ++ _)).takeWhile jsSpace).isEmpty = true then none
    else _) = _
  rw [List.takeWhile_cons_of_pos (by decide)]
  rw [if_neg (by simp)]
  show (match digits1 ((' ' :: (D ++ _)).dropWhile jsSpace) with
    | none => none
    | some (art, l2) => _) = _
  rw [List.dropWhile_cons_of_pos (by decide)]
  obtain ⟨d, D', rfl⟩ := List.exists_cons_of_ne_nil hD0
  rw [dropWhile_head_neg (by
    intro c hc
    rw [List.cons_append, List.head?_cons] at hc
    injection hc with hc
    subst hc
    exact (digit_char_facts (hD d (List.mem_cons_self _ _))).1)]
  rw [digits1_run hD0 hD (by intro c hc; injection hc with hc; subst hc; decide)]
  show (match engParaGroup (',' :: ' ' ::
      ("Paragraph ".data ++ (E ++ (',' :: ' ' :: T)))) with
    | some (p, l3) => _
    | none => _) = _
  rw [engParaGroup_pos hE0 hE
    (by intro c hc; injection hc with hc; subst hc; decide)]
  show (match engTitleTail (',' :: ' ' :: T) with
    | some t => some (d :: D', some E, t)
    | none => _) = _
  rw [engTitleTail_pos hT0 hTc hTh]

theorem englishMatch_pos_nopara {D T : List Char}
    (hD0 : D ≠ []) (hD : ∀ c ∈ D, isDigitChar c = true)
    (hT0 : T ≠ []) (hTc : ∀ c ∈ T, titleChar c = true)
    (hTh : ∀ c, T.head? = some c → jsSpace c = false) :
    englishMatch ("Article ".data ++ (D ++ (',' :: ' ' :: T)))
      = some (D, none, T) := by
  unfold englishMatch
  rw [litDropCI_article]
  show (if ((' ' :: (D ++ _)).takeWhile jsSpace).isEmpty = true then none
    else _) = _
  rw [List.takeWhile_cons_of_pos (by decide)]
  rw [if_neg (by simp)]
  show (match digits1 ((' ' :: (D ++ _)).dropWhile jsSpace) with
    | none => none
    | some (art, l2) => _) = _
  rw [List.dropWhile_cons_of_pos (by decide)]
  obtain ⟨d, D', rfl⟩ := List.exists_cons_of_ne_nil hD0
  rw [dropWhile_head_neg (by
    intro c hc
    rw [List.cons_append, List.head?_cons] at hc
    injection hc with hc
    subst hc
    exact (digit_char_facts (hD d (List.mem_cons_self _ _))).1)]
  rw [digits1_run hD0 hD (by intro c hc; injection hc with hc; subst hc; decide)]
  show (match engParaGroup (',' :: ' ' :: T) with
    | some (p, l3) => _
    | none => _) = _
  rw [engParaGroup_no_digits (by
    intro c hc
    rw [List.mem_cons, List.mem_cons] at hc
    rcases hc with rfl | rfl | hc
    · rfl
    · rfl
    · exact (title_char_facts (hTc c hc)).1)]
  show (match engTitleTail (',' :: ' ' :: T) with
    | some t => some (d :: D', none, t)
    | none => none) = _
  rw [engTitleTail_pos hT0 hTc hTh]

theorem shortMatch_pos_nopara {D T : List Char}
    (hD0 : D ≠ []) (hD : ∀ c ∈ D, isDigitChar c = true)
    (hT0 : T ≠ []) (hTc : ∀ c ∈ T, titleChar c = true)
    (hTh : ∀ c, T.head? = some c → jsSpace c = false) :
    shortMatch ("Art. ".data ++ (D ++ (' ' :: T)))
      = some (D, none, T, none) := by
  unfold shortMatch
  rw [litDropCI_art]
  show (match digits1 ((' ' :: (D ++ (' ' :: T))).dropWhile jsSpace) with
    | none => none
    | some (art, l2) => _) = _
  rw [List.dropWhile_cons_of_pos (by decide)]
  obtain ⟨d, D', rfl⟩ := List.exists_cons_of_ne_nil hD0
  rw [dropWhile_head_neg (by
    intro c hc
    rw [List.cons_append, List.head?_cons] at hc
    injection hc with hc
    subst hc
    exact (digit_char_facts (hD d (List.mem_cons_self _ _))).1)]
  rw [digits1_run hD0 hD (by intro c hc; injection hc with hc; subst hc; decide)]
  dsimp only
  rw [shortParaCands_no_digits (by
    intro c hc
    rw [List.mem_cons] at hc
    rcases hc with rfl | hc
    · rfl
    · exact (title_char_facts (hTc c hc)).1)]
  rw [shortTitleYear_pos hT0 hTc hTh]
  rfl

theorem shortParaCands_para (T2 : List Char) {E : List Char}
    (hE0 : E ≠ []) (hE : ∀ c ∈ E, isDigitChar c = true)
    (hT2 : ∀ c, T2.head? = some c → isDigitChar c = false) :
    ∃ junk, shortParaCands (',' :: ' ' :: ("Para. ".data ++ (E ++ T2)))
      = (E, T2) :: junk := by
  unfold shortParaCands
  dsimp only
  rw [sepCommaOptSpace_comma_space (by
    intro c hc
    have hp : ("Para. ".data ++ (E ++ T2)).head? = some 'P' := rfl
    rw [hp] at hc
    injection hc with hc
    subst hc
    decide)]
  have hitem : shortParaKwItem ("Para. ".data ++ (E ++ T2)) "para."
      = [(E, T2)] := by
    unfold shortParaKwItem
    rw [litDropCI_para]
    show (match digits1 ((' ' :: (E ++ T2)).dropWhile jsSpace) with
      | some pr => [pr]
      | none => []) = _
    rw [List.dropWhile_cons_of_pos (by decide)]
    obtain ⟨e, E', rfl⟩ := List.exists_cons_of_ne_nil hE0
    rw [dropWhile_head_neg (by
      intro c hc
      rw [List.cons_append, List.head?_cons] at hc
      injection hc with hc
      subst hc
      exact (digit_char_facts (hE e (List.mem_cons_self _ _))).1)]
    rw [digits1_run hE0 hE hT2]
  rw [List.flatMap_cons, hitem]
  simp only [List.singleton_append, List.cons_append]
  exact ⟨_, rfl⟩

theorem shortMatch_pos_para {D E T : List Char}
    (hD0 : D ≠ []) (hD : ∀ c ∈ D, isDigitChar c = true)
    (hE0 : E ≠ []) (hE : ∀ c ∈ E, isDigitChar c = true)
    (hT0 : T ≠ []) (hTc : ∀ c ∈ T, titleChar c = true)
    (hTh : ∀ c, T.head? = some c → jsSpace c = false) :
    shortMatch ("Art. ".data
        ++ (D ++ (',' :: ' ' :: ("Para. ".data ++ (E ++ (' ' :: T))))))
      = some (D, some E, T, none) := by
  unfold shortMatch
  rw [litDropCI_art]
  show (match digits1 ((' ' :: (D ++ _)).dropWhile jsSpace) with
    | none => none
    | some (art, l2) => _) = _
  rw [List.dropWhile_cons_of_pos (by decide)]
  obtain ⟨d, D', rfl⟩ := List.exists_cons_of_ne_nil hD0
  rw [dropWhile_head_neg (by
    intro c hc
    rw [List.cons_append, List.head?_cons] at hc
    injection hc with hc
    subst hc
    exact (digit_char_facts (hD d (List.mem_cons_self _ _))).1)]
  rw [digits1_run hD0 hD (by intro c hc; injection hc with hc; subst hc; decide)]
  obtain ⟨junk, hcands⟩ := shortParaCands_para (' ' :: T) hE0 hE
    (by intro c hc; injection hc with hc; subst hc; decide)
  dsimp only
  rw [hcands, List.map_cons]
  dsimp only
  rw [shortTitleYear_pos hT0 hTc hTh]
  rfl

/-! ### C4: the bare-Chinese path -/

theorem head?_mem {l : List Char} {c : Char} (h : l.head? = some c) : c ∈ l := by
  cases l with
  | nil => cases h
  | cons x r =>
    injection h with h
    exact h ▸ List.mem_cons_self _ _

theorem getLast?_mem {l : List Char} {c : Char} (h : l.getLast? = some c) :
    c ∈ l := by
  rw [← List.head?_reverse] at h
  exact (List.mem_reverse).mp (head?_mem h)

theorem lazyUpTo_go_through {stop : Char} :
    ∀ (X acc Y : List Char), X ≠ [] →
      (∀ c ∈ X, c ≠ stop ∧ isLineTerm c = false) →
      lazyUpTo.go stop acc (X ++ stop :: Y) = some (acc ++ X) := by
  intro X
  induction X with
  | nil => intro acc Y h _; exact absurd rfl h
  | cons x X' ih =>
    intro acc Y _ hX
    have hx := hX x (List.mem_cons_self x X')
    cases X' with
    | nil =>
      rw [List.cons_append, List.nil_append, lazyUpTo.go]
      dsimp only
      rw [if_neg (by simp [hx.2])]
      show (if stop = stop then some (acc ++ [x])
        else lazyUpTo.go stop (acc ++ [x]) (stop :: Y)) = some (acc ++ [x])
      rw [if_pos rfl]
    | cons y X'' =>
      have hy := hX y (List.mem_cons_of_mem x (List.mem_cons_self y X''))
      rw [List.cons_append, lazyUpTo.go]
      dsimp only
      rw [if_neg (by simp [hx.2])]
      rw [List.cons_append]
      show (if y = stop then some (acc ++ [x])
        else lazyUpTo.go stop (acc ++ [x]) (y :: (X'' ++ stop :: Y)))
        = some (acc ++ x :: y :: X'')
      rw [if_neg hy.1, ← List.cons_append,
        ih (acc ++ [x]) Y (by simp)
          (fun c hc => hX c (List.mem_cons_of_mem x hc))]
      simp only [List.append_assoc, List.singleton_append]

theorem glyph_sign_facts {G : List Char} (hg : ∀ c ∈ G, numGlyph c = true) :
    ∀ c ∈ G, jsSpace c = false ∧ isDigitChar c = false ∧
      c ≠ '-' ∧ c ≠ '+' := by
  intro c hc
  obtain ⟨h1, h2, _, _, _, _, _, _, _, _, h11, h12, _⟩ :=
    numGlyph_facts (hg c hc)
  exact ⟨h2, h1, h11, h12⟩

theorem parseChineseNumber_glyphs {G : List Char} (hG0 : G ≠ [])
    (hg : ∀ c ∈ G, numGlyph c = true) :
    parseChineseNumber G = some ((chineseToArabic (String.mk G) : Int)) := by
  have hpi : jsParseInt G = none :=
    jsParseInt_none_of (glyph_sign_facts hg)
  have hjt : jsTrim G = G := jsTrim_ends
    (fun c hc => (numGlyph_facts (hg c (head?_mem hc))).2.1)
    (fun c hc => (numGlyph_facts (hg c (getLast?_mem hc))).2.1)
  unfold parseChineseNumber
  rw [hpi]
  unfold extractArticleNumber
  show (match firstChineseArticleGroup ('第' :: (G ++ ['条'])) with
    | none => none
    | some g =>
      match jsParseInt (jsTrim g) with
      | some n => some n
      | none => some ((chineseToArabic (String.mk (jsTrim g)) : Int))) = _
  have hfg : firstChineseArticleGroup ('第' :: (G ++ ['条'])) = some G := by
    show (match lazyUpTo '条' (G ++ ['条']) with
      | some g => some g
      | none => firstChineseArticleGroup (G ++ ['条'])) = some G
    have : lazyUpTo '条' (G ++ '条' :: []) = some ([] ++ G) :=
      lazyUpTo_go_through G [] [] hG0 (fun c hc =>
        ⟨(numGlyph_facts (hg c hc)).2.2.2.1, (numGlyph_facts (hg c hc)).2.2.1⟩)
    rw [List.nil_append] at this
    rw [this]
  rw [hfg]
  dsimp only
  rw [hjt, hpi]

theorem bareChineseMatch_pos_nopara {G : List Char} (hG0 : G ≠ [])
    (hg : ∀ c ∈ G, numGlyph c = true) :
    bareChineseMatch ('第' :: (G ++ ['条'])) = some (G, none) := by
  unfold bareChineseMatch
  show (tiaoScan endCont [] (G ++ '条' :: [])).map (fun r => (r.1, r.2.1)) = _
  rw [tiaoScan_through endCont G [] [] hG0 (fun c hc =>
    ⟨(numGlyph_facts (hg c hc)).2.2.2.1, (numGlyph_facts (hg c hc)).2.2.1⟩)]
  have haft : afterTiao endCont ([] ++ G) [] = some ([] ++ G, none, ()) := rfl
  rw [haft]
  simp

theorem bareChineseMatch_pos_para {Gn Gk : List Char}
    (hGn0 : Gn ≠ []) (hgn : ∀ c ∈ Gn, numGlyph c = true)
    (hGk0 : Gk ≠ []) (hgk : ∀ c ∈ Gk, numGlyph c = true) :
    bareChineseMatch ('第' :: (Gn ++ '条' :: '第' :: (Gk ++ ['款'])))
      = some (Gn, some Gk) := by
  unfold bareChineseMatch
  show (tiaoScan endCont [] (Gn ++ '条' :: ('第' :: (Gk ++ ['款'])))).map
    (fun r => (r.1, r.2.1)) = _
  rw [tiaoScan_through endCont Gn [] _ hGn0 (fun c hc =>
    ⟨(numGlyph_facts (hgn c hc)).2.2.2.1, (numGlyph_facts (hgn c hc)).2.2.1⟩)]
  have hks : kuanScan endCont [] (Gk ++ '款' :: []) = some ([] ++ Gk, ()) := by
    rw [kuanScan_through endCont Gk [] [] hGk0 (fun c hc =>
      ⟨(numGlyph_facts (hgk c hc)).2.2.2.2.1, (numGlyph_facts (hgk c hc)).2.2.1⟩)]
    rfl
  have haft : afterTiao endCont ([] ++ Gn) ('第' :: (Gk ++ ['款']))
      = some ([] ++ Gn, some ([] ++ Gk), ()) := by
    unfold afterTiao
    rw [if_pos (show (('第' :: (Gk ++ ['款'])).head?) = some '第' from rfl),
      List.tail_cons, hks]
  rw [haft]
  simp

theorem chineseCitationMatch_bare_nopara {G : List Char} (hG0 : G ≠ [])
    (hg : ∀ c ∈ G, numGlyph c = true) :
    chineseCitationMatch ('第' :: (G ++ ['条'])) = none := by
  unfold chineseCitationMatch
  show tiaoScan ccTail [] (G ++ '条' :: []) = none
  rw [tiaoScan_through ccTail G [] [] hG0 (fun c hc =>
    ⟨(numGlyph_facts (hg c hc)).2.2.2.1, (numGlyph_facts (hg c hc)).2.2.1⟩)]
  have haft : afterTiao ccTail ([] ++ G) [] = none := rfl
  rw [haft]
  show tiaoScan ccTail ([] ++ G) ('条' :: []) = none
  rw [tiaoScan]
  dsimp only
  rw [if_neg (by decide), if_neg (by decide)]
  rfl

theorem chineseCitationMatch_bare_para {Gn Gk : List Char}
    (hGn0 : Gn ≠ []) (hgn : ∀ c ∈ Gn, numGlyph c = true)
    (hGk0 : Gk ≠ []) (hgk : ∀ c ∈ Gk, numGlyph c = true) :
    chineseCitationMatch ('第' :: (Gn ++ '条' :: '第' :: (Gk ++ ['款'])))
      = none := by
  unfold chineseCitationMatch
  show tiaoScan ccTail [] (Gn ++ '条' :: ('第' :: (Gk ++ ['款']))) = none
  rw [tiaoScan_through ccTail Gn [] _ hGn0 (fun c hc =>
    ⟨(numGlyph_facts (hgn c hc)).2.2.2.1, (numGlyph_facts (hgn c hc)).2.2.1⟩)]
  have hlast : ∀ c : Char,
      ('第' :: (Gk ++ ['款'])).getLast? = some c →
        c ≠ '法' ∧ c ≠ '典' ∧ c ≠ '例' := by
    intro c hc
    rw [← List.cons_append, List.getLast?_append_of_ne_nil _ (by simp)] at hc
    rw [show (['款'] : List Char).getLast? = some '款' from rfl] at hc
    injection hc with hc
    subst hc
    refine ⟨by decide, by decide, by decide⟩
  have hks : kuanScan ccTail [] (Gk ++ '款' :: []) = none := by
    rw [kuanScan_through ccTail Gk [] [] hGk0 (fun c hc =>
      ⟨(numGlyph_facts (hgk c hc)).2.2.2.2.1, (numGlyph_facts (hgk c hc)).2.2.1⟩)]
    rw [show ccTail ([] : List Char) = none from rfl]
    show kuanScan ccTail ([] ++ Gk) ('款' :: []) = none
    rw [kuanScan]
    dsimp only
    rw [if_neg (by decide), if_neg (by decide)]
    rfl
  have haft : afterTiao ccTail ([] ++ Gn) ('第' :: (Gk ++ ['款'])) = none := by
    unfold afterTiao
    rw [if_pos (show (('第' :: (Gk ++ ['款'])).head?) = some '第' from rfl),
      List.tail_cons, hks, ccTail_none hlast]
  rw [haft]
  show tiaoScan ccTail ([] ++ Gn) ('条' :: ('第' :: (Gk ++ ['款']))) = none
  rw [tiaoScan]
  dsimp only
  rw [if_neg (by decide),
    if_neg (show ¬(('第' :: (Gk ++ ['款'])).head? = some '条') by
      rw [List.head?_cons]
      simp)]
  refine tiaoScan_no_tiao ccTail _ _ ?_
  intro c hc
  rw [List.mem_cons] at hc
  rcases hc with rfl | hc
  · decide
  · rw [List.mem_append, List.mem_cons] at hc
    rcases hc with hc | rfl | hc
    · exact (numGlyph_facts (hgk c hc)).2.2.2.1
    · decide
    · cases hc

theorem chineseLawFirstMatch_none {l : List Char}
    (h : ∀ c ∈ l, c ≠ '法' ∧ c ≠ '典' ∧ c ≠ '例') :
    chineseLawFirstMatch l = none := by
  unfold chineseLawFirstMatch
  cases hld : litDrop "中华人民共和国".data l with
  | none => exact lfGo_none l [] h
  | some l2 =>
    have hl := litDrop_append hld
    have h2 : ∀ c ∈ l2, c ≠ '法' ∧ c ≠ '典' ∧ c ≠ '例' := fun c hc =>
      h c (hl ▸ List.mem_append_right _ hc)
    show (match lfGo [] l2 with
      | some res => some res
      | none => lfGo [] l) = none
    rw [lfGo_none l2 [] h2, lfGo_none l [] h]

theorem ascii_ne_cjk {c : Char} (h : c.toNat < 128) :
    c ≠ '法' ∧ c ≠ '典' ∧ c ≠ '例' := by
  refine ⟨?_, ?_, ?_⟩ <;> (apply char_ne_of_toNat_ne; simp; omega)

theorem titleChar_toNat_lt {c : Char} (h : titleChar c = true) :
    c.toNat < 128 := by
  simp only [titleChar, Bool.or_eq_true, decide_eq_true_eq] at h
  rcases h with h | h
  · rcases letter_toNat_bounds h with ⟨_, h2⟩ | ⟨_, h2⟩ <;> omega
  · subst h; decide

theorem mem_append_ascii {A B : List Char}
    (hA : ∀ c ∈ A, c.toNat < 128) (hB : ∀ c ∈ B, c.toNat < 128) :
    ∀ c ∈ A ++ B, c.toNat < 128 := by
  intro c hc
  rcases List.mem_append.mp hc with hc | hc
  · exact hA c hc
  · exact hB c hc

/-! ### C4: the formatter side -/

theorem str_ext {s t : String} (h : s.data = t.data) : s = t := by
  cases s
  cases t
  simp only at h
  rw [h]

theorem str_data_append (s t : String) : (s ++ t).data = s.data ++ t.data := rfl

theorem jsNumStr_ne_empty (n : Nat) : jsNumStr (n : Int) ≠ "" := by
  rw [jsNumStr_nat]
  intro h
  have hd := congrArg String.data h
  simp only [String.data] at hd
  exact (decChars_spec n).1 hd

theorem stripTrailingCommaWs_id {s : String}
    (h : ∀ c, s.data.getLast? = some c → jsSpace c = false ∧ c ≠ ',') :
    stripTrailingCommaWs s = s := by
  unfold stripTrailingCommaWs
  cases hr : s.data.reverse with
  | nil => rfl
  | cons c r =>
    have hc : s.data.getLast? = some c := by
      rw [← List.head?_reverse, hr]
      rfl
    obtain ⟨h1, h2⟩ := h c hc
    rw [dropWhile_cons_of_neg h1]
    split
    case h_1 rest heq =>
      exact absurd (List.head_eq_of_cons_eq heq) h2
    case h_2 => rfl

theorem jsTrim_append_space {X : List Char} (hX0 : X ≠ [])
    (h1 : ∀ c, X.head? = some c → jsSpace c = false)
    (h2 : ∀ c, X.getLast? = some c → jsSpace c = false) :
    jsTrim (X ++ [' ']) = X := by
  unfold jsTrim
  have e1 : (X ++ [' ']).dropWhile jsSpace = X ++ [' '] := by
    obtain ⟨x, X', rfl⟩ := List.exists_cons_of_ne_nil hX0
    rw [List.cons_append]
    exact dropWhile_cons_of_neg (h1 x rfl)
  rw [e1, List.reverse_append]
  show ((' ' :: X.reverse).dropWhile jsSpace).reverse = X
  rw [List.dropWhile_cons_of_pos (by decide)]
  have e2 : X.reverse.dropWhile jsSpace = X.reverse := by
    cases hxr : X.reverse with
    | nil => rfl
    | cons c r =>
      refine dropWhile_cons_of_neg (h2 c ?_)
      rw [← List.head?_reverse, hxr]
      rfl
  rw [e2, List.reverse_reverse]

theorem partsChars_ne_nil {t h te o : Nat}
    (hnz : ¬(t = 0 ∧ h = 0 ∧ te = 0 ∧ o = 0)) :
    partsChars t h te o ≠ [] := by
  unfold partsChars
  intro hcontra
  rw [List.append_eq_nil, List.append_eq_nil, List.append_eq_nil] at hcontra
  obtain ⟨⟨⟨h1, h2⟩, h3⟩, h4⟩ := hcontra
  split_ifs at h1 h2 h3 h4
  all_goals simp_all

theorem str_data_mk (l : List Char) : (String.mk l).data = l := rfl

theorem getLast?_append_ne {A B : List Char} (h : B ≠ []) :
    (A ++ B).getLast? = B.getLast? := by
  rw [List.getLast?_append_of_ne_nil]
  exact h

theorem jsTrimStr_mk_id {L : List Char}
    (h1 : ∀ c, L.head? = some c → jsSpace c = false)
    (h2 : ∀ c, L.getLast? = some c → jsSpace c = false) :
    jsTrimStr (String.mk L) = String.mk L := by
  unfold jsTrimStr
  rw [str_data_mk, jsTrim_ends h1 h2]

theorem strip_mk_id {L : List Char}
    (h : ∀ c, L.getLast? = some c → jsSpace c = false ∧ c ≠ ',') :
    stripTrailingCommaWs (String.mk L) = String.mk L :=
  stripTrailingCommaWs_id (by rw [str_data_mk]; exact h)

theorem title_last_facts {T : List Char}
    (hTl : ∀ c, T.getLast? = some c → isAsciiLetter c = true) :
    ∀ c, T.getLast? = some c → jsSpace c = false ∧ c ≠ ',' := by
  intro c hc
  have hl := hTl c hc
  refine ⟨letter_not_space hl, ?_⟩
  rcases letter_toNat_bounds hl with ⟨h1, h2⟩ | ⟨h1, h2⟩ <;>
    (apply char_ne_of_toNat_ne; simp; omega)

theorem fmt_full_para (n k : Nat) {T : List Char} (hT0 : T ≠ [])
    (hTl : ∀ c, T.getLast? = some c → isAsciiLetter c = true) :
    formatCitation
      ⟨true, "statute", some (String.mk T), none,
        some (jsNumStr (n : Int)), some (jsNumStr (k : Int)), none⟩
      CitationFormat.full
    = String.mk ("Article ".data ++ (decChars n ++ (',' :: ' ' ::
        ("Paragraph ".data ++ (decChars k ++ (',' :: ' ' :: T)))))) := by
  unfold formatCitation
  rw [if_neg (by simp [jsNumStr_ne_empty n])]
  show stripTrailingCommaWs (jsTrimStr
    (("Article " ++ jsNumStr (n : Int)
        ++ (if (jsNumStr (k : Int)) ≠ "" then ", Paragraph " ++ jsNumStr (k : Int)
            else ""))
      ++ ", " ++ String.mk T)) = _
  rw [if_pos (jsNumStr_ne_empty k)]
  have hstr : ("Article " ++ jsNumStr (n : Int)
        ++ (", Paragraph " ++ jsNumStr (k : Int))) ++ ", " ++ String.mk T
      = String.mk ("Article ".data ++ (decChars n ++ (',' :: ' ' ::
          ("Paragraph ".data ++ (decChars k ++ (',' :: ' ' :: T)))))) := by
    apply str_ext
    rw [jsNumStr_nat, jsNumStr_nat]
    simp only [str_data_append, str_data_mk,
      show (", Paragraph ".data : List Char) = ',' :: ' ' :: "Paragraph ".data
        from rfl,
      show (", ".data : List Char) = [',', ' '] from rfl,
      List.append_assoc, List.cons_append, List.nil_append]
  rw [hstr]
  have hlastT : ("Article ".data ++ (decChars n ++ (',' :: ' ' ::
      ("Paragraph ".data ++ (decChars k ++ (',' :: ' ' :: T)))))).getLast?
      = T.getLast? := by
    rw [getLast?_append_ne (by simp), getLast?_append_ne (by simp),
      show ((',' :: ' ' :: ("Paragraph ".data ++ (decChars k ++ (',' :: ' ' :: T))))
          : List Char)
        = [',', ' '] ++ ("Paragraph ".data ++ (decChars k ++ (',' :: ' ' :: T)))
        from rfl,
      getLast?_append_ne (by simp), getLast?_append_ne (by simp),
      getLast?_append_ne (by simp [hT0]),
      show ((',' :: ' ' :: T) : List Char) = [',', ' '] ++ T from rfl,
      getLast?_append_ne hT0]
  have hhead : ∀ c, ("Article ".data ++ (decChars n ++ (',' :: ' ' ::
      ("Paragraph ".data ++ (decChars k ++ (',' :: ' ' :: T)))))).head? = some c →
      jsSpace c = false := by
    intro c hc
    have : ("Article ".data ++ (decChars n ++ (',' :: ' ' ::
      ("Paragraph ".data ++ (decChars k ++ (',' :: ' ' :: T)))))).head?
        = some 'A' := rfl
    rw [this] at hc
    injection hc with hc
    subst hc
    decide
  have hlast := title_last_facts hTl
  rw [jsTrimStr_mk_id hhead (fun c hc => (hlast c (hlastT ▸ hc)).1),
    strip_mk_id (fun c hc => hlast c (hlastT ▸ hc))]

theorem fmt_full_nopara (n : Nat) {T : List Char} (hT0 : T ≠ [])
    (hTl : ∀ c, T.getLast? = some c → isAsciiLetter c = true) :
    formatCitation
      ⟨true, "statute", some (String.mk T), none,
        some (jsNumStr (n : Int)), none, none⟩
      CitationFormat.full
    = String.mk ("Article ".data ++ (decChars n ++ (',' :: ' ' :: T))) := by
  unfold formatCitation
  rw [if_neg (by simp [jsNumStr_ne_empty n])]
  show stripTrailingCommaWs (jsTrimStr
    (("Article " ++ jsNumStr (n : Int) ++ "") ++ ", " ++ String.mk T)) = _
  have hstr : ("Article " ++ jsNumStr (n : Int) ++ "") ++ ", " ++ String.mk T
      = String.mk ("Article ".data ++ (decChars n ++ (',' :: ' ' :: T))) := by
    apply str_ext
    rw [jsNumStr_nat]
    simp only [str_data_append, str_data_mk,
      show ("".data : List Char) = [] from rfl,
      show (", ".data : List Char) = [',', ' '] from rfl,
      List.append_assoc, List.cons_append, List.nil_append, List.append_nil]
  rw [hstr]
  have hlastT : ("Article ".data ++ (decChars n ++ (',' :: ' ' :: T))).getLast?
      = T.getLast? := by
    rw [getLast?_append_ne (by simp), getLast?_append_ne (by simp [hT0]),
      show ((',' :: ' ' :: T) : List Char) = [',', ' '] ++ T from rfl,
      getLast?_append_ne hT0]
  have hhead : ∀ c, ("Article ".data ++ (decChars n ++ (',' :: ' ' :: T))).head?
      = some c → jsSpace c = false := by
    intro c hc
    have : ("Article ".data ++ (decChars n ++ (',' :: ' ' :: T))).head?
        = some 'A' := rfl
    rw [this] at hc
    injection hc with hc
    subst hc
    decide
  have hlast := title_last_facts hTl
  rw [jsTrimStr_mk_id hhead (fun c hc => (hlast c (hlastT ▸ hc)).1),
    strip_mk_id (fun c hc => hlast c (hlastT ▸ hc))]

theorem fmt_english_nopara (n : Nat) {T : List Char} (hT0 : T ≠ [])
    (hTl : ∀ c, T.getLast? = some c → isAsciiLetter c = true) :
    formatCitation
      ⟨true, "statute", some (String.mk T), none,
        some (jsNumStr (n : Int)), none, none⟩
      CitationFormat.english
    = String.mk ("Article ".data ++ (decChars n ++ (',' :: ' ' :: T))) := by
  unfold formatCitation
  rw [if_neg (by simp [jsNumStr_ne_empty n])]
  show stripTrailingCommaWs (jsTrimStr
    (("Article " ++ jsNumStr (n : Int) ++ "") ++ ", " ++ String.mk T)) = _
  have hstr : ("Article " ++ jsNumStr (n : Int) ++ "") ++ ", " ++ String.mk T
      = String.mk ("Article ".data ++ (decChars n ++ (',' :: ' ' :: T))) := by
    apply str_ext
    rw [jsNumStr_nat]
    simp only [str_data_append, str_data_mk,
      show ("".data : List Char) = [] from rfl,
      show (", ".data : List Char) = [',', ' '] from rfl,
      List.append_assoc, List.cons_append, List.nil_append, List.append_nil]
  rw [hstr]
  have hlastT : ("Article ".data ++ (decChars n ++ (',' :: ' ' :: T))).getLast?
      = T.getLast? := by
    rw [getLast?_append_ne (by simp), getLast?_append_ne (by simp [hT0]),
      show ((',' :: ' ' :: T) : List Char) = [',', ' '] ++ T from rfl,
      getLast?_append_ne hT0]
  have hhead : ∀ c, ("Article ".data ++ (decChars n ++ (',' :: ' ' :: T))).head?
      = some c → jsSpace c = false := by
    intro c hc
    have : ("Article ".data ++ (decChars n ++ (',' :: ' ' :: T))).head?
        = some 'A' := rfl
    rw [this] at hc
    injection hc with hc
    subst hc
    decide
  have hlast := title_last_facts hTl
  rw [jsTrimStr_mk_id hhead (fun c hc => (hlast c (hlastT ▸ hc)).1),
    strip_mk_id (fun c hc => hlast c (hlastT ▸ hc))]

theorem fmt_english_para (n k : Nat) {T : List Char} (hT0 : T ≠ [])
    (hTl : ∀ c, T.getLast? = some c → isAsciiLetter c = true) :
    formatCitation
      ⟨true, "statute", some (String.mk T), none,
        some (jsNumStr (n : Int)), some (jsNumStr (k : Int)), none⟩
      CitationFormat.english
    = String.mk ("Article ".data ++ (decChars n ++ (',' :: ' ' ::
        ("Paragraph ".data ++ (decChars k ++ (',' :: ' ' :: T)))))) := by
  unfold formatCitation
  rw [if_neg (by simp [jsNumStr_ne_empty n])]
  show stripTrailingCommaWs (jsTrimStr
    (("Article " ++ jsNumStr (n : Int)
        ++ (if (jsNumStr (k : Int)) ≠ "" then ", Paragraph " ++ jsNumStr (k : Int)
            else ""))
      ++ ", " ++ String.mk T)) = _
  rw [if_pos (jsNumStr_ne_empty k)]
  have hstr : ("Article " ++ jsNumStr (n : Int)
        ++ (", Paragraph " ++ jsNumStr (k : Int))) ++ ", " ++ String.mk T
      = String.mk ("Article ".data ++ (decChars n ++ (',' :: ' ' ::
          ("Paragraph ".data ++ (decChars k ++ (',' :: ' ' :: T)))))) := by
    apply str_ext
    rw [jsNumStr_nat, jsNumStr_nat]
    simp only [str_data_append, str_data_mk,
      show (", Paragraph ".data : List Char) = ',' :: ' ' :: "Paragraph ".data
        from rfl,
      show (", ".data : List Char) = [',', ' '] from rfl,
      List.append_assoc, List.cons_append, List.nil_append]
  rw [hstr]
  have hlastT : ("Article ".data ++ (decChars n ++ (',' :: ' ' ::
      ("Paragraph ".data ++ (decChars k ++ (',' :: ' ' :: T)))))).getLast?
      = T.getLast? := by
    rw [getLast?_append_ne (by simp), getLast?_append_ne (by simp),
      show ((',' :: ' ' :: ("Paragraph ".data ++ (decChars k ++ (',' :: ' ' :: T))))
          : List Char)
        = [',', ' '] ++ ("Paragraph ".data ++ (decChars k ++ (',' :: ' ' :: T)))
        from rfl,
      getLast?_append_ne (by simp), getLast?_append_ne (by simp),
      getLast?_append_ne (by simp [hT0]),
      show ((',' :: ' ' :: T) : List Char) = [',', ' '] ++ T from rfl,
      getLast?_append_ne hT0]
  have hhead : ∀ c, ("Article ".data ++ (decChars n ++ (',' :: ' ' ::
      ("Paragraph ".data ++ (decChars k ++ (',' :: ' ' :: T)))))).head? = some c →
      jsSpace c = false := by
    intro c hc
    have : ("Article ".data ++ (decChars n ++ (',' :: ' ' ::
      ("Paragraph ".data ++ (decChars k ++ (',' :: ' ' :: T)))))).head?
        = some 'A' := rfl
    rw [this] at hc
    injection hc with hc
    subst hc
    decide
  have hlast := title_last_facts hTl
  rw [jsTrimStr_mk_id hhead (fun c hc => (hlast c (hlastT ▸ hc)).1),
    strip_mk_id (fun c hc => hlast c (hlastT ▸ hc))]


theorem fmt_short_nopara (n : Nat) {T : List Char} :
    formatCitation
      ⟨true, "statute", some (String.mk T), none,
        some (jsNumStr (n : Int)), none, none⟩
      CitationFormat.short
    = jsTrimStr (String.mk ("Art. ".data ++ (decChars n ++ (' ' :: T)))) := by
  unfold formatCitation
  rw [if_neg (by simp [jsNumStr_ne_empty n])]
  show jsTrimStr
    (("Art. " ++ jsNumStr (n : Int) ++ "") ++ " " ++ String.mk T) = _
  have hstr : ("Art. " ++ jsNumStr (n : Int) ++ "") ++ " " ++ String.mk T
      = String.mk ("Art. ".data ++ (decChars n ++ (' ' :: T))) := by
    apply str_ext
    rw [jsNumStr_nat]
    simp only [str_data_append, str_data_mk,
      show ("".data : List Char) = [] from rfl,
      show (" ".data : List Char) = [' '] from rfl,
      List.append_assoc, List.cons_append, List.nil_append, List.append_nil]
  rw [hstr]

theorem fmt_short_para (n k : Nat) {T : List Char} :
    formatCitation
      ⟨true, "statute", some (String.mk T), none,
        some (jsNumStr (n : Int)), some (jsNumStr (k : Int)), none⟩
      CitationFormat.short
    = jsTrimStr (String.mk ("Art. ".data ++ (decChars n ++ (',' :: ' ' ::
        ("Para. ".data ++ (decChars k ++ (' ' :: T))))))) := by
  unfold formatCitation
  rw [if_neg (by simp [jsNumStr_ne_empty n])]
  show jsTrimStr
    (("Art. " ++ jsNumStr (n : Int)
        ++ (if (jsNumStr (k : Int)) ≠ "" then ", Para. " ++ jsNumStr (k : Int)
            else ""))
      ++ " " ++ String.mk T) = _
  rw [if_pos (jsNumStr_ne_empty k)]
  have hstr : ("Art. " ++ jsNumStr (n : Int)
        ++ (", Para. " ++ jsNumStr (k : Int))) ++ " " ++ String.mk T
      = String.mk ("Art. ".data ++ (decChars n ++ (',' :: ' ' ::
          ("Para. ".data ++ (decChars k ++ (' ' :: T)))))) := by
    apply str_ext
    rw [jsNumStr_nat, jsNumStr_nat]
    simp only [str_data_append, str_data_mk,
      show (", Para. ".data : List Char) = ',' :: ' ' :: "Para. ".data from rfl,
      show (" ".data : List Char) = [' '] from rfl,
      List.append_assoc, List.cons_append, List.nil_append]
  rw [hstr]

theorem short_trim {L : List Char} {T : List Char}
    (hhead : L.head? = some 'A')
    (hlastT : L.getLast? = T.getLast?)
    (hTl : ∀ c, T.getLast? = some c → isAsciiLetter c = true) :
    jsTrimStr (String.mk L) = String.mk L := by
  refine jsTrimStr_mk_id ?_ ?_
  · intro c hc
    rw [hhead] at hc
    injection hc with hc
    subst hc
    decide
  · intro c hc
    rw [hlastT] at hc
    exact (title_last_facts hTl c hc).1

theorem fmt_chinese_nopara (n : Nat) (hn1 : 1 ≤ n) (hn2 : n ≤ 9999) :
    formatCitation
      ⟨true, "statute", none, none, some (jsNumStr (n : Int)), none, none⟩
      CitationFormat.chinese
    = String.mk ('第' :: (partsChars (n / 1000) (n % 1000 / 100) (n % 100 / 10)
        (n % 10) ++ ['条'])) := by
  unfold formatCitation
  rw [if_neg (by simp [jsNumStr_ne_empty n])]
  show jsTrimStr (buildChineseRef
    (match jsParseInt ((jsNumStr (n : Int)).data) with
      | some n' => n'
      | none => 0) none ++ " " ++ "") = _
  rw [show ((jsNumStr (n : Int)).data) = decChars n from by rw [jsNumStr_nat],
    jsParseInt_dec n]
  dsimp only
  have hbcr : buildChineseRef (n : Int) none
      = String.mk ('第' :: (partsChars (n / 1000) (n % 1000 / 100)
          (n % 100 / 10) (n % 10) ++ ['条'])) := by
    unfold buildChineseRef arabicToChineseI
    dsimp only
    rw [if_neg (by omega), Int.toNat_natCast,
      arabicToChinese_eq_parts n hn1 hn2]
    apply str_ext
    simp only [str_data_append, str_data_mk,
      show ("第".data : List Char) = ['第'] from rfl,
      show ("条".data : List Char) = ['条'] from rfl,
      List.append_assoc, List.cons_append, List.nil_append]
  have hstr : buildChineseRef (n : Int) none ++ " " ++ ""
      = String.mk (('第' :: (partsChars (n / 1000) (n % 1000 / 100)
          (n % 100 / 10) (n % 10) ++ ['条'])) ++ [' ']) := by
    apply str_ext
    rw [hbcr]
    simp only [str_data_append, str_data_mk,
      show (" ".data : List Char) = [' '] from rfl,
      show ("".data : List Char) = [] from rfl,
      List.append_assoc, List.cons_append, List.nil_append, List.append_nil]
  rw [hstr]
  unfold jsTrimStr
  rw [str_data_mk, jsTrim_append_space (by simp) ?_ ?_]
  case _ =>
    intro c hc
    injection hc with hc
    subst hc
    decide
  case _ =>
    intro c hc
    rw [show ('第' :: (partsChars (n / 1000) (n % 1000 / 100) (n % 100 / 10)
          (n % 10) ++ ['条'])) = ['第'] ++ (partsChars (n / 1000) (n % 1000 / 100)
          (n % 100 / 10) (n % 10) ++ ['条']) from rfl,
      getLast?_append_ne (by simp), getLast?_append_ne (by simp),
      show (['条'] : List Char).getLast? = some '条' from rfl] at hc
    injection hc with hc
    subst hc
    decide

theorem fmt_chinese_para (n k : Nat) (hn1 : 1 ≤ n) (hn2 : n ≤ 9999)
    (hk1 : 1 ≤ k) (hk2 : k ≤ 9999) :
    formatCitation
      ⟨true, "statute", none, none, some (jsNumStr (n : Int)),
        some (jsNumStr (k : Int)), none⟩
      CitationFormat.chinese
    = String.mk ('第' :: (partsChars (n / 1000) (n % 1000 / 100) (n % 100 / 10)
        (n % 10) ++ '条' :: '第' :: (partsChars (k / 1000) (k % 1000 / 100)
        (k % 100 / 10) (k % 10) ++ ['款']))) := by
  unfold formatCitation
  rw [if_neg (by simp [jsNumStr_ne_empty n])]
  show jsTrimStr (buildChineseRef
    (match jsParseInt ((jsNumStr (n : Int)).data) with
      | some n' => n'
      | none => 0)
    (if (jsNumStr (k : Int)) ≠ "" then jsParseInt ((jsNumStr (k : Int)).data)
      else none) ++ " " ++ "") = _
  rw [show ((jsNumStr (n : Int)).data) = decChars n from by rw [jsNumStr_nat],
    jsParseInt_dec n, if_pos (jsNumStr_ne_empty k),
    show ((jsNumStr (k : Int)).data) = decChars k from by rw [jsNumStr_nat],
    jsParseInt_dec k]
  dsimp only
  have hbcr : buildChineseRef (n : Int) (some (k : Int))
      = String.mk ('第' :: (partsChars (n / 1000) (n % 1000 / 100)
          (n % 100 / 10) (n % 10) ++ '条' :: '第' ::
          (partsChars (k / 1000) (k % 1000 / 100) (k % 100 / 10) (k % 10)
            ++ ['款']))) := by
    unfold buildChineseRef arabicToChineseI
    dsimp only
    rw [if_pos (by omega), if_neg (by omega), if_neg (by omega),
      Int.toNat_natCast, Int.toNat_natCast,
      arabicToChinese_eq_parts n hn1 hn2, arabicToChinese_eq_parts k hk1 hk2]
    apply str_ext
    simp only [str_data_append, str_data_mk,
      show ("第".data : List Char) = ['第'] from rfl,
      show ("条".data : List Char) = ['条'] from rfl,
      show ("款".data : List Char) = ['款'] from rfl,
      List.append_assoc, List.cons_append, List.nil_append]
  have hstr : buildChineseRef (n : Int) (some (k : Int)) ++ " " ++ ""
      = String.mk (('第' :: (partsChars (n / 1000) (n % 1000 / 100)
          (n % 100 / 10) (n % 10) ++ '条' :: '第' ::
          (partsChars (k / 1000) (k % 1000 / 100) (k % 100 / 10) (k % 10)
            ++ ['款']))) ++ [' ']) := by
    apply str_ext
    rw [hbcr]
    simp only [str_data_append, str_data_mk,
      show (" ".data : List Char) = [' '] from rfl,
      show ("".data : List Char) = [] from rfl,
      List.append_assoc, List.cons_append, List.nil_append, List.append_nil]
  rw [hstr]
  unfold jsTrimStr
  rw [str_data_mk, jsTrim_append_space (by simp) ?_ ?_]
  case _ =>
    intro c hc
    injection hc with hc
    subst hc
    decide
  case _ =>
    intro c hc
    rw [show ('第' :: (partsChars (n / 1000) (n % 1000 / 100) (n % 100 / 10)
          (n % 10) ++ '条' :: '第' :: (partsChars (k / 1000) (k % 1000 / 100)
          (k % 100 / 10) (k % 10) ++ ['款'])))
        = ['第'] ++ (partsChars (n / 1000) (n % 1000 / 100) (n % 100 / 10)
          (n % 10) ++ (['条', '第'] ++ (partsChars (k / 1000) (k % 1000 / 100)
          (k % 100 / 10) (k % 10) ++ ['款'])))
        from by simp [List.cons_append],
      getLast?_append_ne (by simp), getLast?_append_ne (by simp),
      getLast?_append_ne (by simp), getLast?_append_ne (by simp),
      show (['款'] : List Char).getLast? = some '款' from rfl] at hc
    injection hc with hc
    subst hc
    decide

/-! ### C4: the parse side of the round trip -/

theorem digit_toNat_lt {c : Char} (h : isDigitChar c = true) :
    c.toNat < 128 := by
  obtain ⟨_, h2⟩ := digit_toNat_bounds h
  omega

theorem mem_cons_ascii {x : Char} {B : List Char} (hx : x.toNat < 128)
    (hB : ∀ c ∈ B, c.toNat < 128) : ∀ c ∈ x :: B, c.toNat < 128 := by
  intro c hc
  rcases List.mem_cons.mp hc with rfl | hc
  · exact hx
  · exact hB c hc

theorem idCitationMatch_article_run {D X : List Char} (hD0 : D ≠ [])
    (hD : ∀ c ∈ D, isDigitChar c = true) :
    idCitationMatch ("Article ".data ++ (D ++ X)) = none := by
  obtain ⟨d, D', rfl⟩ := List.exists_cons_of_ne_nil hD0
  rw [List.cons_append]
  exact idCitationMatch_article (hD d (List.mem_cons_self _ _))

theorem chineseCitationMatch_articleStr (X : List Char) :
    chineseCitationMatch ("Article ".data ++ X) = none := rfl

theorem chineseCitationMatch_artStr (X : List Char) :
    chineseCitationMatch ("Art. ".data ++ X) = none := rfl

theorem englishMatch_artStr (X : List Char) :
    englishMatch ("Art. ".data ++ X) = none := rfl

theorem idCitationMatch_cjk (X : List Char) :
    idCitationMatch ('第' :: X) = none := rfl

theorem englishMatch_cjk (X : List Char) :
    englishMatch ('第' :: X) = none := rfl

theorem shortMatch_cjk (X : List Char) :
    shortMatch ('第' :: X) = none := rfl

theorem lastT_eng_para {D E T : List Char} (hT0 : T ≠ []) :
    ("Article ".data ++ (D ++ (',' :: ' ' ::
      ("Paragraph ".data ++ (E ++ (',' :: ' ' :: T)))))).getLast?
      = T.getLast? := by
  rw [getLast?_append_ne (by simp), getLast?_append_ne (by simp),
    show ((',' :: ' ' :: ("Paragraph ".data ++ (E ++ (',' :: ' ' :: T))))
        : List Char)
      = [',', ' '] ++ ("Paragraph ".data ++ (E ++ (',' :: ' ' :: T))) from rfl,
    getLast?_append_ne (by simp), getLast?_append_ne (by simp),
    getLast?_append_ne (by simp [hT0]),
    show ((',' :: ' ' :: T) : List Char) = [',', ' '] ++ T from rfl,
    getLast?_append_ne hT0]

theorem lastT_eng_nopara {D T : List Char} (hT0 : T ≠ []) :
    ("Article ".data ++ (D ++ (',' :: ' ' :: T))).getLast? = T.getLast? := by
  rw [getLast?_append_ne (by simp), getLast?_append_ne (by simp [hT0]),
    show ((',' :: ' ' :: T) : List Char) = [',', ' '] ++ T from rfl,
    getLast?_append_ne hT0]

theorem lastT_short_para {D E T : List Char} (hT0 : T ≠ []) :
    ("Art. ".data ++ (D ++ (',' :: ' ' ::
      ("Para. ".data ++ (E ++ (' ' :: T)))))).getLast? = T.getLast? := by
  rw [getLast?_append_ne (by simp), getLast?_append_ne (by simp),
    show ((',' :: ' ' :: ("Para. ".data ++ (E ++ (' ' :: T)))) : List Char)
      = [',', ' '] ++ ("Para. ".data ++ (E ++ (' ' :: T))) from rfl,
    getLast?_append_ne (by simp), getLast?_append_ne (by simp),
    getLast?_append_ne (by simp [hT0]),
    show ((' ' :: T) : List Char) = [' '] ++ T from rfl,
    getLast?_append_ne hT0]

theorem lastT_short_nopara {D T : List Char} (hT0 : T ≠ []) :
    ("Art. ".data ++ (D ++ (' ' :: T))).getLast? = T.getLast? := by
  rw [getLast?_append_ne (by simp), getLast?_append_ne (by simp [hT0]),
    show ((' ' :: T) : List Char) = [' '] ++ T from rfl,
    getLast?_append_ne hT0]

theorem ascii_eng_para {D E T : List Char}
    (hD : ∀ c ∈ D, isDigitChar c = true) (hE : ∀ c ∈ E, isDigitChar c = true)
    (hTc : ∀ c ∈ T, titleChar c = true) :
    ∀ c ∈ "Article ".data ++ (D ++ (',' :: ' ' ::
      ("Paragraph ".data ++ (E ++ (',' :: ' ' :: T))))), c.toNat < 128 := by
  refine mem_append_ascii (by decide) (mem_append_ascii
    (fun c hc => digit_toNat_lt (hD c hc))
    (mem_cons_ascii (by decide) (mem_cons_ascii (by decide)
      (mem_append_ascii (by decide) (mem_append_ascii
        (fun c hc => digit_toNat_lt (hE c hc))
        (mem_cons_ascii (by decide) (mem_cons_ascii (by decide)
          (fun c hc => titleChar_toNat_lt (hTc c hc)))))))))

theorem ascii_eng_nopara {D T : List Char}
    (hD : ∀ c ∈ D, isDigitChar c = true)
    (hTc : ∀ c ∈ T, titleChar c = true) :
    ∀ c ∈ "Article ".data ++ (D ++ (',' :: ' ' :: T)), c.toNat < 128 :=
  mem_append_ascii (by decide) (mem_append_ascii
    (fun c hc => digit_toNat_lt (hD c hc))
    (mem_cons_ascii (by decide) (mem_cons_ascii (by decide)
      (fun c hc => titleChar_toNat_lt (hTc c hc)))))

theorem ascii_short_para {D E T : List Char}
    (hD : ∀ c ∈ D, isDigitChar c = true) (hE : ∀ c ∈ E, isDigitChar c = true)
    (hTc : ∀ c ∈ T, titleChar c = true) :
    ∀ c ∈ "Art. ".data ++ (D ++ (',' :: ' ' ::
      ("Para. ".data ++ (E ++ (' ' :: T))))), c.toNat < 128 := by
  refine mem_append_ascii (by decide) (mem_append_ascii
    (fun c hc => digit_toNat_lt (hD c hc))
    (mem_cons_ascii (by decide) (mem_cons_ascii (by decide)
      (mem_append_ascii (by decide) (mem_append_ascii
        (fun c hc => digit_toNat_lt (hE c hc))
        (mem_cons_ascii (by decide)
          (fun c hc => titleChar_toNat_lt (hTc c hc))))))))

theorem ascii_short_nopara {D T : List Char}
    (hD : ∀ c ∈ D, isDigitChar c = true)
    (hTc : ∀ c ∈ T, titleChar c = true) :
    ∀ c ∈ "Art. ".data ++ (D ++ (' ' :: T)), c.toNat < 128 :=
  mem_append_ascii (by decide) (mem_append_ascii
    (fun c hc => digit_toNat_lt (hD c hc))
    (mem_cons_ascii (by decide)
      (fun c hc => titleChar_toNat_lt (hTc c hc))))

theorem parse_eng_para {D E T : List Char}
    (hD0 : D ≠ []) (hD : ∀ c ∈ D, isDigitChar c = true)
    (hE0 : E ≠ []) (hE : ∀ c ∈ E, isDigitChar c = true)
    (hT0 : T ≠ []) (hTc : ∀ c ∈ T, titleChar c = true)
    (hTh : ∀ c, T.head? = some c → isAsciiLetter c = true)
    (hTl : ∀ c, T.getLast? = some c → isAsciiLetter c = true) :
    parseCitation (String.mk ("Article ".data ++ (D ++ (',' :: ' ' ::
        ("Paragraph ".data ++ (E ++ (',' :: ' ' :: T)))))))
      = ⟨true, "statute", none, some (String.mk (jsTrim T)),
          some (String.mk D), some (String.mk E), none⟩ := by
  have hTh' : ∀ c, T.head? = some c → jsSpace c = false := fun c hc =>
    letter_not_space (hTh c hc)
  have hjt : jsTrim ("Article ".data ++ (D ++ (',' :: ' ' ::
      ("Paragraph ".data ++ (E ++ (',' :: ' ' :: T))))))
      = "Article ".data ++ (D ++ (',' :: ' ' ::
      ("Paragraph ".data ++ (E ++ (',' :: ' ' :: T))))) := by
    refine jsTrim_ends ?_ ?_
    · intro c hc
      have h : ("Article ".data ++ (D ++ (',' :: ' ' ::
          ("Paragraph ".data ++ (E ++ (',' :: ' ' :: T)))))).head?
          = some 'A' := rfl
      rw [h] at hc
      injection hc with hc
      subst hc
      decide
    · intro c hc
      rw [lastT_eng_para hT0] at hc
      exact (title_last_facts hTl c hc).1
  suffices key : ∀ L : List Char,
      L = "Article ".data ++ (D ++ (',' :: ' ' ::
        ("Paragraph ".data ++ (E ++ (',' :: ' ' :: T))))) →
      parseCitation (String.mk L)
        = ⟨true, "statute", none, some (String.mk (jsTrim T)),
            some (String.mk D), some (String.mk E), none⟩ by
    exact key _ rfl
  intro L hL
  unfold parseCitation
  dsimp only
  rw [hL, hjt, idCitationMatch_article_run hD0 hD,
    chineseCitationMatch_articleStr,
    chineseLawFirstMatch_none (fun c hc =>
      ascii_ne_cjk (ascii_eng_para hD hE hTc c hc)),
    englishMatch_pos_para hD0 hD hE0 hE hT0 hTc hTh']
  rfl

theorem parse_eng_nopara {D T : List Char}
    (hD0 : D ≠ []) (hD : ∀ c ∈ D, isDigitChar c = true)
    (hT0 : T ≠ []) (hTc : ∀ c ∈ T, titleChar c = true)
    (hTh : ∀ c, T.head? = some c → isAsciiLetter c = true)
    (hTl : ∀ c, T.getLast? = some c → isAsciiLetter c = true) :
    parseCitation (String.mk ("Article ".data ++ (D ++ (',' :: ' ' :: T))))
      = ⟨true, "statute", none, some (String.mk (jsTrim T)),
          some (String.mk D), none, none⟩ := by
  have hTh' : ∀ c, T.head? = some c → jsSpace c = false := fun c hc =>
    letter_not_space (hTh c hc)
  have hjt : jsTrim ("Article ".data ++ (D ++ (',' :: ' ' :: T)))
      = "Article ".data ++ (D ++ (',' :: ' ' :: T)) := by
    refine jsTrim_ends ?_ ?_
    · intro c hc
      have h : ("Article ".data ++ (D ++ (',' :: ' ' :: T))).head?
          = some 'A' := rfl
      rw [h] at hc
      injection hc with hc
      subst hc
      decide
    · intro c hc
      rw [lastT_eng_nopara hT0] at hc
      exact (title_last_facts hTl c hc).1
  suffices key : ∀ L : List Char,
      L = "Article ".data ++ (D ++ (',' :: ' ' :: T)) →
      parseCitation (String.mk L)
        = ⟨true, "statute", none, some (String.mk (jsTrim T)),
            some (String.mk D), none, none⟩ by
    exact key _ rfl
  intro L hL
  unfold parseCitation
  dsimp only
  rw [hL, hjt, idCitationMatch_article_run hD0 hD,
    chineseCitationMatch_articleStr,
    chineseLawFirstMatch_none (fun c hc =>
      ascii_ne_cjk (ascii_eng_nopara hD hTc c hc)),
    englishMatch_pos_nopara hD0 hD hT0 hTc hTh']
  rfl

theorem parse_short_para {D E T : List Char}
    (hD0 : D ≠ []) (hD : ∀ c ∈ D, isDigitChar c = true)
    (hE0 : E ≠ []) (hE : ∀ c ∈ E, isDigitChar c = true)
    (hT0 : T ≠ []) (hTc : ∀ c ∈ T, titleChar c = true)
    (hTh : ∀ c, T.head? = some c → isAsciiLetter c = true)
    (hTl : ∀ c, T.getLast? = some c → isAsciiLetter c = true) :
    parseCitation (String.mk ("Art. ".data ++ (D ++ (',' :: ' ' ::
        ("Para. ".data ++ (E ++ (' ' :: T)))))))
      = ⟨true, "statute", some (String.mk (jsTrim T)), none,
          some (String.mk D), some (String.mk E), none⟩ := by
  have hTh' : ∀ c, T.head? = some c → jsSpace c = false := fun c hc =>
    letter_not_space (hTh c hc)
  have hjt : jsTrim ("Art. ".data ++ (D ++ (',' :: ' ' ::
      ("Para. ".data ++ (E ++ (' ' :: T))))))
      = "Art. ".data ++ (D ++ (',' :: ' ' ::
      ("Para. ".data ++ (E ++ (' ' :: T))))) := by
    refine jsTrim_ends ?_ ?_
    · intro c hc
      have h : ("Art. ".data ++ (D ++ (',' :: ' ' ::
          ("Para. ".data ++ (E ++ (' ' :: T)))))).head? = some 'A' := rfl
      rw [h] at hc
      injection hc with hc
      subst hc
      decide
    · intro c hc
      rw [lastT_short_para hT0] at hc
      exact (title_last_facts hTl c hc).1
  suffices key : ∀ L : List Char,
      L = "Art. ".data ++ (D ++ (',' :: ' ' ::
        ("Para. ".data ++ (E ++ (' ' :: T))))) →
      parseCitation (String.mk L)
        = ⟨true, "statute", some (String.mk (jsTrim T)), none,
            some (String.mk D), some (String.mk E), none⟩ by
    exact key _ rfl
  intro L hL
  unfold parseCitation
  dsimp only
  rw [hL, hjt, idCitationMatch_art,
    chineseCitationMatch_artStr,
    chineseLawFirstMatch_none (fun c hc =>
      ascii_ne_cjk (ascii_short_para hD hE hTc c hc)),
    englishMatch_artStr,
    shortMatch_pos_para hD0 hD hE0 hE hT0 hTc hTh']
  rfl

theorem parse_short_nopara {D T : List Char}
    (hD0 : D ≠ []) (hD : ∀ c ∈ D, isDigitChar c = true)
    (hT0 : T ≠ []) (hTc : ∀ c ∈ T, titleChar c = true)
    (hTh : ∀ c, T.head? = some c → isAsciiLetter c = true)
    (hTl : ∀ c, T.getLast? = some c → isAsciiLetter c = true) :
    parseCitation (String.mk ("Art. ".data ++ (D ++ (' ' :: T))))
      = ⟨true, "statute", some (String.mk (jsTrim T)), none,
          some (String.mk D), none, none⟩ := by
  have hTh' : ∀ c, T.head? = some c → jsSpace c = false := fun c hc =>
    letter_not_space (hTh c hc)
  have hjt : jsTrim ("Art. ".data ++ (D ++ (' ' :: T)))
      = "Art. ".data ++ (D ++ (' ' :: T)) := by
    refine jsTrim_ends ?_ ?_
    · intro c hc
      have h : ("Art. ".data ++ (D ++ (' ' :: T))).head? = some 'A' := rfl
      rw [h] at hc
      injection hc with hc
      subst hc
      decide
    · intro c hc
      rw [lastT_short_nopara hT0] at hc
      exact (title_last_facts hTl c hc).1
  suffices key : ∀ L : List Char,
      L = "Art. ".data ++ (D ++ (' ' :: T)) →
      parseCitation (String.mk L)
        = ⟨true, "statute", some (String.mk (jsTrim T)), none,
            some (String.mk D), none, none⟩ by
    exact key _ rfl
  intro L hL
  unfold parseCitation
  dsimp only
  rw [hL, hjt, idCitationMatch_art,
    chineseCitationMatch_artStr,
    chineseLawFirstMatch_none (fun c hc =>
      ascii_ne_cjk (ascii_short_nopara hD hTc c hc)),
    englishMatch_artStr,
    shortMatch_pos_nopara hD0 hD hT0 hTc hTh']
  rfl

theorem glyph_ne_law {c : Char} (h : numGlyph c = true) :
    c ≠ '法' ∧ c ≠ '典' ∧ c ≠ '例' := by
  obtain ⟨_, _, _, _, _, h6, h7, h8, _⟩ := numGlyph_facts h
  exact ⟨h6, h7, h8⟩

theorem parse_chn_nopara {G : List Char} (hG0 : G ≠ [])
    (hg : ∀ c ∈ G, numGlyph c = true) :
    parseCitation (String.mk ('第' :: (G ++ ['条'])))
      = ⟨true, "statute", none, none,
          some (jsNumStr ((chineseToArabic (String.mk G) : Int))), none, none⟩ := by
  have hjt : jsTrim ('第' :: (G ++ ['条'])) = '第' :: (G ++ ['条']) := by
    refine jsTrim_ends ?_ ?_
    · intro c hc
      injection hc with hc
      subst hc
      decide
    · intro c hc
      rw [show ('第' :: (G ++ ['条'])) = ['第'] ++ (G ++ ['条']) from rfl,
        getLast?_append_ne (by simp), getLast?_append_ne (by simp),
        show (['条'] : List Char).getLast? = some '条' from rfl] at hc
      injection hc with hc
      subst hc
      decide
  have hcjk : ∀ c ∈ ('第' :: (G ++ ['条'])),
      c ≠ '法' ∧ c ≠ '典' ∧ c ≠ '例' := by
    intro c hc
    rw [List.mem_cons] at hc
    rcases hc with rfl | hc
    · exact ⟨by decide, by decide, by decide⟩
    · rw [List.mem_append, List.mem_cons] at hc
      rcases hc with hc | rfl | hc
      · exact glyph_ne_law (hg c hc)
      · exact ⟨by decide, by decide, by decide⟩
      · cases hc
  suffices key : ∀ L : List Char, L = '第' :: (G ++ ['条']) →
      parseCitation (String.mk L)
        = ⟨true, "statute", none, none,
            some (jsNumStr ((chineseToArabic (String.mk G) : Int))), none,
            none⟩ by
    exact key _ rfl
  intro L hL
  unfold parseCitation
  dsimp only
  rw [hL, hjt, idCitationMatch_cjk,
    chineseCitationMatch_bare_nopara hG0 hg,
    chineseLawFirstMatch_none hcjk,
    englishMatch_cjk, shortMatch_cjk,
    bareChineseMatch_pos_nopara hG0 hg]
  dsimp only
  rw [parseChineseNumber_glyphs hG0 hg]
  rfl

theorem parse_chn_para {Gn Gk : List Char}
    (hGn0 : Gn ≠ []) (hgn : ∀ c ∈ Gn, numGlyph c = true)
    (hGk0 : Gk ≠ []) (hgk : ∀ c ∈ Gk, numGlyph c = true) :
    parseCitation (String.mk ('第' :: (Gn ++ '条' :: '第' :: (Gk ++ ['款']))))
      = ⟨true, "statute", none, none,
          some (jsNumStr ((chineseToArabic (String.mk Gn) : Int))),
          some (jsNumStr ((chineseToArabic (String.mk Gk) : Int))), none⟩ := by
  have hjt : jsTrim ('第' :: (Gn ++ '条' :: '第' :: (Gk ++ ['款'])))
      = '第' :: (Gn ++ '条' :: '第' :: (Gk ++ ['款'])) := by
    refine jsTrim_ends ?_ ?_
    · intro c hc
      injection hc with hc
      subst hc
      decide
    · intro c hc
      rw [show ('第' :: (Gn ++ '条' :: '第' :: (Gk ++ ['款'])))
          = ['第'] ++ (Gn ++ (['条', '第'] ++ (Gk ++ ['款'])))
          from by simp [List.cons_append],
        getLast?_append_ne (by simp), getLast?_append_ne (by simp),
        getLast?_append_ne (by simp), getLast?_append_ne (by simp),
        show (['款'] : List Char).getLast? = some '款' from rfl] at hc
      injection hc with hc
      subst hc
      decide
  have hcjk : ∀ c ∈ ('第' :: (Gn ++ '条' :: '第' :: (Gk ++ ['款']))),
      c ≠ '法' ∧ c ≠ '典' ∧ c ≠ '例' := by
    intro c hc
    rw [List.mem_cons] at hc
    rcases hc with rfl | hc
    · exact ⟨by decide, by decide, by decide⟩
    · rw [List.mem_append, List.mem_cons, List.mem_cons] at hc
      rcases hc with hc | rfl | rfl | hc
      · exact glyph_ne_law (hgn c hc)
      · exact ⟨by decide, by decide, by decide⟩
      · exact ⟨by decide, by decide, by decide⟩
      · rw [List.mem_append, List.mem_cons] at hc
        rcases hc with hc | rfl | hc
        · exact glyph_ne_law (hgk c hc)
        · exact ⟨by decide, by decide, by decide⟩
        · cases hc
  suffices key : ∀ L : List Char,
      L = '第' :: (Gn ++ '条' :: '第' :: (Gk ++ ['款'])) →
      parseCitation (String.mk L)
        = ⟨true, "statute", none, none,
            some (jsNumStr ((chineseToArabic (String.mk Gn) : Int))),
            some (jsNumStr ((chineseToArabic (String.mk Gk) : Int))), none⟩ by
    exact key _ rfl
  intro L hL
  unfold parseCitation
  dsimp only
  rw [hL, hjt, idCitationMatch_cjk,
    chineseCitationMatch_bare_para hGn0 hgn hGk0 hgk,
    chineseLawFirstMatch_none hcjk,
    englishMatch_cjk, shortMatch_cjk,
    bareChineseMatch_pos_para hGn0 hgn hGk0 hgk]
  dsimp only
  rw [parseChineseNumber_glyphs hGn0 hgn]
  simp only [Option.map_some']
  rw [parseChineseNumber_glyphs hGk0 hgk]

/-- **C4 (amended)** — citation round-trip on article and paragraph for the
styles that preserve them.  For every article number `n` and paragraph
number `k` in `1..9999`, a paragraph field that is either absent or the
decimal numeral of `k`, and a nonempty ASCII title (letters and spaces,
starting and ending with a letter): formatting with the `full`, `english`
or `short` style and re-parsing recovers exactly the original article and
paragraph fields; the `chinese` style does the same provided both title
fields are absent (the counterexample shows it cannot round-trip a title
that does not end in `法`/`典`/`条例`).  Parsing recovers the fields via
different patterns per style (ENGLISH_CITATION, SHORT_CITATION,
BARE_CHINESE_ARTICLE), including the Chinese-numeral decode on the
`chinese` style. -/
theorem C4_citation_roundtrip_amended
    (n k : Nat) (hn1 : 1 ≤ n) (hn2 : n ≤ 9999) (hk1 : 1 ≤ k) (hk2 : k ≤ 9999)
    (T : List Char) (hT0 : T ≠ [])
    (hTc : ∀ c ∈ T, titleChar c = true)
    (hTh : ∀ c, T.head? = some c → isAsciiLetter c = true)
    (hTl : ∀ c, T.getLast? = some c → isAsciiLetter c = true) :
    ∀ p ∈ ([none, some (jsNumStr (k : Int))] : List (Option String)),
      (∀ fmt ∈ [CitationFormat.full, CitationFormat.english,
          CitationFormat.short],
        (parseCitation (formatCitation
            ⟨true, "statute", some (String.mk T), none,
              some (jsNumStr (n : Int)), p, none⟩ fmt)).article
          = some (jsNumStr (n : Int))
        ∧ (parseCitation (formatCitation
            ⟨true, "statute", some (String.mk T), none,
              some (jsNumStr (n : Int)), p, none⟩ fmt)).paragraph = p)
      ∧ ((parseCitation (formatCitation
          ⟨true, "statute", none, none, some (jsNumStr (n : Int)), p, none⟩
          CitationFormat.chinese)).article = some (jsNumStr (n : Int))
        ∧ (parseCitation (formatCitation
          ⟨true, "statute", none, none, some (jsNumStr (n : Int)), p, none⟩
          CitationFormat.chinese)).paragraph = p) := by
  have hD0 := (decChars_spec n).1
  have hD := (decChars_spec n).2.1
  have hE0 := (decChars_spec k).1
  have hE := (decChars_spec k).2.1
  have hGn0 : partsChars (n / 1000) (n % 1000 / 100) (n % 100 / 10) (n % 10)
      ≠ [] := partsChars_ne_nil (by omega)
  have hgn : ∀ c ∈ partsChars (n / 1000) (n % 1000 / 100) (n % 100 / 10)
      (n % 10), numGlyph c = true :=
    partsChars_glyphs _ _ _ _ (by omega) (by omega) (by omega) (by omega)
  have hGk0 : partsChars (k / 1000) (k % 1000 / 100) (k % 100 / 10) (k % 10)
      ≠ [] := partsChars_ne_nil (by omega)
  have hgk : ∀ c ∈ partsChars (k / 1000) (k % 1000 / 100) (k % 100 / 10)
      (k % 10), numGlyph c = true :=
    partsChars_glyphs _ _ _ _ (by omega) (by omega) (by omega) (by omega)
  have hc2an : chineseToArabic (String.mk (partsChars (n / 1000)
      (n % 1000 / 100) (n % 100 / 10) (n % 10))) = n := by
    rw [← arabicToChinese_eq_parts n hn1 hn2]
    exact numeral_roundtrip n hn1 hn2
  have hc2ak : chineseToArabic (String.mk (partsChars (k / 1000)
      (k % 1000 / 100) (k % 100 / 10) (k % 10))) = k := by
    rw [← arabicToChinese_eq_parts k hk1 hk2]
    exact numeral_roundtrip k hk1 hk2
  intro p hp
  rw [List.mem_cons, List.mem_cons] at hp
  rcases hp with rfl | rfl | h
  · refine ⟨?_, ?_⟩
    · intro fmt hfmt
      rw [List.mem_cons, List.mem_cons, List.mem_cons] at hfmt
      rcases hfmt with rfl | rfl | rfl | h
      · rw [fmt_full_nopara n hT0 hTl, parse_eng_nopara hD0 hD hT0 hTc hTh hTl]
        refine ⟨?_, rfl⟩
        rw [jsNumStr_nat n]
      · rw [fmt_english_nopara n hT0 hTl,
          parse_eng_nopara hD0 hD hT0 hTc hTh hTl]
        refine ⟨?_, rfl⟩
        rw [jsNumStr_nat n]
      · rw [fmt_short_nopara n,
          short_trim (show ("Art. ".data ++ (decChars n ++ (' ' :: T))).head?
              = some 'A' from rfl)
            (lastT_short_nopara hT0) hTl,
          parse_short_nopara hD0 hD hT0 hTc hTh hTl]
        refine ⟨?_, rfl⟩
        rw [jsNumStr_nat n]
      · cases h
    · rw [fmt_chinese_nopara n hn1 hn2, parse_chn_nopara hGn0 hgn, hc2an]
      exact ⟨rfl, rfl⟩
  · refine ⟨?_, ?_⟩
    · intro fmt hfmt
      rw [List.mem_cons, List.mem_cons, List.mem_cons] at hfmt
      rcases hfmt with rfl | rfl | rfl | h
      · rw [fmt_full_para n k hT0 hTl,
          parse_eng_para hD0 hD hE0 hE hT0 hTc hTh hTl]
        refine ⟨?_, ?_⟩
        · rw [jsNumStr_nat n]
        · rw [jsNumStr_nat k]
      · rw [fmt_english_para n k hT0 hTl,
          parse_eng_para hD0 hD hE0 hE hT0 hTc hTh hTl]
        refine ⟨?_, ?_⟩
        · rw [jsNumStr_nat n]
        · rw [jsNumStr_nat k]
      · rw [fmt_short_para n k,
          short_trim (show ("Art. ".data ++ (decChars n ++ (',' :: ' ' ::
              ("Para. ".data ++ (decChars k ++ (' ' :: T)))))).head?
              = some 'A' from rfl)
            (lastT_short_para hT0) hTl,
          parse_short_para hD0 hD hE0 hE hT0 hTc hTh hTl]
        refine ⟨?_, ?_⟩
        · rw [jsNumStr_nat n]
        · rw [jsNumStr_nat k]
      · cases h
    · rw [fmt_chinese_para n k hn1 hn2 hk1 hk2,
        parse_chn_para hGn0 hgn hGk0 hgk, hc2an, hc2ak]
      exact ⟨rfl, rfl⟩
  · cases h

/-- Witness for C4 (amended) at article 59, paragraph 1, title
"Cybersecurity Law", checking the `full` and `chinese` styles. -/
theorem C4_citation_roundtrip_amended_witness :
    (parseCitation (formatCitation
        ⟨true, "statute", some "Cybersecurity Law", none, some "59", some "1",
          none⟩ CitationFormat.full)).article = some "59"
    ∧ (parseCitation (formatCitation
        ⟨true, "statute", some "Cybersecurity Law", none, some "59", some "1",
          none⟩ CitationFormat.full)).paragraph = some "1"
    ∧ (parseCitation (formatCitation
        ⟨true, "statute", none, none, some "59", some "1", none⟩
        CitationFormat.chinese)).article = some "59"
    ∧ (parseCitation (formatCitation
        ⟨true, "statute", none, none, some "59", some "1", none⟩
        CitationFormat.chinese)).paragraph = some "1" := by
  have h := C4_citation_roundtrip_amended 59 1 (by decide) (by decide)
    (by decide) (by decide) "Cybersecurity Law".data (by decide) (by decide)
    (by
      intro c hc
      rw [show ("Cybersecurity Law".data).head? = some 'C' from rfl] at hc
      injection hc with hc
      subst hc
      decide)
    (by
      intro c hc
      rw [show ("Cybersecurity Law".data).getLast? = some 'w' from rfl] at hc
      injection hc with hc
      subst hc
      decide)
  have h2 := h (some (jsNumStr ((1 : Nat) : Int)))
    (List.mem_cons_of_mem none (List.mem_cons_self _ _))
  obtain ⟨hfmts, hchn⟩ := h2
  have h3 := hfmts CitationFormat.full (List.mem_cons_self _ _)
  have e59 : jsNumStr ((59 : Nat) : Int) = "59" := by decide
  have e1 : jsNumStr ((1 : Nat) : Int) = "1" := by decide
  have eT : String.mk ("Cybersecurity Law".data) = "Cybersecurity Law" := rfl
  rw [e59, e1, eT] at h3
  rw [e59, e1] at hchn
  exact ⟨h3.1, h3.2, hchn.1, hchn.2⟩

end CLM
